import Mathlib

/-!
# SocketDispatcher (WebTunnel)

A shallow embedding of `CppCon2015/osp/WebTunnel/src/SocketDispatcher.cpp`:
the readiness loop (`runMain`), the worker loop (`runWorker`), the three
handler-task bodies (`readableImpl`, `exceptionImpl`, `timeoutImpl`), the
command bodies (`addSocketImpl`, `removeSocketImpl`, `closeSocketImpl`,
`resetImpl`), the facade calls (`addSocket`, `removeSocket`, `closeSocket`,
`reset`), `stop` and the constructor.

Conventions of the embedding:

* a stream socket is identified by its OS handle, a natural number;
* `SocketInfo::Ptr` is a shared pointer: records live in a heap addressed by
  `Ptr`, so that a task and the socket table can refer to the same record;
* `Poco::Timestamp` and `Poco::Timespan` are signed microsecond counts (`Int`);
  one step of the readiness loop reads the clock as one instant `now`;
* user handlers and the socket layer act on an abstract world `W`; each call
  returns a value or raises, together with the new world.
-/

namespace SocketDispatcher

/-! ## Data model -/

/-- OS handle of a `Poco::Net::StreamSocket`; sockets compare by handle. -/
abbrev Socket := Nat

/-- Address of a `SocketInfo` record behind a `SocketInfo::Ptr`. -/
abbrev Ptr := Nat

/-- Identity of a `SocketHandler` object behind a `SocketHandler::Ptr`. -/
abbrev HandlerId := Nat

/-- The per-socket record `SocketDispatcher::SocketInfo`, with the four fields
the source reads and writes. -/
structure SocketInfo where
  pHandler : HandlerId
  timeout : Int
  activity : Int
  wantRead : Bool
deriving DecidableEq, Repr

/-- Modelled from the spec: the constructor `SocketInfo(pHandler, timeout)` is
declared in the header, which is not part of the sources; the spec states that
a new record has `wantRead = true` and `activity = now`. -/
def SocketInfo.new (pHandler : HandlerId) (timeout now : Int) : SocketInfo :=
  { pHandler := pHandler, timeout := timeout, activity := now, wantRead := true }

/-- What a C++ call can raise: a `Poco::Net::NetException` with its error code,
another `Poco::Exception`, or an object that is not a `Poco::Exception`. -/
inductive Thrown where
  | netException (code : Int)
  | pocoException
  | foreign
deriving DecidableEq, Repr

/-- Whether `catch (Poco::Exception&)` matches the raised object. -/
def Thrown.isPoco : Thrown → Bool
  | .netException _ => true
  | .pocoException => true
  | .foreign => false

/-- Result of a call that may raise. -/
inductive Outcome (α : Type) where
  | ret (a : α)
  | raise (e : Thrown)
deriving DecidableEq, Repr

/-- The handler contract `SocketDispatcher::SocketHandler`: three callbacks,
each acting on the world and either returning or raising. -/
structure SocketHandler (W : Type) where
  readable : Socket → W → Outcome Bool × W
  exception : Socket → W → Outcome Unit × W
  timeout : Socket → W → Outcome Unit × W

/-- The socket layer used by the dispatcher: `socket.impl()->initialized()`,
`socket.poll(_timeout, SELECT_READ)` and `socket.shutdown()`. -/
structure Platform (W : Type) where
  initialized : Socket → W → Bool
  poll : Socket → W → Outcome Bool × W
  shutdown : Socket → W → Outcome Unit × W

/-- Notifications placed on the worker queue (`ReadableNotification`,
`ExceptionNotification`, `TimeoutNotification`); each carries the socket and
the pointer to its record. -/
inductive Task where
  | readable (socket : Socket) (pInfo : Ptr)
  | exception (socket : Socket) (pInfo : Ptr)
  | timeout (socket : Socket) (pInfo : Ptr)
deriving DecidableEq, Repr

/-- The socket a task was posted for. -/
def Task.socket : Task → Socket
  | .readable s _ => s
  | .exception s _ => s
  | .timeout s _ => s

/-- The record a task pins. -/
def Task.pInfo : Task → Ptr
  | .readable _ p => p
  | .exception _ p => p
  | .timeout _ p => p

/-- Notifications placed on the main queue (`AddSocketNotification`,
`RemoveSocketNotification`, `CloseSocketNotification`, `ResetNotification`). -/
inductive Command where
  | addSocket (socket : Socket) (pHandler : HandlerId) (timeout : Int)
  | removeSocket (socket : Socket)
  | closeSocket (socket : Socket)
  | reset
deriving DecidableEq, Repr

/-- Observable calls made while a task runs. -/
inductive Event where
  | readable (r : Outcome Bool)
  | poll (r : Outcome Bool)
  | exception (r : Outcome Unit)
  | timeout (r : Outcome Unit)
  | log (e : Thrown)
deriving DecidableEq, Repr

/-- Whether an event is a call of `handler.readable`. -/
def Event.isReadable : Event → Bool
  | .readable _ => true
  | _ => false

/-- Whether an event is a call of `socket.poll`. -/
def Event.isPoll : Event → Bool
  | .poll _ => true
  | _ => false

/-- Number of `handler.readable` calls in a trace. -/
def readableCalls (tr : List Event) : Nat := tr.countP Event.isReadable

/-- Number of `socket.poll` calls in a trace. -/
def pollCalls (tr : List Event) : Nat := tr.countP Event.isPoll

/-! ## The heap of records and the socket table -/

/-- Write through a `SocketInfo::Ptr`. -/
def setInfo (heap : Ptr → SocketInfo) (p : Ptr) (v : SocketInfo) : Ptr → SocketInfo :=
  fun q => if q = p then v else heap q

/-- The lookup `_socketMap.find(socket)`. -/
def mapFind : List (Socket × Ptr) → Socket → Option Ptr
  | [], _ => none
  | (k, p) :: rest, s => if k = s then some p else mapFind rest s

/-- The removal `_socketMap.erase(socket)`. -/
def mapErase : List (Socket × Ptr) → Socket → List (Socket × Ptr)
  | [], _ => []
  | (k, p) :: rest, s => if k = s then mapErase rest s else (k, p) :: mapErase rest s

/-- The assignment `_socketMap[socket] = p`: replaces the value of an existing
key, otherwise inserts the pair at its place in key order. -/
def mapInsert : List (Socket × Ptr) → Socket → Ptr → List (Socket × Ptr)
  | [], s, p => [(s, p)]
  | (k, q) :: rest, s, p =>
    if s < k then (s, p) :: (k, q) :: rest
    else if s = k then (k, p) :: rest
    else (k, q) :: mapInsert rest s p

/-- The dispatcher: its members (`_socketMap`, the two queues, `_stopped`,
`_maxReadsPerWorker`), the heap of `SocketInfo` records, the tasks currently
being executed by workers, the three list locals of `runMain`, and the world
outside the dispatcher. -/
structure Dispatcher (W : Type) where
  socketMap : List (Socket × Ptr)
  heap : Ptr → SocketInfo
  next : Ptr
  mainQueue : List Command
  workerQueue : List Task
  executing : List Task
  stopped : Bool
  maxReadsPerWorker : Int
  readList : List Socket
  writeList : List Socket
  exceptList : List Socket
  world : W

/-- The record every unallocated address holds. -/
def SocketInfo.blank : SocketInfo :=
  { pHandler := 0, timeout := 0, activity := 0, wantRead := false }

/-- The state after construction: empty table, empty queues, not stopped. -/
def Dispatcher.init {W : Type} (maxReadsPerWorker : Int) (w : W) : Dispatcher W :=
  { socketMap := [], heap := fun _ => SocketInfo.blank, next := 0,
    mainQueue := [], workerQueue := [], executing := [], stopped := false,
    maxReadsPerWorker := maxReadsPerWorker,
    readList := [], writeList := [], exceptList := [], world := w }

/-! ## Worker side: the three task bodies and the worker loop -/

/-- The collaborators of the dispatcher: the handler objects, looked up by
the `pHandler` of a record, and the socket layer. -/
structure Env (W : Type) where
  handlers : HandlerId → SocketHandler W
  net : Platform W

/-- What a task body or a loop iteration hands back: whether it returned or
let an exception propagate, the dispatcher afterwards, and the calls made. -/
abbrev Run (W : Type) := Outcome Unit × Dispatcher W × List Event

/-- The `do ... while` loop of `readableImpl`:
`do expectMore = readable(); while (expectMore && reads++ < max && poll())`.
The conjunction short-circuits from the left. The first argument bounds the
number of loop bodies; `none` means the bound was reached. -/
def readLoop {W : Type} (H : SocketHandler W) (P : Platform W) (maxReads : Int)
    (socket : Socket) : Nat → Int → W → Option (Outcome Unit × W × List Event)
  | 0, _, _ => none
  | fuel + 1, reads, w =>
    match H.readable socket w with
    | (.raise e, w1) => some (.raise e, w1, [.readable (.raise e)])
    | (.ret false, w1) => some (.ret (), w1, [.readable (.ret false)])
    | (.ret true, w1) =>
      if reads < maxReads then
        match P.poll socket w1 with
        | (.raise e, w2) =>
          some (.raise e, w2, [.readable (.ret true), .poll (.raise e)])
        | (.ret false, w2) =>
          some (.ret (), w2, [.readable (.ret true), .poll (.ret false)])
        | (.ret true, w2) =>
          match readLoop H P maxReads socket fuel (reads + 1) w2 with
          | none => none
          | some (o, w3, tr) =>
            some (o, w3, .readable (.ret true) :: .poll (.ret true) :: tr)
      else some (.ret (), w1, [.readable (.ret true)])

/-- The statement `pInfo->wantRead = socket.impl()->initialized();`. -/
def republish {W : Type} (env : Env W) (socket : Socket) (pInfo : Ptr)
    (d : Dispatcher W) : Dispatcher W :=
  let info := d.heap pInfo
  { d with
    heap := setInfo d.heap pInfo { info with wantRead := env.net.initialized socket d.world } }

/-- The body of `SocketDispatcher::readableImpl`: the read loop inside
`try`/`catch (Poco::Exception&)`, then the write of `wantRead`. An exception
that is not a `Poco::Exception` leaves the function before that write. -/
def readableImpl {W : Type} (env : Env W) (socket : Socket) (pInfo : Ptr)
    (d : Dispatcher W) : Option (Run W) :=
  match readLoop (env.handlers (d.heap pInfo).pHandler) env.net d.maxReadsPerWorker
      socket (d.maxReadsPerWorker.toNat + 1) 0 d.world with
  | none => none
  | some (.ret (), w, tr) =>
    some (.ret (), republish env socket pInfo { d with world := w }, tr)
  | some (.raise e, w, tr) =>
    if e.isPoco then
      some (.ret (), republish env socket pInfo { d with world := w }, tr ++ [.log e])
    else some (.raise e, { d with world := w }, tr)

/-- The body of `SocketDispatcher::exceptionImpl`: the handler call inside
`try`/`catch (Poco::Exception&)`, and nothing after it. -/
def exceptionImpl {W : Type} (env : Env W) (socket : Socket) (pInfo : Ptr)
    (d : Dispatcher W) : Run W :=
  match (env.handlers (d.heap pInfo).pHandler).exception socket d.world with
  | (.ret (), w) => (.ret (), { d with world := w }, [.exception (.ret ())])
  | (.raise e, w) =>
    if e.isPoco then
      (.ret (), { d with world := w }, [.exception (.raise e), .log e])
    else (.raise e, { d with world := w }, [.exception (.raise e)])

/-- The body of `SocketDispatcher::timeoutImpl`: the handler call inside
`try`/`catch (Poco::Exception&)`, then the write of `wantRead`. -/
def timeoutImpl {W : Type} (env : Env W) (socket : Socket) (pInfo : Ptr)
    (d : Dispatcher W) : Run W :=
  match (env.handlers (d.heap pInfo).pHandler).timeout socket d.world with
  | (.ret (), w) =>
    (.ret (), republish env socket pInfo { d with world := w }, [.timeout (.ret ())])
  | (.raise e, w) =>
    if e.isPoco then
      (.ret (), republish env socket pInfo { d with world := w },
        [.timeout (.raise e), .log e])
    else (.raise e, { d with world := w }, [.timeout (.raise e)])

/-- The method `execute()` of the three worker notifications. -/
def Task.execute {W : Type} (env : Env W) (t : Task) (d : Dispatcher W) : Option (Run W) :=
  match t with
  | .readable s p => readableImpl env s p d
  | .exception s p => some (exceptionImpl env s p d)
  | .timeout s p => some (timeoutImpl env s p d)

/-- One pass through the body of the `while (!_stopped)` loop of `runWorker`:
dequeue, execute, and `catch (Poco::Exception&)` around both. With an empty
queue the dequeue yields a null notification (the state after `wakeUpAll`),
and the pass does nothing. -/
def runWorkerIteration {W : Type} (env : Env W) (d : Dispatcher W) : Option (Run W) :=
  match d.workerQueue with
  | [] => some (.ret (), d, [])
  | t :: rest =>
    match t.execute env { d with workerQueue := rest } with
    | none => none
    | some (.ret (), d1, tr) => some (.ret (), d1, tr)
    | some (.raise e, d1, tr) =>
      if e.isPoco then some (.ret (), d1, tr ++ [.log e]) else some (.raise e, d1, tr)

/-! ## Readiness side: one iteration of `runMain` and the commands -/

/-- The member functions `readable`, `exception` and `timeout`: append a
notification to the worker queue. -/
def post {W : Type} (t : Task) (d : Dispatcher W) : Dispatcher W :=
  { d with workerQueue := d.workerQueue ++ [t] }

/-- The two statements `wantRead = false; activity.update();` applied to the
record at `p`. -/
def takeOut {W : Type} (now : Int) (p : Ptr) (d : Dispatcher W) : Dispatcher W :=
  let info := d.heap p
  { d with heap := setInfo d.heap p { info with wantRead := false, activity := now } }

/-- The statement `activity.update();` applied to the record at `p`. -/
def touch {W : Type} (now : Int) (p : Ptr) (d : Dispatcher W) : Dispatcher W :=
  let info := d.heap p
  { d with heap := setInfo d.heap p { info with activity := now } }

/-- The test of the first `if` in the loop over `_socketMap`:
`wantRead && timeout != 0 && timeout < activity.elapsed()`. -/
def timedOut (now : Int) (info : SocketInfo) : Bool :=
  info.wantRead && info.timeout != 0 && decide (info.timeout < now - info.activity)

/-- The body of the loop over `_socketMap` in `runMain`, for the entry
`(socket, pInfo)`: the timeout test, then the test of `wantRead` as it is
after the first `if`. -/
def watchEntry {W : Type} (now : Int) (d : Dispatcher W) (e : Socket × Ptr) :
    Dispatcher W :=
  let d1 := if timedOut now (d.heap e.2) then post (Task.timeout e.1 e.2) (takeOut now e.2 d)
    else d
  if (d1.heap e.2).wantRead then
    { d1 with readList := d1.readList ++ [e.1], exceptList := d1.exceptList ++ [e.1] }
  else touch now e.2 d1

/-- The build-watchlists step: `readList.clear(); exceptList.clear();` and the
loop over `_socketMap` in key order. -/
def buildWatchlists {W : Type} (now : Int) (d : Dispatcher W) : Dispatcher W :=
  d.socketMap.foldl (watchEntry now) { d with readList := [], exceptList := [] }

/-- What `Poco::Net::Socket::select` hands back: its return value and the
three lists as it leaves them. -/
structure SelectResult where
  n : Int
  readReady : List Socket
  writeReady : List Socket
  exceptReady : List Socket
deriving DecidableEq, Repr

/-- The contract of `select`: each list it leaves is a sublist of the list it
was given. -/
def SelectResult.Valid {W : Type} (r : SelectResult) (d : Dispatcher W) : Prop :=
  r.readReady.Sublist d.readList ∧ r.writeReady.Sublist d.writeList ∧
    r.exceptReady.Sublist d.exceptList

/-- The effect of the call `select(readList, writeList, exceptList, _timeout)`
on the three lists. -/
def select {W : Type} (r : SelectResult) (d : Dispatcher W) : Dispatcher W :=
  { d with readList := r.readReady, writeList := r.writeReady, exceptList := r.exceptReady }

/-- The body of the two loops after `select`: look the socket up in
`_socketMap`; when found, take its record out of rotation and post the task. -/
def dispatchOne {W : Type} (now : Int) (mk : Socket → Ptr → Task) (d : Dispatcher W)
    (s : Socket) : Dispatcher W :=
  match mapFind d.socketMap s with
  | some p => post (mk s p) (takeOut now p d)
  | none => d

/-- The dispatch-readiness step: `if (n > 0)`, the loop over `readList`
posting Readable tasks, then the loop over `exceptList` posting Exception
tasks. -/
def dispatchReadiness {W : Type} (now : Int) (n : Int) (d : Dispatcher W) : Dispatcher W :=
  if n > 0 then
    let d1 := d.readList.foldl (dispatchOne now Task.readable) d
    d1.exceptList.foldl (dispatchOne now Task.exception) d1
  else d

/-- The body of `addSocketImpl`: `_socketMap[socket] = new SocketInfo(...)`. -/
def addSocketImpl {W : Type} (now : Int) (socket : Socket) (pHandler : HandlerId)
    (timeout : Int) (d : Dispatcher W) : Dispatcher W :=
  { d with
    socketMap := mapInsert d.socketMap socket d.next,
    heap := setInfo d.heap d.next (SocketInfo.new pHandler timeout now),
    next := d.next + 1 }

/-- The body of `removeSocketImpl`: `_socketMap.erase(socket)`. -/
def removeSocketImpl {W : Type} (socket : Socket) (d : Dispatcher W) : Dispatcher W :=
  { d with socketMap := mapErase d.socketMap socket }

/-- The body of `closeSocketImpl`: erase the entry, then `socket.shutdown()`,
which may raise. -/
def closeSocketImpl {W : Type} (env : Env W) (socket : Socket) (d : Dispatcher W) :
    Outcome Unit × Dispatcher W :=
  let d1 := removeSocketImpl socket d
  match env.net.shutdown socket d1.world with
  | (o, w) => (o, { d1 with world := w })

/-- The body of `resetImpl`: `_socketMap.clear()`. -/
def resetImpl {W : Type} (d : Dispatcher W) : Dispatcher W :=
  { d with socketMap := [] }

/-- The method `execute()` of the four main-queue notifications, run on the
readiness thread at instant `now`. -/
def Command.execute {W : Type} (env : Env W) (now : Int) (c : Command)
    (d : Dispatcher W) : Outcome Unit × Dispatcher W :=
  match c with
  | .addSocket s h t => (.ret (), addSocketImpl now s h t d)
  | .removeSocket s => (.ret (), removeSocketImpl s d)
  | .closeSocket s => closeSocketImpl env s d
  | .reset => (.ret (), resetImpl d)

/-- The first three steps of one pass through the loop of `runMain`, at
instant `now`, with `select` handing back `r`. -/
def readinessSteps {W : Type} (now : Int) (r : SelectResult) (d : Dispatcher W) :
    Dispatcher W :=
  dispatchReadiness now r.n (select r (buildWatchlists now d))

/-- What the threads of the dispatcher do, one piece at a time: the four
pieces of a pass through the loop of `runMain` (build the watchlists, wait,
dispatch, execute a command), and a worker running the body of a task. -/
inductive Action where
  | build (now : Int)
  | wait (r : SelectResult)
  | dispatch (now : Int) (n : Int)
  | command (now : Int) (c : Command)
  | work (t : Task)
deriving DecidableEq, Repr

/-- The state a worker leaves when it runs the body of a task, whether the
body returns or is left by an exception. -/
def Task.run {W : Type} (env : Env W) (t : Task) (d : Dispatcher W) : Dispatcher W :=
  match t.execute env d with
  | some r => r.2.1
  | none => d

/-- The effect of one piece of work. -/
def Action.apply {W : Type} (env : Env W) (a : Action) (d : Dispatcher W) :
    Dispatcher W :=
  match a with
  | .build now => buildWatchlists now d
  | .wait r => select r d
  | .dispatch now n => dispatchReadiness now n d
  | .command now c => (c.execute env now d).2
  | .work t => t.run env d

/-- A run of the dispatcher: the pieces applied in order. -/
def runActions {W : Type} (env : Env W) (as : List Action) (d : Dispatcher W) :
    Dispatcher W :=
  as.foldl (fun acc a => a.apply env acc) d

/-- A run in which every `select` keeps its contract. -/
def ValidRun {W : Type} (env : Env W) : List Action → Dispatcher W → Prop
  | [], _ => True
  | a :: as, d =>
    (match a with
      | .wait r => r.Valid d
      | _ => True) ∧ ValidRun env as (a.apply env d)

/-- The record at an address after the loop body of the build step has
handled its entry: taken out of rotation when timed out, untouched when still
wanted, otherwise its clock reset. -/
def afterWatch (now : Int) (i : SocketInfo) : SocketInfo :=
  if timedOut now i then { i with wantRead := false, activity := now }
  else if i.wantRead then i
  else { i with activity := now }

/-- Well-formed socket table: keys strictly increasing (it is a `std::map`),
no record shared by two entries, every record allocated. -/
def Dispatcher.WF {W : Type} (d : Dispatcher W) : Prop :=
  (d.socketMap.map Prod.fst).Pairwise (· < ·) ∧ (d.socketMap.map Prod.snd).Nodup ∧
    ∀ e ∈ d.socketMap, e.2 < d.next

/-- Number of queued Timeout tasks that pin the record at `p`. -/
def timeoutsFor (p : Ptr) (q : List Task) : Nat :=
  q.countP (fun t => match t with | .timeout _ r => decide (r = p) | _ => false)

/-- Number of tasks in a list that pin the record at `p`. -/
def tasksFor (p : Ptr) (q : List Task) : Nat := q.countP (fun t => decide (t.pInfo = p))

/-- Number of tasks in a list that were posted for socket `s`. -/
def tasksOn (s : Socket) (q : List Task) : Nat := q.countP (fun t => decide (t.socket = s))

/-- Handler tasks of a record that are queued or executing. -/
def Dispatcher.outstanding {W : Type} (d : Dispatcher W) (p : Ptr) : Nat :=
  tasksFor p d.workerQueue + tasksFor p d.executing

/-- Handler tasks of a socket handle that are queued or executing. -/
def Dispatcher.inFlight {W : Type} (d : Dispatcher W) (s : Socket) : Nat :=
  tasksOn s d.workerQueue + tasksOn s d.executing

/-! ## Fixtures: concrete handlers and socket layers over the one-point world -/

/-- A handler whose `readable` always reports more data and whose other
callbacks return. -/
def chattyHandler : SocketHandler Unit :=
  { readable := fun _ w => (.ret true, w),
    exception := fun _ w => (.ret (), w),
    timeout := fun _ w => (.ret (), w) }

/-- A handler whose callbacks all raise a `Poco::Exception`. -/
def failingHandler : SocketHandler Unit :=
  { readable := fun _ w => (.raise .pocoException, w),
    exception := fun _ w => (.raise .pocoException, w),
    timeout := fun _ w => (.raise .pocoException, w) }

/-- A handler whose callbacks all raise an object that is not a
`Poco::Exception` (such as `std::bad_alloc`). -/
def foreignHandler : SocketHandler Unit :=
  { readable := fun _ w => (.raise .foreign, w),
    exception := fun _ w => (.raise .foreign, w),
    timeout := fun _ w => (.raise .foreign, w) }

/-- A socket layer in which every socket stays open and always polls ready. -/
def readyNet : Platform Unit :=
  { initialized := fun _ _ => true,
    poll := fun _ w => (.ret true, w),
    shutdown := fun _ w => (.ret (), w) }

/-- Every handler is `chattyHandler`. -/
def chattyEnv : Env Unit := { handlers := fun _ => chattyHandler, net := readyNet }

/-- Every handler is `failingHandler`. -/
def failingEnv : Env Unit := { handlers := fun _ => failingHandler, net := readyNet }

/-- Every handler is `foreignHandler`. -/
def foreignEnv : Env Unit := { handlers := fun _ => foreignHandler, net := readyNet }

/-- One socket, handle 1, registered at instant 0 with handler 0 and no idle
timeout, in a dispatcher whose read cap is `m`. -/
def oneSocket (m : Int) : Dispatcher Unit :=
  addSocketImpl 0 1 0 0 (Dispatcher.init m ())

/-- What the last statement of `readableImpl` and `timeoutImpl` leaves behind:
`wantRead` of the task's record equals "the socket is initialized" in the
final world, its other three fields are as before, and every other record is
untouched. -/
def Republished {W : Type} (env : Env W) (socket : Socket) (pInfo : Ptr)
    (d d' : Dispatcher W) : Prop :=
  (d'.heap pInfo).wantRead = env.net.initialized socket d'.world ∧
  (d'.heap pInfo).pHandler = (d.heap pInfo).pHandler ∧
  (d'.heap pInfo).timeout = (d.heap pInfo).timeout ∧
  (d'.heap pInfo).activity = (d.heap pInfo).activity ∧
  ∀ q, q ≠ pInfo → d'.heap q = d.heap q

/-- Every failure the handlers and `socket.poll` can raise is a
`Poco::Exception`. -/
def Env.PocoOnly {W : Type} (env : Env W) : Prop :=
  (∀ h s w e, ((env.handlers h).readable s w).1 = .raise e → e.isPoco = true) ∧
  (∀ h s w e, ((env.handlers h).exception s w).1 = .raise e → e.isPoco = true) ∧
  (∀ h s w e, ((env.handlers h).timeout s w).1 = .raise e → e.isPoco = true) ∧
  (∀ s w e, (env.net.poll s w).1 = .raise e → e.isPoco = true)

/-- The state a worker finds after socket 1 was reported in the exception set
only: one Exception task queued, the record out of rotation. -/
def afterExceptionReport : Dispatcher Unit :=
  readinessSteps 0 { n := 1, readReady := [], writeReady := [], exceptReady := [1] }
    (oneSocket 1)

/-- The tasks a step appended to the worker queue: what the queue holds
beyond its former length. -/
def enqueuedBy (before after : List Task) : List Task := after.drop before.length

/-- One socket, handle 1, registered at instant 0 with a negative idle
timeout of one microsecond. -/
def negativeTimeoutSocket : Dispatcher Unit :=
  addSocketImpl 0 1 0 (-1) (Dispatcher.init 1 ())

/-- One socket, handle 1, registered at instant 0 with an idle timeout of
three microseconds. -/
def timedSocket : Dispatcher Unit :=
  addSocketImpl 0 1 0 3 (Dispatcher.init 1 ())

/-- A record taken out of rotation at instant `now`. -/
def SocketInfo.out (now : Int) (i : SocketInfo) : SocketInfo :=
  { i with wantRead := false, activity := now }

/-- A short run from the initial state: register socket 1 (idle timeout 3)
and socket 2 (no idle timeout), then one pass of the readiness loop in which
`select` reports socket 2 ready for reading. -/
def sampleRun : List Action :=
  [ .command 0 (.addSocket 1 0 3), .command 0 (.addSocket 2 0 0), .build 1,
    .wait { n := 1, readReady := [2], writeReady := [], exceptReady := [] },
    .dispatch 1 1 ]

/-- A select result that leaves no socket in both the read list and the
except list. -/
def SelectResult.Disjoint (r : SelectResult) : Prop :=
  ∀ s, s ∈ r.readReady → s ∉ r.exceptReady

/-- The step relation of the dispatcher: a pass of the readiness loop through
build, wait and dispatch, with a select result that keeps the contract of
`select` and satisfies `P`; the execution of a command; a worker taking the
task at the head of the worker queue; a worker completing a task it is
executing. -/
inductive Step {W : Type} (env : Env W) (P : SelectResult → Prop) :
    Dispatcher W → Dispatcher W → Prop where
  | iterate (d : Dispatcher W) (now : Int) (r : SelectResult)
      (hv : r.Valid (buildWatchlists now d)) (hP : P r) :
      Step env P d (readinessSteps now r d)
  | command (d : Dispatcher W) (now : Int) (c : Command) :
      Step env P d (c.execute env now d).2
  | start (d : Dispatcher W) (t : Task) (rest : List Task)
      (h : d.workerQueue = t :: rest) :
      Step env P d { d with workerQueue := rest, executing := t :: d.executing }
  | finish (d : Dispatcher W) (t : Task) (h : t ∈ d.executing) (d' : Dispatcher W)
      (tr : List Event) (hex : t.execute env d = some (.ret (), d', tr)) :
      Step env P d { d' with executing := d.executing.erase t }

/-- The states the dispatcher reaches from its initial state. -/
inductive Reachable {W : Type} (env : Env W) (P : SelectResult → Prop) (m : Int) (w : W) :
    Dispatcher W → Prop where
  | init : Reachable env P m w (Dispatcher.init m w)
  | step (d d' : Dispatcher W) (h : Reachable env P m w d) (hs : Step env P d d') :
      Reachable env P m w d'

/-- Every task, queued or executing, pins an allocated record. -/
def TasksBound {W : Type} (d : Dispatcher W) : Prop :=
  ∀ t, t ∈ d.workerQueue ∨ t ∈ d.executing → t.pInfo < d.next

/-- Every record has at most one outstanding task, and none while its
`wantRead` is true. -/
def Quiet {W : Type} (d : Dispatcher W) : Prop :=
  ∀ p, d.outstanding p ≤ 1 ∧ ((d.heap p).wantRead = true → d.outstanding p = 0)

/-- The select result that reports socket 1 ready for reading. -/
def readReady1 : SelectResult :=
  { n := 1, readReady := [1], writeReady := [], exceptReady := [] }

/-- The select result that reports socket 1 both ready for reading and in
error. -/
def bothReady1 : SelectResult :=
  { n := 2, readReady := [1], writeReady := [], exceptReady := [1] }

/-- Socket 1 is reported readable, re-registered by an AddSocket command while
its Readable task is still queued, and reported readable again. -/
def reAddedState : Dispatcher Unit :=
  readinessSteps 2 readReady1 (addSocketImpl 1 1 0 0 (readinessSteps 0 readReady1 (oneSocket 1)))

/-- Socket 1 is reported both readable and in error by one `select`. -/
def bothReportedState : Dispatcher Unit :=
  readinessSteps 0 bothReady1 (oneSocket 1)

/-- The invariant behind "at most one task per record": a well-formed table,
tasks that pin allocated records only, and `Quiet`. -/
def Inv {W : Type} (d : Dispatcher W) : Prop :=
  d.WF ∧ TasksBound d ∧ Quiet d

/-! ## The facade, shutdown and construction -/

/-- The facade call `SocketDispatcher::reset()`: enqueue a Reset command. -/
def reset {W : Type} (d : Dispatcher W) : Dispatcher W :=
  { d with mainQueue := d.mainQueue ++ [Command.reset] }

/-- The facade call `SocketDispatcher::addSocket(socket, pHandler, timeout)`:
enqueue an AddSocket command. -/
def addSocket {W : Type} (socket : Socket) (pHandler : HandlerId) (timeout : Int)
    (d : Dispatcher W) : Dispatcher W :=
  { d with mainQueue := d.mainQueue ++ [Command.addSocket socket pHandler timeout] }

/-- The facade call `SocketDispatcher::removeSocket(socket)`: enqueue a
RemoveSocket command. -/
def removeSocket {W : Type} (socket : Socket) (d : Dispatcher W) : Dispatcher W :=
  { d with mainQueue := d.mainQueue ++ [Command.removeSocket socket] }

/-- The facade call `SocketDispatcher::closeSocket(socket)`: enqueue a
CloseSocket command. -/
def closeSocket {W : Type} (socket : Socket) (d : Dispatcher W) : Dispatcher W :=
  { d with mainQueue := d.mainQueue ++ [Command.closeSocket socket] }

/-- The facade call that submits the command `c`. -/
def submit {W : Type} (c : Command) (d : Dispatcher W) : Dispatcher W :=
  match c with
  | .addSocket s h t => addSocket s h t d
  | .removeSocket s => removeSocket s d
  | .closeSocket s => closeSocket s d
  | .reset => reset d

/-- The body of `SocketDispatcher::stop()`. When the flag is not yet set: set
it, wake both queues, join the threads, clear the table. `wind` is what the
threads still do between the moment the flag is set and the moment they are
joined. When the flag is set already, nothing happens. -/
def stop {W : Type} (env : Env W) (wind : List Action) (d : Dispatcher W) : Dispatcher W :=
  if d.stopped then d
  else
    let joined := runActions env wind { d with stopped := true }
    { joined with socketMap := [] }

/-- What the constructor leaves behind: the dispatcher, the number of worker
threads it started, and the poll timeout it stored. -/
structure Constructed (W : Type) where
  dispatcher : Dispatcher W
  workerThreads : Nat
  pollTimeout : Int

/-- The constructor `SocketDispatcher(threadCount, timeout, maxReadsPerWorker)`:
it stores its arguments, runs `for (i = 0; i < threadCount; i++)` starting one
worker per pass, and starts the main thread. It contains no test of its
arguments and no `throw`. -/
def construct {W : Type} (threadCount : Int) (timeout : Int) (maxReadsPerWorker : Int)
    (w : W) : Outcome (Constructed W) :=
  .ret { dispatcher := Dispatcher.init maxReadsPerWorker w,
         workerThreads := threadCount.toNat,
         pollTimeout := timeout }

/-- The life of a dispatcher, seen from outside: while the flag is not set the
threads work; facade calls and `stop()` can come at any time. Once `stop()`
has returned the threads are joined, so no piece of work follows. -/
inductive Life {W : Type} (env : Env W) : Dispatcher W → Dispatcher W → Prop where
  | act (d : Dispatcher W) (a : Action) (h : d.stopped = false) : Life env d (a.apply env d)
  | call (d : Dispatcher W) (c : Command) : Life env d (submit c d)
  | stop (d : Dispatcher W) (wind : List Action) : Life env d (stop env wind d)

/-- The states a dispatcher constructed with cap `m` in world `w` passes
through during its life. -/
inductive Alive {W : Type} (env : Env W) (m : Int) (w : W) : Dispatcher W → Prop where
  | init : Alive env m w (Dispatcher.init m w)
  | step (d d' : Dispatcher W) (h : Alive env m w d) (hs : Life env d d') : Alive env m w d'

/-- The operating system keeps no count of shutdowns: shutting a socket down
a second time leaves the world as the first shutdown left it. -/
def ShutdownIdempotent {W : Type} (P : Platform W) : Prop :=
  ∀ s w, (P.shutdown s (P.shutdown s w).2).2 = (P.shutdown s w).2

/-- A socket layer over the list of sockets shut down so far: the first
shutdown of a socket records it, a further one raises `ENOTCONN` (107). -/
def shutNet : Platform (List Socket) :=
  { initialized := fun _ _ => true,
    poll := fun _ w => (.ret true, w),
    shutdown := fun s w => if s ∈ w then (.raise (.netException 107), w) else (.ret (), s :: w) }

/-- Handlers that return, over `shutNet`. -/
def shutEnv : Env (List Socket) :=
  { handlers := fun _ =>
      { readable := fun _ w => (.ret false, w),
        exception := fun _ w => (.ret (), w),
        timeout := fun _ w => (.ret (), w) },
    net := shutNet }

/-- Sockets 1 and 2 registered at instant 0, in the world of `shutNet`. -/
def twoSockets : Dispatcher (List Socket) :=
  addSocketImpl 0 2 0 0 (addSocketImpl 0 1 0 0 (Dispatcher.init 1 []))

/-- The facade calls for a list of commands, made one after the other. -/
def submitAll {W : Type} (cs : List Command) (d : Dispatcher W) : Dispatcher W :=
  cs.foldl (fun acc c => submit c acc) d

/-! ## The drain step and the loop of `runMain` -/

/-- One dequeue on the main queue during the drain step: whether the call
was the blocking `waitDequeueNotification()` (made when `_socketMap.empty()`)
or the non-blocking `dequeueNotification()`, and what it handed back. -/
structure Dequeued where
  blocking : Bool
  got : Option Command
deriving DecidableEq, Repr

/-- The drain step of `runMain` on the queued commands: dequeue, execute,
dequeue again, until a dequeue hands back nothing or a command raises. The
test `_socketMap.empty()` is made anew before every dequeue. A blocking
dequeue on an empty queue parks the thread; the drain of the commands that
arrive later is the drain of that later queue. -/
def drain {W : Type} (env : Env W) (now : Int) :
    List Command → Dispatcher W → Outcome Unit × Dispatcher W × List Dequeued
  | [], d =>
    (.ret (), { d with mainQueue := [] },
      [{ blocking := d.socketMap.isEmpty, got := none }])
  | c :: rest, d =>
    match c.execute env now { d with mainQueue := rest } with
    | (.ret (), d1) =>
      match drain env now rest d1 with
      | (o, d2, evs) => (o, d2, { blocking := d.socketMap.isEmpty, got := some c } :: evs)
    | (.raise e, d1) =>
      (.raise e, d1, [{ blocking := d.socketMap.isEmpty, got := some c }])

/-- The drain step on the main queue as it stands. -/
def drainCommands {W : Type} (env : Env W) (now : Int) (d : Dispatcher W) :
    Outcome Unit × Dispatcher W × List Dequeued :=
  drain env now d.mainQueue d

/-- The log lines of `runMain`: the debug line for a socket that is no
longer connected, the error line for another network exception, the error
line for another `Poco::Exception`. -/
inductive MainLog where
  | notConnected
  | networkError
  | otherError
deriving DecidableEq, Repr

/-- One pass through the body of the `while (!_stopped)` loop of `runMain`:
the `try` block (build, `select`, dispatch, drain) and the two `catch`
clauses. `sel` is what the call of `select` does, `enotconn` the value of
`POCO_ENOTCONN`. An exception that is not a `Poco::Exception` leaves the
body. -/
def runMainIteration {W : Type} (env : Env W) (enotconn : Int) (now : Int)
    (sel : Outcome SelectResult) (d : Dispatcher W) :
    Outcome Unit × Dispatcher W × List MainLog :=
  let d1 := buildWatchlists now d
  let body : Outcome Unit × Dispatcher W :=
    match sel with
    | .raise e => (.raise e, d1)
    | .ret r =>
      let res := drainCommands env now (dispatchReadiness now r.n (select r d1))
      (res.1, res.2.1)
  match body with
  | (.ret (), d2) => (.ret (), d2, [])
  | (.raise (.netException code), d2) =>
    (.ret (), d2, [if code = enotconn then .notConnected else .networkError])
  | (.raise .pocoException, d2) => (.ret (), d2, [.otherError])
  | (.raise .foreign, d2) => (.raise .foreign, d2, [])

/-- What happens around the readiness thread: a pass through its loop, at an
instant and with an outcome of `select`, or another thread setting the flag
`_stopped` (the first statement of `stop()`). -/
inductive MainEvent where
  | pass (now : Int) (sel : Outcome SelectResult)
  | stopRequested
deriving DecidableEq, Repr

/-- How an observed stretch of `runMain` ends: the loop test failed and the
function returned, the thread is still in the loop, or an exception left the
function. -/
inductive MainEnd where
  | exited
  | running
  | escaped (e : Thrown)
deriving DecidableEq, Repr

/-- The function `runMain` along a schedule of events: each pass tests
`!_stopped` and then runs the body. -/
def runMain {W : Type} (env : Env W) (enotconn : Int) :
    List MainEvent → Dispatcher W → MainEnd × Dispatcher W
  | [], d => (if d.stopped then .exited else .running, d)
  | .stopRequested :: rest, d => runMain env enotconn rest { d with stopped := true }
  | .pass now sel :: rest, d =>
    if d.stopped then (.exited, d)
    else
      match runMainIteration env enotconn now sel d with
      | (.ret (), d1, _) => runMain env enotconn rest d1
      | (.raise e, d1, _) => (.escaped e, d1)

/-- Every failure `socket.shutdown()` can raise is a `Poco::Exception`. -/
def ShutdownPoco {W : Type} (P : Platform W) : Prop :=
  ∀ s w e, (P.shutdown s w).1 = .raise e → e.isPoco = true

/-- Every failure `select` raises in the schedule is a `Poco::Exception`. -/
def SelectPoco (sched : List MainEvent) : Prop :=
  ∀ now e, MainEvent.pass now (.raise e) ∈ sched → e.isPoco = true

/-- The left fold of the command semantics: the commands executed one after
the other, in the order of the list, each on the state the one before left. -/
def executeAll {W : Type} (env : Env W) (now : Int) (cs : List Command)
    (d : Dispatcher W) : Dispatcher W :=
  cs.foldl (fun acc c => (c.execute env now acc).2) d

/-- Socket 1 is closed twice and socket 2 removed, all by facade calls. -/
def closedTwice : Dispatcher (List Socket) :=
  submitAll [.closeSocket 1, .closeSocket 1, .removeSocket 2] twoSockets

/-- A schedule of three passes: `select` raises `ENOTCONN` (107), then
raises another network error, then returns with nothing ready. -/
def stormySchedule : List MainEvent :=
  [ .pass 1 (.raise (.netException 107)), .pass 2 (.raise (.netException 104)),
    .pass 3 (.ret { n := 0, readReady := [], writeReady := [], exceptReady := [] }) ]

/-- How the readiness loop may change a record from `i` to `j` in a step at
instant `now`: when `wantRead` differs the activity is `now`, and `wantRead`
is not turned on. -/
def Advanced (now : Int) (i j : SocketInfo) : Prop :=
  (j.wantRead ≠ i.wantRead → j.activity = now) ∧ (j.wantRead = true → i.wantRead = true)

/-- The state a worker finds after socket 1 was reported ready for reading at
instant 0: one Readable task queued, the record out of rotation. -/
def afterReadableReport : Dispatcher Unit :=
  readinessSteps 0 readReady1 (oneSocket 1)

/-! ## Sockets closed by handlers, and commands that spare a socket -/

/-- A socket layer over the list of sockets closed so far: a socket is
initialized until it is closed; a shutdown closes it. -/
def closableNet : Platform (List Socket) :=
  { initialized := fun s w => decide (s ∉ w),
    poll := fun _ w => (.ret false, w),
    shutdown := fun s w => (.ret (), s :: w) }

/-- Handlers that close their socket in every callback, over `closableNet`. -/
def closingEnv : Env (List Socket) :=
  { handlers := fun _ =>
      { readable := fun s w => (.ret false, s :: w),
        exception := fun s w => (.ret (), s :: w),
        timeout := fun s w => (.ret (), s :: w) },
    net := closableNet }

/-- Socket 1 was registered and reported readable at instant 0, a worker has
dequeued and run its Readable task, and the handler has closed the socket. -/
def closedByHandler : Dispatcher (List Socket) :=
  match runWorkerIteration closingEnv
      (readinessSteps 0 readReady1 (addSocketImpl 0 1 0 0 (Dispatcher.init 1 []))) with
  | some r => r.2.1
  | none => Dispatcher.init 1 []

/-- The select result that reports nothing. -/
def nothingReady : SelectResult :=
  { n := 0, readReady := [], writeReady := [], exceptReady := [] }

/-- Whether a command leaves the entry of socket `s` alone: it is neither a
Reset nor an AddSocket, RemoveSocket or CloseSocket for `s`. -/
def Command.spares (s : Socket) : Command → Bool
  | .addSocket s' _ _ => decide (s' ≠ s)
  | .removeSocket s' => decide (s' ≠ s)
  | .closeSocket s' => decide (s' ≠ s)
  | .reset => false

/-- Socket 1 is the one registered socket, and its removal is queued. -/
def removalQueued : Dispatcher Unit :=
  submit (.removeSocket 1) (oneSocket 1)

/-- Whether a piece of work happens at instant `t` or later; a wait and a
worker task read no clock. -/
def Action.notBefore (t : Int) : Action → Prop
  | .build now => t ≤ now
  | .wait _ => True
  | .dispatch now _ => t ≤ now
  | .command now _ => t ≤ now
  | .work _ => True

/-- How a step at instant `now` may change the clock of a record from `i` to
`j`: it leaves `activity` alone or sets it to `now`. -/
def Clocked (now : Int) (i j : SocketInfo) : Prop :=
  j.activity = i.activity ∨ j.activity = now

/-- The calls of one read burst as the specification words them, for the cap
`cap` and the burst counter at `reads`: `readable` is called; it is called
again only after it returned true, the counter was below the cap, and a poll
of the socket reported ready, with the counter one higher. -/
inductive BurstTrace (cap : Int) : Int → List Event → Prop where
  | raised (reads : Int) (e : Thrown) : BurstTrace cap reads [.readable (.raise e)]
  | finished (reads : Int) : BurstTrace cap reads [.readable (.ret false)]
  | capped (reads : Int) (h : ¬ reads < cap) : BurstTrace cap reads [.readable (.ret true)]
  | pollRaised (reads : Int) (h : reads < cap) (e : Thrown) :
      BurstTrace cap reads [.readable (.ret true), .poll (.raise e)]
  | notReady (reads : Int) (h : reads < cap) :
      BurstTrace cap reads [.readable (.ret true), .poll (.ret false)]
  | again (reads : Int) (h : reads < cap) (tr : List Event)
      (ht : BurstTrace cap (reads + 1) tr) :
      BurstTrace cap reads (.readable (.ret true) :: .poll (.ret true) :: tr)

/-! ## A socket closed by its handler on timeout -/

/-- One socket, handle 1, registered at instant 0 with an idle timeout of
three microseconds, in the world of `closableNet`. -/
def timedClosable : Dispatcher (List Socket) :=
  addSocketImpl 0 1 0 3 (Dispatcher.init 1 [])

/-- What follows the Timeout task of socket 1: a worker runs the task, and
the readiness loop makes one full pass at instant 20 and builds its
watchlists again at instant 40. -/
def closedOnTimeout : List Action :=
  [ .work (.timeout 1 0), .build 20, .wait nothingReady, .dispatch 20 0, .build 40 ]

/-! ## One socket out of rotation beside one that is watched -/

/-- Sockets 1 (idle timeout 3) and 2 (no idle timeout) were registered at
instant 0, and socket 1 was reported readable in the pass at instant 0: its
record is out of rotation and its Readable task is queued. -/
def oneOutOneIn : Dispatcher Unit :=
  readinessSteps 0 readReady1
    (addSocketImpl 0 2 0 0 (addSocketImpl 0 1 0 3 (Dispatcher.init 1 ())))

/-- The select result that reports socket 2 ready for reading. -/
def readReady2 : SelectResult :=
  { n := 1, readReady := [2], writeReady := [], exceptReady := [] }

/-! ## Theorems -/

theorem readLoop_isSome {W : Type} (H : SocketHandler W) (P : Platform W)
    (maxReads : Int) (socket : Socket) :
    ∀ (fuel : Nat) (reads : Int) (w : W), (maxReads - reads).toNat < fuel →
      (readLoop H P maxReads socket fuel reads w).isSome = true := by
  intro fuel
  induction fuel with
  | zero => intro reads w h; omega
  | succ n ih =>
    intro reads w h
    unfold readLoop
    rcases hr : H.readable socket w with ⟨o, w1⟩
    rcases o with b | e
    · cases b
      · simp
      · by_cases hlt : reads < maxReads
        · rcases hp : P.poll socket w1 with ⟨q, w2⟩
          rcases q with c | e
          · cases c
            · simp [hlt, hp]
            · have h2 : (maxReads - (reads + 1)).toNat < n := by omega
              have h3 := ih (reads + 1) w2 h2
              rcases hl : readLoop H P maxReads socket n (reads + 1) w2 with _ | ⟨o, w3, tr⟩
              · simp [hl] at h3
              · simp [hlt, hp, hl]
          · simp [hlt, hp]
        · simp [hlt]
    · simp

theorem readLoop_calls_le {W : Type} (H : SocketHandler W) (P : Platform W)
    (maxReads : Int) (socket : Socket) :
    ∀ (fuel : Nat) (reads : Int) (w : W) (o : Outcome Unit) (w' : W) (tr : List Event),
      readLoop H P maxReads socket fuel reads w = some (o, w', tr) →
      readableCalls tr ≤ (maxReads - reads).toNat + 1 := by
  intro fuel
  induction fuel with
  | zero => intro reads w o w' tr h; simp [readLoop] at h
  | succ n ih =>
    intro reads w o w' tr h
    unfold readLoop at h
    rcases hr : H.readable socket w with ⟨r, w1⟩
    rw [hr] at h
    rcases r with b | e
    · cases b
      · simp at h
        rcases h with ⟨-, -, rfl⟩
        simp [readableCalls, Event.isReadable]
      · by_cases hlt : reads < maxReads
        · rcases hp : P.poll socket w1 with ⟨q, w2⟩
          simp only [hlt, if_true, hp] at h
          rcases q with c | e
          · cases c
            · simp at h
              rcases h with ⟨-, -, rfl⟩
              simp [readableCalls, Event.isReadable]
            · rcases hl : readLoop H P maxReads socket n (reads + 1) w2 with _ | ⟨o2, w3, tr2⟩
              · simp [hl] at h
              · simp [hl] at h
                rcases h with ⟨-, -, rfl⟩
                have h3 := ih (reads + 1) w2 o2 w3 tr2 hl
                simp [readableCalls, Event.isReadable] at h3 ⊢
                omega
          · simp at h
            rcases h with ⟨-, -, rfl⟩
            simp [readableCalls, Event.isReadable]
        · simp [hlt] at h
          rcases h with ⟨-, -, rfl⟩
          simp [readableCalls, Event.isReadable]
    · simp at h
      rcases h with ⟨-, -, rfl⟩
      simp [readableCalls, Event.isReadable]

theorem readLoop_raise {W : Type} (H : SocketHandler W) (P : Platform W)
    (maxReads : Int) (socket : Socket) :
    ∀ (fuel : Nat) (reads : Int) (w : W) (e : Thrown) (w' : W) (tr : List Event),
      readLoop H P maxReads socket fuel reads w = some (.raise e, w', tr) →
      (∃ w0, (H.readable socket w0).1 = .raise e) ∨
        (∃ w0, (P.poll socket w0).1 = .raise e) := by
  intro fuel
  induction fuel with
  | zero => intro reads w e w' tr h; simp [readLoop] at h
  | succ n ih =>
    intro reads w e w' tr h
    unfold readLoop at h
    rcases hr : H.readable socket w with ⟨r, w1⟩
    rw [hr] at h
    rcases r with b | e1
    · cases b
      · simp at h
      · by_cases hlt : reads < maxReads
        · rcases hp : P.poll socket w1 with ⟨q, w2⟩
          simp only [hlt, if_true, hp] at h
          rcases q with c | e2
          · cases c
            · simp at h
            · rcases hl : readLoop H P maxReads socket n (reads + 1) w2 with _ | ⟨o2, w3, tr2⟩
              · simp [hl] at h
              · simp [hl] at h
                rcases h with ⟨rfl, -, -⟩
                exact ih (reads + 1) w2 e w3 tr2 hl
          · simp at h
            rcases h with ⟨rfl, -, -⟩
            exact Or.inr ⟨w1, by rw [hp]⟩
        · simp [hlt] at h
    · simp at h
      rcases h with ⟨rfl, -, -⟩
      exact Or.inl ⟨w, by rw [hr]⟩

theorem republish_republished {W : Type} (env : Env W) (socket : Socket) (pInfo : Ptr)
    (d : Dispatcher W) (w : W) :
    Republished env socket pInfo d (republish env socket pInfo { d with world := w }) := by
  refine ⟨?_, ?_, ?_, ?_, ?_⟩ <;> simp [republish, setInfo]
  intro q hq
  simp [hq]

theorem readableImpl_calls_le {W : Type} (env : Env W) (socket : Socket) (pInfo : Ptr)
    (d : Dispatcher W) (o : Outcome Unit) (d' : Dispatcher W) (tr : List Event)
    (h : readableImpl env socket pInfo d = some (o, d', tr)) :
    readableCalls tr ≤ d.maxReadsPerWorker.toNat + 1 := by
  unfold readableImpl at h
  rcases hl : readLoop (env.handlers (d.heap pInfo).pHandler) env.net d.maxReadsPerWorker
      socket (d.maxReadsPerWorker.toNat + 1) 0 d.world with _ | ⟨o1, w1, tr1⟩
  · simp [hl] at h
  · have hb := readLoop_calls_le _ _ _ _ _ _ _ _ _ _ hl
    simp only [sub_zero] at hb
    rw [hl] at h
    rcases o1 with u | e
    · simp at h
      rcases h with ⟨-, -, rfl⟩
      exact hb
    · by_cases hp : e.isPoco = true
      · simp [hp] at h
        rcases h with ⟨-, -, rfl⟩
        simpa [readableCalls, Event.isReadable] using hb
      · simp [hp] at h
        rcases h with ⟨-, -, rfl⟩
        exact hb

theorem readLoop_chatty (m : Int) :
    ∀ (fuel : Nat) (reads : Int), (m - reads).toNat < fuel →
      (readLoop chattyHandler readyNet m 1 fuel reads ()).map
        (fun r => (r.1, readableCalls r.2.2)) = some (.ret (), (m - reads).toNat + 1) := by
  have hr : chattyHandler.readable 1 () = (.ret true, ()) := rfl
  have hp : readyNet.poll 1 () = (.ret true, ()) := rfl
  intro fuel
  induction fuel with
  | zero => intro reads h; omega
  | succ n ih =>
    intro reads h
    unfold readLoop
    by_cases hlt : reads < m
    · have h2 : (m - (reads + 1)).toNat < n := by omega
      have h3 := ih (reads + 1) h2
      rcases hl : readLoop chattyHandler readyNet m 1 n (reads + 1) () with _ | ⟨o, w3, tr⟩
      · simp [hl] at h3
      · simp only [hl, Option.map_some', Option.some.injEq, Prod.mk.injEq] at h3
        simp only [hr, hp, hlt, if_true, hl, Option.map_some', Option.some.injEq,
          Prod.mk.injEq]
        have h4 := h3.2
        simp only [readableCalls, List.countP_cons, Event.isReadable] at h4 ⊢
        exact ⟨h3.1, by simp; omega⟩
    · simp only [hr, hlt, if_false, Option.map_some', Option.some.injEq,
        Prod.mk.injEq, true_and]
      simp only [readableCalls, List.countP_cons, Event.isReadable, List.countP_nil,
        if_true, zero_add]
      omega

theorem readableImpl_chatty (m : Int) :
    (readableImpl chattyEnv 1 0 (oneSocket m)).map
      (fun r => (r.1, readableCalls r.2.2)) = some (.ret (), m.toNat + 1) := by
  have h := readLoop_chatty m (m.toNat + 1) 0 (by simp)
  simp only [sub_zero] at h
  unfold readableImpl
  have hm : (oneSocket m).maxReadsPerWorker = m := rfl
  have hh : chattyEnv.handlers ((oneSocket m).heap 0).pHandler = chattyHandler := rfl
  have hn : chattyEnv.net = readyNet := rfl
  have hw : (oneSocket m).world = () := rfl
  rw [hm, hh, hn, hw]
  rcases hl : readLoop chattyHandler readyNet m 1 (m.toNat + 1) 0 () with _ | ⟨o, w3, tr⟩
  · simp [hl] at h
  · simp only [hl, Option.map_some', Option.some.injEq, Prod.mk.injEq] at h
    obtain ⟨h1, h2⟩ := h
    subst h1
    simp [h2]

/-- C2 (the code exceeds the cap by one): with `max_reads_per_worker = 1`, a
handler whose `readable` always returns true and a socket that always polls
ready, one execution of a Readable task returns normally after calling
`handler.readable` twice, one call more than the cap. -/
theorem readableImpl_exceeds_cap :
    (readableImpl chattyEnv 1 0 (oneSocket 1)).map
      (fun r => (r.1, readableCalls r.2.2)) = some (.ret (), 2) := by
  decide

/-- C3 (the code leaves `wantRead` alone): after socket 1 was reported in the
exception set, its Exception task is the one queued task and its record has
`wantRead = false`; when a worker has run `exceptionImpl` for it, with a
handler that returns and the socket still initialized, `wantRead` is still
false. -/
theorem exceptionImpl_leaves_wantRead :
    afterExceptionReport.workerQueue = [Task.exception 1 0] ∧
    (afterExceptionReport.heap 0).wantRead = false ∧
    (exceptionImpl chattyEnv 1 0 afterExceptionReport).1 = .ret () ∧
    chattyEnv.net.initialized 1 (exceptionImpl chattyEnv 1 0 afterExceptionReport).2.1.world
      = true ∧
    ((exceptionImpl chattyEnv 1 0 afterExceptionReport).2.1.heap 0).wantRead = false := by
  decide

theorem exceptionImpl_heap {W : Type} (env : Env W) (socket : Socket) (pInfo : Ptr)
    (d : Dispatcher W) : (exceptionImpl env socket pInfo d).2.1.heap = d.heap := by
  unfold exceptionImpl
  rcases (env.handlers (d.heap pInfo).pHandler).exception socket d.world with ⟨o, w⟩
  rcases o with u | e
  · rfl
  · by_cases hp : e.isPoco = true <;> simp [hp]

theorem readLoop_calls_pos {W : Type} (H : SocketHandler W) (P : Platform W)
    (maxReads : Int) (socket : Socket) :
    ∀ (fuel : Nat) (reads : Int) (w : W) (o : Outcome Unit) (w' : W) (tr : List Event),
      readLoop H P maxReads socket fuel reads w = some (o, w', tr) →
      1 ≤ readableCalls tr := by
  intro fuel
  cases fuel with
  | zero => intro reads w o w' tr h; simp [readLoop] at h
  | succ n =>
    intro reads w o w' tr h
    unfold readLoop at h
    rcases hr : H.readable socket w with ⟨r, w1⟩
    rw [hr] at h
    rcases r with b | e
    · cases b
      · simp at h
        rcases h with ⟨-, -, rfl⟩
        simp [readableCalls, Event.isReadable]
      · by_cases hlt : reads < maxReads
        · rcases hp : P.poll socket w1 with ⟨q, w2⟩
          simp only [hlt, if_true, hp] at h
          rcases q with c | e
          · cases c
            · simp at h
              rcases h with ⟨-, -, rfl⟩
              simp [readableCalls, Event.isReadable]
            · rcases hl : readLoop H P maxReads socket n (reads + 1) w2 with _ | ⟨o2, w3, tr2⟩
              · simp [hl] at h
              · simp [hl] at h
                rcases h with ⟨-, -, rfl⟩
                simp [readableCalls, Event.isReadable]
          · simp at h
            rcases h with ⟨-, -, rfl⟩
            simp [readableCalls, Event.isReadable]
        · simp [hlt] at h
          rcases h with ⟨-, -, rfl⟩
          simp [readableCalls, Event.isReadable]
    · simp at h
      rcases h with ⟨-, -, rfl⟩
      simp [readableCalls, Event.isReadable]

/-- C4 (counterexample): a handler that fails with an object which is not a
`Poco::Exception`. Socket 1 was reported readable, so its record has
`wantRead = false` and its Readable task is queued; the worker runs the task,
the handler raises, and the task body and the worker loop iteration are left
by the exception with `wantRead` still false although the socket is still
initialized. The same holds of the Timeout task posted for socket 1 of
`timedSocket` at instant 5. -/
theorem foreign_failure_skips_republish :
    (afterReadableReport.heap 0).wantRead = false ∧
    afterReadableReport.workerQueue = [Task.readable 1 0] ∧
    (readableImpl foreignEnv 1 0 afterReadableReport).map
      (fun r => (r.1, (r.2.1.heap 0).wantRead, foreignEnv.net.initialized 1 r.2.1.world))
      = some (.raise .foreign, false, true) ∧
    (runWorkerIteration foreignEnv afterReadableReport).map
      (fun r => (r.1, (r.2.1.heap 0).wantRead, foreignEnv.net.initialized 1 r.2.1.world))
      = some (.raise .foreign, false, true) ∧
    (buildWatchlists 5 timedSocket).workerQueue = [Task.timeout 1 0] ∧
    (timeoutImpl foreignEnv 1 0 (buildWatchlists 5 timedSocket)).1 = .raise .foreign ∧
    ((timeoutImpl foreignEnv 1 0 (buildWatchlists 5 timedSocket)).2.1.heap 0).wantRead
      = false ∧
    foreignEnv.net.initialized 1
      (timeoutImpl foreignEnv 1 0 (buildWatchlists 5 timedSocket)).2.1.world = true := by
  decide

/-- C4 (amended): what a worker leaves when it has executed a Readable or a
Timeout task. The read loop of `readableImpl` always ends, after at least one
call of `handler.readable`, and the body then ends in the world the loop
left; `timeoutImpl` ends in the world `handler.timeout` left. When the
handler part returned (the handler returned false, the cap was hit, the poll
reported nothing) or failed with a `Poco::Exception`, the body returns and
the record of the task has `wantRead` equal to "the socket is initialized",
its handler, timeout and activity as before, every other record untouched.
When the handler part failed with an object that is not a `Poco::Exception`,
the body is left by that object and every record, `wantRead` included, is as
it was. -/
theorem worker_republishes_wantRead {W : Type} (env : Env W) (socket : Socket)
    (pInfo : Ptr) (d : Dispatcher W) :
    (∃ o w tr,
      readLoop (env.handlers (d.heap pInfo).pHandler) env.net d.maxReadsPerWorker socket
        (d.maxReadsPerWorker.toNat + 1) 0 d.world = some (o, w, tr) ∧
      1 ≤ readableCalls tr ∧
      ∃ o' d' tr', readableImpl env socket pInfo d = some (o', d', tr') ∧
        d'.world = w ∧ List.IsPrefix tr tr' ∧
        ((o = .ret () ∨ ∃ e, o = .raise e ∧ e.isPoco = true) →
          o' = .ret () ∧ Republished env socket pInfo d d') ∧
        (∀ e, o = .raise e → e.isPoco = false → o' = .raise e ∧ d'.heap = d.heap)) ∧
    (∃ o w, (env.handlers (d.heap pInfo).pHandler).timeout socket d.world = (o, w) ∧
      ∃ o' d' tr', timeoutImpl env socket pInfo d = (o', d', tr') ∧
        d'.world = w ∧ tr'.head? = some (.timeout o) ∧
        ((o = .ret () ∨ ∃ e, o = .raise e ∧ e.isPoco = true) →
          o' = .ret () ∧ Republished env socket pInfo d d') ∧
        (∀ e, o = .raise e → e.isPoco = false → o' = .raise e ∧ d'.heap = d.heap)) := by
  constructor
  · have hs := readLoop_isSome (env.handlers (d.heap pInfo).pHandler) env.net
      d.maxReadsPerWorker socket (d.maxReadsPerWorker.toNat + 1) 0 d.world (by simp)
    rcases hl : readLoop (env.handlers (d.heap pInfo).pHandler) env.net d.maxReadsPerWorker
        socket (d.maxReadsPerWorker.toNat + 1) 0 d.world with _ | ⟨o1, w1, tr1⟩
    · simp [hl] at hs
    · refine ⟨o1, w1, tr1, rfl, readLoop_calls_pos _ _ _ _ _ _ _ _ _ _ hl, ?_⟩
      unfold readableImpl
      rw [hl]
      rcases o1 with u | e
      · refine ⟨_, _, _, rfl, rfl, List.prefix_refl _, ?_, ?_⟩
        · intro _
          exact ⟨rfl, republish_republished env socket pInfo d w1⟩
        · intro e he
          cases he
      · by_cases hp : e.isPoco = true
        · simp only [hp, if_true]
          refine ⟨_, _, _, rfl, rfl, List.prefix_append _ _, ?_, ?_⟩
          · intro _
            exact ⟨rfl, republish_republished env socket pInfo d w1⟩
          · intro e' he' hp'
            cases he'
            rw [hp] at hp'
            cases hp'
        · have hp' : e.isPoco = false := by simpa using hp
          simp only [hp', Bool.false_eq_true, if_false]
          refine ⟨_, _, _, rfl, rfl, List.prefix_refl _, ?_, ?_⟩
          · rintro (h | ⟨e', he', hq⟩)
            · cases h
            · cases he'
              rw [hp'] at hq
              cases hq
          · intro e' he' _
            cases he'
            exact ⟨rfl, rfl⟩
  · rcases hc : (env.handlers (d.heap pInfo).pHandler).timeout socket d.world with ⟨o, w⟩
    refine ⟨o, w, rfl, ?_⟩
    unfold timeoutImpl
    rw [hc]
    rcases o with u | e
    · refine ⟨_, _, _, rfl, rfl, rfl, ?_, ?_⟩
      · intro _
        exact ⟨rfl, republish_republished env socket pInfo d w⟩
      · intro e he
        cases he
    · by_cases hp : e.isPoco = true
      · simp only [hp, if_true]
        refine ⟨_, _, _, rfl, rfl, rfl, ?_, ?_⟩
        · intro _
          exact ⟨rfl, republish_republished env socket pInfo d w⟩
        · intro e' he' hp'
          cases he'
          rw [hp] at hp'
          cases hp'
      · have hp' : e.isPoco = false := by simpa using hp
        simp only [hp', Bool.false_eq_true, if_false]
        refine ⟨_, _, _, rfl, rfl, rfl, ?_, ?_⟩
        · rintro (h | ⟨e', he', hq⟩)
          · cases h
          · cases he'
            rw [hp'] at hq
            cases hq
        · intro e' he' _
          cases he'
          exact ⟨rfl, rfl⟩

/-- Witness for `worker_republishes_wantRead`: socket 1 was reported
readable and is out of rotation; the handler fails with a `Poco::Exception`
in `readable` and in `timeout`, and both task bodies return with `wantRead`
back on, the socket being initialized. -/
theorem worker_republishes_wantRead_witness :
    (afterReadableReport.heap 0).wantRead = false ∧
    (readableImpl failingEnv 1 0 afterReadableReport).map
      (fun r => (r.1, (r.2.1.heap 0).wantRead, failingEnv.net.initialized 1 r.2.1.world))
      = some (.ret (), true, true) ∧
    ((∃ o w tr,
      readLoop (failingEnv.handlers (afterReadableReport.heap 0).pHandler) failingEnv.net
        afterReadableReport.maxReadsPerWorker 1
        (afterReadableReport.maxReadsPerWorker.toNat + 1) 0 afterReadableReport.world
          = some (o, w, tr) ∧
      1 ≤ readableCalls tr ∧
      ∃ o' d' tr', readableImpl failingEnv 1 0 afterReadableReport = some (o', d', tr') ∧
        d'.world = w ∧ List.IsPrefix tr tr' ∧
        ((o = .ret () ∨ ∃ e, o = .raise e ∧ e.isPoco = true) →
          o' = .ret () ∧ Republished failingEnv 1 0 afterReadableReport d') ∧
        (∀ e, o = .raise e → e.isPoco = false →
          o' = .raise e ∧ d'.heap = afterReadableReport.heap)) ∧
    (∃ o w, (failingEnv.handlers (afterReadableReport.heap 0).pHandler).timeout 1
        afterReadableReport.world = (o, w) ∧
      ∃ o' d' tr', timeoutImpl failingEnv 1 0 afterReadableReport = (o', d', tr') ∧
        d'.world = w ∧ tr'.head? = some (.timeout o) ∧
        ((o = .ret () ∨ ∃ e, o = .raise e ∧ e.isPoco = true) →
          o' = .ret () ∧ Republished failingEnv 1 0 afterReadableReport d') ∧
        (∀ e, o = .raise e → e.isPoco = false →
          o' = .raise e ∧ d'.heap = afterReadableReport.heap))) :=
  ⟨by decide, by decide, worker_republishes_wantRead failingEnv 1 0 afterReadableReport⟩

theorem readableImpl_contained {W : Type} (env : Env W) (hp : env.PocoOnly)
    (socket : Socket) (pInfo : Ptr) (d : Dispatcher W) :
    ∃ d' tr, readableImpl env socket pInfo d = some (.ret (), d', tr) ∧
      d'.workerQueue = d.workerQueue ∧ d'.stopped = d.stopped := by
  unfold readableImpl
  have hs := readLoop_isSome (env.handlers (d.heap pInfo).pHandler) env.net
    d.maxReadsPerWorker socket (d.maxReadsPerWorker.toNat + 1) 0 d.world (by simp)
  rcases hl : readLoop (env.handlers (d.heap pInfo).pHandler) env.net d.maxReadsPerWorker
      socket (d.maxReadsPerWorker.toNat + 1) 0 d.world with _ | ⟨o1, w1, tr1⟩
  · simp [hl] at hs
  · rcases o1 with u | e
    · exact ⟨_, _, rfl, rfl, rfl⟩
    · have he : e.isPoco = true := by
        rcases readLoop_raise _ _ _ _ _ _ _ _ _ _ hl with ⟨w0, h0⟩ | ⟨w0, h0⟩
        · exact hp.1 _ _ _ _ h0
        · exact hp.2.2.2 _ _ _ h0
      simp only [he, if_true]
      exact ⟨_, _, rfl, rfl, rfl⟩

theorem exceptionImpl_contained {W : Type} (env : Env W) (hp : env.PocoOnly)
    (socket : Socket) (pInfo : Ptr) (d : Dispatcher W) :
    ∃ d' tr, exceptionImpl env socket pInfo d = (.ret (), d', tr) ∧
      d'.workerQueue = d.workerQueue ∧ d'.stopped = d.stopped := by
  unfold exceptionImpl
  rcases hc : (env.handlers (d.heap pInfo).pHandler).exception socket d.world with ⟨o, w⟩
  rcases o with u | e
  · exact ⟨_, _, rfl, rfl, rfl⟩
  · have he : e.isPoco = true := hp.2.1 _ socket d.world e (by rw [hc])
    simp only [he, if_true]
    exact ⟨_, _, rfl, rfl, rfl⟩

theorem timeoutImpl_contained {W : Type} (env : Env W) (hp : env.PocoOnly)
    (socket : Socket) (pInfo : Ptr) (d : Dispatcher W) :
    ∃ d' tr, timeoutImpl env socket pInfo d = (.ret (), d', tr) ∧
      d'.workerQueue = d.workerQueue ∧ d'.stopped = d.stopped := by
  unfold timeoutImpl
  rcases hc : (env.handlers (d.heap pInfo).pHandler).timeout socket d.world with ⟨o, w⟩
  rcases o with u | e
  · exact ⟨_, _, rfl, rfl, rfl⟩
  · have he : e.isPoco = true := hp.2.2.1 _ socket d.world e (by rw [hc])
    simp only [he, if_true]
    exact ⟨_, _, rfl, rfl, rfl⟩

theorem execute_contained {W : Type} (env : Env W) (hp : env.PocoOnly)
    (t : Task) (d : Dispatcher W) :
    ∃ d' tr, t.execute env d = some (.ret (), d', tr) ∧
      d'.workerQueue = d.workerQueue ∧ d'.stopped = d.stopped := by
  cases t with
  | readable s p => exact readableImpl_contained env hp s p d
  | exception s p =>
    rcases exceptionImpl_contained env hp s p d with ⟨d', tr, h1, h2, h3⟩
    exact ⟨d', tr, by simp [Task.execute, h1], h2, h3⟩
  | timeout s p =>
    rcases timeoutImpl_contained env hp s p d with ⟨d', tr, h1, h2, h3⟩
    exact ⟨d', tr, by simp [Task.execute, h1], h2, h3⟩

/-- C5 (counterexample): a handler that raises an object which is not a
`Poco::Exception` is not contained: the exception leaves `readableImpl`,
`timeoutImpl` and `exceptionImpl`, and leaves the worker loop iteration that
executes the task. -/
theorem foreign_failure_escapes :
    (readableImpl foreignEnv 1 0 (oneSocket 1)).map (fun r => r.1)
      = some (.raise .foreign) ∧
    (timeoutImpl foreignEnv 1 0 (oneSocket 1)).1 = .raise .foreign ∧
    (exceptionImpl foreignEnv 1 0 (oneSocket 1)).1 = .raise .foreign ∧
    (runWorkerIteration foreignEnv (post (Task.readable 1 0) (oneSocket 1))).map
      (fun r => r.1) = some (.raise .foreign) := by
  decide

/-- C5 (amended): when every failure raised by the handler callbacks and by
the poll is a `Poco::Exception`, executing a task of any kind returns
normally, and so does the worker loop iteration that dequeues it: nothing
propagates, the stopped flag is unchanged, and the worker queue holds the
tasks that followed, so the next iteration dequeues the next task. -/
theorem poco_failure_contained {W : Type} (env : Env W) (hp : env.PocoOnly)
    (t : Task) (rest : List Task) (d : Dispatcher W) :
    (∃ d' tr, t.execute env d = some (.ret (), d', tr)) ∧
    (∃ d' tr, runWorkerIteration env { d with workerQueue := t :: rest }
        = some (.ret (), d', tr) ∧ d'.workerQueue = rest ∧ d'.stopped = d.stopped) := by
  constructor
  · rcases execute_contained env hp t d with ⟨d', tr, h, -, -⟩
    exact ⟨d', tr, h⟩
  · rcases execute_contained env hp t { d with workerQueue := rest } with ⟨d', tr, h, hq, hs⟩
    refine ⟨d', tr, ?_, hq, hs⟩
    simp [runWorkerIteration, h]

theorem failingEnv_pocoOnly : failingEnv.PocoOnly := by
  refine ⟨?_, ?_, ?_, ?_⟩
  · intro h s w e he
    simp [failingEnv, failingHandler] at he
    subst he
    rfl
  · intro h s w e he
    simp [failingEnv, failingHandler] at he
    subst he
    rfl
  · intro h s w e he
    simp [failingEnv, failingHandler] at he
    subst he
    rfl
  · intro s w e he
    simp [failingEnv, readyNet] at he

/-- Witness for `poco_failure_contained`: handlers that raise a
`Poco::Exception` from every callback, a Readable task followed by a Timeout
task. -/
theorem poco_failure_contained_witness :
    failingEnv.PocoOnly ∧
    ((∃ d' tr, (Task.readable 1 0).execute failingEnv (oneSocket 1)
        = some (.ret (), d', tr)) ∧
     (∃ d' tr, runWorkerIteration failingEnv
        { oneSocket 1 with workerQueue := Task.readable 1 0 :: [Task.timeout 1 0] }
        = some (.ret (), d', tr) ∧ d'.workerQueue = [Task.timeout 1 0] ∧
          d'.stopped = (oneSocket 1).stopped)) :=
  ⟨failingEnv_pocoOnly,
    poco_failure_contained failingEnv failingEnv_pocoOnly (Task.readable 1 0)
      [Task.timeout 1 0] (oneSocket 1)⟩

/-! ### The build-watchlists step -/

theorem afterWatch_wantRead (now : Int) (i : SocketInfo) :
    (afterWatch now i).wantRead = (i.wantRead && !timedOut now i) := by
  unfold afterWatch
  by_cases h : timedOut now i = true
  · simp [h]
  · simp only [h]
    cases hw : i.wantRead <;> simp [hw]

theorem watchEntry_eq {W : Type} (now : Int) (d : Dispatcher W) (e : Socket × Ptr) :
    watchEntry now d e =
      if timedOut now (d.heap e.2) then
        touch now e.2 (post (Task.timeout e.1 e.2) (takeOut now e.2 d))
      else if (d.heap e.2).wantRead then
        { d with readList := d.readList ++ [e.1], exceptList := d.exceptList ++ [e.1] }
      else touch now e.2 d := by
  unfold watchEntry
  by_cases h : timedOut now (d.heap e.2) = true
  · simp [h, post, takeOut, setInfo]
  · have h' : timedOut now (d.heap e.2) = false := by simpa using h
    simp [h']

theorem watchEntry_heap {W : Type} (now : Int) (d : Dispatcher W) (e : Socket × Ptr) :
    (watchEntry now d e).heap = setInfo d.heap e.2 (afterWatch now (d.heap e.2)) := by
  funext q
  rw [watchEntry_eq]
  unfold afterWatch
  by_cases h : timedOut now (d.heap e.2) = true
  · by_cases hq : q = e.2 <;> simp [h, post, takeOut, touch, setInfo, hq]
  · have h' : timedOut now (d.heap e.2) = false := by simpa using h
    cases hw : (d.heap e.2).wantRead
    · by_cases hq : q = e.2 <;> simp [h', hw, touch, setInfo, hq]
    · by_cases hq : q = e.2
      · subst hq; simp [h', hw, setInfo]
      · simp [h', hw, setInfo, hq]

theorem watchEntry_workerQueue {W : Type} (now : Int) (d : Dispatcher W)
    (e : Socket × Ptr) :
    (watchEntry now d e).workerQueue = d.workerQueue ++
      (if timedOut now (d.heap e.2) then [Task.timeout e.1 e.2] else []) := by
  rw [watchEntry_eq]
  by_cases h : timedOut now (d.heap e.2) = true
  · simp [h, post, takeOut, touch]
  · have h' : timedOut now (d.heap e.2) = false := by simpa using h
    cases hw : (d.heap e.2).wantRead <;> simp [h', hw, touch]

theorem watchEntry_readList {W : Type} (now : Int) (d : Dispatcher W)
    (e : Socket × Ptr) :
    (watchEntry now d e).readList = d.readList ++
      (if (afterWatch now (d.heap e.2)).wantRead then [e.1] else []) := by
  rw [afterWatch_wantRead, watchEntry_eq]
  by_cases h : timedOut now (d.heap e.2) = true
  · simp [h, post, takeOut, touch]
  · have h' : timedOut now (d.heap e.2) = false := by simpa using h
    cases hw : (d.heap e.2).wantRead <;> simp [h', hw, touch]

theorem watchEntry_exceptList {W : Type} (now : Int) (d : Dispatcher W)
    (e : Socket × Ptr) :
    (watchEntry now d e).exceptList = d.exceptList ++
      (if (afterWatch now (d.heap e.2)).wantRead then [e.1] else []) := by
  rw [afterWatch_wantRead, watchEntry_eq]
  by_cases h : timedOut now (d.heap e.2) = true
  · simp [h, post, takeOut, touch]
  · have h' : timedOut now (d.heap e.2) = false := by simpa using h
    cases hw : (d.heap e.2).wantRead <;> simp [h', hw, touch]

theorem watchEntry_frame {W : Type} (now : Int) (d : Dispatcher W) (e : Socket × Ptr) :
    (watchEntry now d e).socketMap = d.socketMap ∧
    (watchEntry now d e).next = d.next ∧
    (watchEntry now d e).mainQueue = d.mainQueue ∧
    (watchEntry now d e).executing = d.executing ∧
    (watchEntry now d e).stopped = d.stopped ∧
    (watchEntry now d e).maxReadsPerWorker = d.maxReadsPerWorker ∧
    (watchEntry now d e).writeList = d.writeList ∧
    (watchEntry now d e).world = d.world := by
  rw [watchEntry_eq]
  by_cases h : timedOut now (d.heap e.2) = true
  · simp [h, post, takeOut, touch]
  · have h' : timedOut now (d.heap e.2) = false := by simpa using h
    cases hw : (d.heap e.2).wantRead <;> simp [h', hw, touch]

theorem buildLoop_frame {W : Type} (now : Int) (es : List (Socket × Ptr)) :
    ∀ d : Dispatcher W,
      (es.foldl (watchEntry now) d).socketMap = d.socketMap ∧
      (es.foldl (watchEntry now) d).next = d.next ∧
      (es.foldl (watchEntry now) d).mainQueue = d.mainQueue ∧
      (es.foldl (watchEntry now) d).executing = d.executing ∧
      (es.foldl (watchEntry now) d).stopped = d.stopped ∧
      (es.foldl (watchEntry now) d).maxReadsPerWorker = d.maxReadsPerWorker ∧
      (es.foldl (watchEntry now) d).writeList = d.writeList ∧
      (es.foldl (watchEntry now) d).world = d.world := by
  induction es with
  | nil => intro d; simp
  | cons e rest ih =>
    intro d
    simp only [List.foldl_cons]
    obtain ⟨h1, h2, h3, h4, h5, h6, h7, h8⟩ := ih (watchEntry now d e)
    obtain ⟨g1, g2, g3, g4, g5, g6, g7, g8⟩ := watchEntry_frame now d e
    exact ⟨h1.trans g1, h2.trans g2, h3.trans g3, h4.trans g4, h5.trans g5,
      h6.trans g6, h7.trans g7, h8.trans g8⟩

theorem buildLoop_heap_of_not_mem {W : Type} (now : Int) (es : List (Socket × Ptr)) :
    ∀ (d : Dispatcher W) (q : Ptr), q ∉ es.map Prod.snd →
      (es.foldl (watchEntry now) d).heap q = d.heap q := by
  induction es with
  | nil => intro d q _; rfl
  | cons e rest ih =>
    intro d q hq
    simp only [List.map_cons, List.mem_cons, not_or] at hq
    simp only [List.foldl_cons]
    rw [ih _ q hq.2, watchEntry_heap]
    simp [setInfo, hq.1]

theorem buildLoop_heap_of_mem {W : Type} (now : Int) (es : List (Socket × Ptr)) :
    ∀ (d : Dispatcher W), (es.map Prod.snd).Nodup → ∀ e ∈ es,
      (es.foldl (watchEntry now) d).heap e.2 = afterWatch now (d.heap e.2) := by
  induction es with
  | nil => intro d _ e he; simp at he
  | cons e0 rest ih =>
    intro d hnd e he
    simp only [List.map_cons, List.nodup_cons] at hnd
    simp only [List.foldl_cons]
    rcases List.mem_cons.1 he with rfl | hmem
    · rw [buildLoop_heap_of_not_mem now rest _ _ hnd.1, watchEntry_heap]
      simp [setInfo]
    · have hne : e.2 ≠ e0.2 := by
        intro heq
        exact hnd.1 (heq ▸ List.mem_map_of_mem Prod.snd hmem)
      rw [ih _ hnd.2 e hmem, watchEntry_heap]
      simp [setInfo, hne]

theorem buildLoop_workerQueue {W : Type} (now : Int) (es : List (Socket × Ptr)) :
    ∀ (d : Dispatcher W), (es.map Prod.snd).Nodup →
      (es.foldl (watchEntry now) d).workerQueue = d.workerQueue ++
        (es.filter (fun e => timedOut now (d.heap e.2))).map
          (fun e => Task.timeout e.1 e.2) := by
  induction es with
  | nil => intro d _; simp
  | cons e0 rest ih =>
    intro d hnd
    simp only [List.map_cons, List.nodup_cons] at hnd
    simp only [List.foldl_cons]
    rw [ih _ hnd.2, watchEntry_workerQueue]
    have hc : rest.filter (fun e => timedOut now ((watchEntry now d e0).heap e.2)) =
        rest.filter (fun e => timedOut now (d.heap e.2)) := by
      apply List.filter_congr
      intro e he
      have hne : e.2 ≠ e0.2 := by
        intro heq
        exact hnd.1 (heq ▸ List.mem_map_of_mem Prod.snd he)
      rw [watchEntry_heap]
      simp [setInfo, hne]
    rw [hc]
    by_cases h : timedOut now (d.heap e0.2) = true
    · simp [List.filter_cons, h]
    · simp [List.filter_cons, h]

theorem buildLoop_readList {W : Type} (now : Int) (es : List (Socket × Ptr)) :
    ∀ (d : Dispatcher W), (es.map Prod.snd).Nodup →
      (es.foldl (watchEntry now) d).readList = d.readList ++
        (es.filter (fun e => (afterWatch now (d.heap e.2)).wantRead)).map Prod.fst := by
  induction es with
  | nil => intro d _; simp
  | cons e0 rest ih =>
    intro d hnd
    simp only [List.map_cons, List.nodup_cons] at hnd
    simp only [List.foldl_cons]
    rw [ih _ hnd.2, watchEntry_readList]
    have hc : rest.filter (fun e => (afterWatch now ((watchEntry now d e0).heap e.2)).wantRead)
        = rest.filter (fun e => (afterWatch now (d.heap e.2)).wantRead) := by
      apply List.filter_congr
      intro e he
      have hne : e.2 ≠ e0.2 := by
        intro heq
        exact hnd.1 (heq ▸ List.mem_map_of_mem Prod.snd he)
      rw [watchEntry_heap]
      simp [setInfo, hne]
    rw [hc]
    by_cases h : (afterWatch now (d.heap e0.2)).wantRead = true
    · simp [List.filter_cons, h]
    · simp [List.filter_cons, h]

theorem buildLoop_exceptList {W : Type} (now : Int) (es : List (Socket × Ptr)) :
    ∀ (d : Dispatcher W), (es.map Prod.snd).Nodup →
      (es.foldl (watchEntry now) d).exceptList = d.exceptList ++
        (es.filter (fun e => (afterWatch now (d.heap e.2)).wantRead)).map Prod.fst := by
  induction es with
  | nil => intro d _; simp
  | cons e0 rest ih =>
    intro d hnd
    simp only [List.map_cons, List.nodup_cons] at hnd
    simp only [List.foldl_cons]
    rw [ih _ hnd.2, watchEntry_exceptList]
    have hc : rest.filter (fun e => (afterWatch now ((watchEntry now d e0).heap e.2)).wantRead)
        = rest.filter (fun e => (afterWatch now (d.heap e.2)).wantRead) := by
      apply List.filter_congr
      intro e he
      have hne : e.2 ≠ e0.2 := by
        intro heq
        exact hnd.1 (heq ▸ List.mem_map_of_mem Prod.snd he)
      rw [watchEntry_heap]
      simp [setInfo, hne]
    rw [hc]
    by_cases h : (afterWatch now (d.heap e0.2)).wantRead = true
    · simp [List.filter_cons, h]
    · simp [List.filter_cons, h]

theorem WF.keys_nodup {W : Type} {d : Dispatcher W} (h : d.WF) :
    (d.socketMap.map Prod.fst).Nodup :=
  h.1.imp (fun hlt => ne_of_lt hlt)

theorem WF.key_unique {W : Type} {d : Dispatcher W} (h : d.WF) {s : Socket} {p q : Ptr}
    (hp : (s, p) ∈ d.socketMap) (hq : (s, q) ∈ d.socketMap) : p = q := by
  have := List.inj_on_of_nodup_map (WF.keys_nodup h) hp hq rfl
  exact (Prod.mk.inj this).2

theorem WF.ptr_unique {W : Type} {d : Dispatcher W} (h : d.WF) {s t : Socket} {p : Ptr}
    (hs : (s, p) ∈ d.socketMap) (ht : (t, p) ∈ d.socketMap) : s = t := by
  have := List.inj_on_of_nodup_map h.2.1 hs ht rfl
  exact (Prod.mk.inj this).1

theorem buildWatchlists_frame {W : Type} (now : Int) (d : Dispatcher W) :
    (buildWatchlists now d).socketMap = d.socketMap ∧
    (buildWatchlists now d).next = d.next ∧
    (buildWatchlists now d).mainQueue = d.mainQueue ∧
    (buildWatchlists now d).executing = d.executing ∧
    (buildWatchlists now d).stopped = d.stopped ∧
    (buildWatchlists now d).maxReadsPerWorker = d.maxReadsPerWorker ∧
    (buildWatchlists now d).writeList = d.writeList ∧
    (buildWatchlists now d).world = d.world :=
  buildLoop_frame now d.socketMap { d with readList := [], exceptList := [] }

theorem buildWatchlists_heap_of_mem {W : Type} (now : Int) (d : Dispatcher W)
    (hwf : d.WF) {s : Socket} {p : Ptr} (hmem : (s, p) ∈ d.socketMap) :
    (buildWatchlists now d).heap p = afterWatch now (d.heap p) :=
  buildLoop_heap_of_mem now d.socketMap { d with readList := [], exceptList := [] }
    hwf.2.1 (s, p) hmem

theorem buildWatchlists_workerQueue {W : Type} (now : Int) (d : Dispatcher W)
    (hwf : d.WF) :
    (buildWatchlists now d).workerQueue = d.workerQueue ++
      (d.socketMap.filter (fun e => timedOut now (d.heap e.2))).map
        (fun e => Task.timeout e.1 e.2) :=
  buildLoop_workerQueue now d.socketMap { d with readList := [], exceptList := [] } hwf.2.1

theorem buildWatchlists_readList {W : Type} (now : Int) (d : Dispatcher W) (hwf : d.WF) :
    (buildWatchlists now d).readList =
      (d.socketMap.filter (fun e => (afterWatch now (d.heap e.2)).wantRead)).map Prod.fst := by
  have h := buildLoop_readList now d.socketMap { d with readList := [], exceptList := [] }
    hwf.2.1
  simpa [buildWatchlists] using h

theorem buildWatchlists_exceptList {W : Type} (now : Int) (d : Dispatcher W) (hwf : d.WF) :
    (buildWatchlists now d).exceptList =
      (d.socketMap.filter (fun e => (afterWatch now (d.heap e.2)).wantRead)).map Prod.fst := by
  have h := buildLoop_exceptList now d.socketMap { d with readList := [], exceptList := [] }
    hwf.2.1
  simpa [buildWatchlists] using h

theorem enqueuedBy_append (q posted : List Task) : enqueuedBy q (q ++ posted) = posted := by
  simp [enqueuedBy]

theorem timedOut_iff (now : Int) (i : SocketInfo) :
    timedOut now i = true ↔
      i.wantRead = true ∧ i.timeout ≠ 0 ∧ i.timeout < now - i.activity := by
  simp [timedOut, and_assoc]

theorem timeout_mem_posted {W : Type} (now : Int) (d : Dispatcher W) (s : Socket) (p : Ptr) :
    Task.timeout s p ∈ (d.socketMap.filter (fun e => timedOut now (d.heap e.2))).map
        (fun e => Task.timeout e.1 e.2) ↔
      (s, p) ∈ d.socketMap ∧ timedOut now (d.heap p) = true := by
  simp only [List.mem_map, List.mem_filter]
  constructor
  · rintro ⟨⟨s', p'⟩, ⟨hm, ht⟩, heq⟩
    simp only [Task.timeout.injEq] at heq
    obtain ⟨rfl, rfl⟩ := heq
    exact ⟨hm, ht⟩
  · rintro ⟨hm, ht⟩
    exact ⟨(s, p), ⟨hm, ht⟩, rfl⟩

/-- C6 (counterexample): an entry registered with a negative idle timeout,
`wantRead` true and no time elapsed gets a Timeout task in the build step,
although its timeout is not greater than zero. -/
theorem negative_timeout_fires :
    (1, 0) ∈ negativeTimeoutSocket.socketMap ∧
    (negativeTimeoutSocket.heap 0).wantRead = true ∧
    ¬ (0 < (negativeTimeoutSocket.heap 0).timeout) ∧
    Task.timeout 1 0 ∈ enqueuedBy negativeTimeoutSocket.workerQueue
      (buildWatchlists 0 negativeTimeoutSocket).workerQueue := by
  decide

/-- C6 (amended): in the build-watchlists step on a well-formed table, the
worker queue grows at its tail only, and a Timeout task is enqueued for a
table entry if and only if, at the start of the step, its `wantRead` is true,
its timeout is different from zero, and the time elapsed since its activity
instant is strictly greater than its timeout. -/
theorem timeout_posted_iff {W : Type} (now : Int) (d : Dispatcher W) (hwf : d.WF)
    (s : Socket) (p : Ptr) (hmem : (s, p) ∈ d.socketMap) :
    (buildWatchlists now d).workerQueue = d.workerQueue ++
      enqueuedBy d.workerQueue (buildWatchlists now d).workerQueue ∧
    (Task.timeout s p ∈ enqueuedBy d.workerQueue (buildWatchlists now d).workerQueue ↔
      (d.heap p).wantRead = true ∧ (d.heap p).timeout ≠ 0 ∧
        (d.heap p).timeout < now - (d.heap p).activity) := by
  rw [buildWatchlists_workerQueue now d hwf, enqueuedBy_append, timeout_mem_posted,
    timedOut_iff]
  exact ⟨rfl, ⟨fun h => h.2, fun h => ⟨hmem, h⟩⟩⟩

theorem oneSocket_WF (m : Int) : (oneSocket m).WF := by
  refine ⟨?_, ?_, ?_⟩ <;> simp [oneSocket, addSocketImpl, Dispatcher.init, mapInsert]

theorem timedSocket_WF : timedSocket.WF := by
  refine ⟨?_, ?_, ?_⟩ <;> simp [timedSocket, addSocketImpl, Dispatcher.init, mapInsert]

/-- Witness for `timeout_posted_iff`: socket 1 with idle timeout 3, looked at
five microseconds after its registration. -/
theorem timeout_posted_iff_witness :
    timedSocket.WF ∧ (1, 0) ∈ timedSocket.socketMap ∧
    ((buildWatchlists 5 timedSocket).workerQueue = timedSocket.workerQueue ++
      enqueuedBy timedSocket.workerQueue (buildWatchlists 5 timedSocket).workerQueue ∧
    (Task.timeout 1 0 ∈ enqueuedBy timedSocket.workerQueue
        (buildWatchlists 5 timedSocket).workerQueue ↔
      (timedSocket.heap 0).wantRead = true ∧ (timedSocket.heap 0).timeout ≠ 0 ∧
        (timedSocket.heap 0).timeout < 5 - (timedSocket.heap 0).activity)) :=
  ⟨timedSocket_WF, by decide,
    timeout_posted_iff 5 timedSocket timedSocket_WF 1 0 (by decide)⟩

/-! ### What each piece of work keeps -/

theorem timeoutsFor_append (p : Ptr) (q r : List Task) :
    timeoutsFor p (q ++ r) = timeoutsFor p q + timeoutsFor p r := by
  simp [timeoutsFor, List.countP_append]

theorem afterWatch_timeout (now : Int) (i : SocketInfo) :
    (afterWatch now i).timeout = i.timeout := by
  unfold afterWatch
  split
  · rfl
  · split <;> rfl

theorem afterWatch_pHandler (now : Int) (i : SocketInfo) :
    (afterWatch now i).pHandler = i.pHandler := by
  unfold afterWatch
  split
  · rfl
  · split <;> rfl

theorem watchEntry_keeps {W : Type} (now : Int) (d : Dispatcher W) (e : Socket × Ptr)
    (p : Ptr) :
    ((watchEntry now d e).heap p).timeout = (d.heap p).timeout ∧
    ((d.heap p).wantRead = false → ((watchEntry now d e).heap p).wantRead = false) ∧
    ((d.heap p).wantRead = false ∨ (d.heap p).timeout = 0 →
      timeoutsFor p (watchEntry now d e).workerQueue = timeoutsFor p d.workerQueue) := by
  rw [watchEntry_heap, watchEntry_workerQueue]
  by_cases hp : p = e.2
  · subst hp
    refine ⟨by simp [setInfo, afterWatch_timeout], ?_, ?_⟩
    · intro hw
      simp [setInfo, afterWatch_wantRead, hw]
    · intro h
      have hto : timedOut now (d.heap e.2) = false := by
        rcases h with h | h <;> simp [timedOut, h]
      simp [hto]
  · refine ⟨by simp [setInfo, hp], ?_, ?_⟩
    · intro hw
      simpa [setInfo, hp] using hw
    · intro _
      rw [timeoutsFor_append]
      by_cases hto : timedOut now (d.heap e.2) = true
      · have hp' : ¬ e.2 = p := fun h => hp h.symm
        simp [hto, timeoutsFor, hp']
      · simp [hto, timeoutsFor]

theorem buildLoop_keeps {W : Type} (now : Int) (p : Ptr) (es : List (Socket × Ptr)) :
    ∀ d : Dispatcher W,
      ((es.foldl (watchEntry now) d).heap p).timeout = (d.heap p).timeout ∧
      ((d.heap p).wantRead = false → ((es.foldl (watchEntry now) d).heap p).wantRead = false) ∧
      ((d.heap p).wantRead = false ∨ (d.heap p).timeout = 0 →
        timeoutsFor p (es.foldl (watchEntry now) d).workerQueue
          = timeoutsFor p d.workerQueue) := by
  induction es with
  | nil => intro d; simp
  | cons e rest ih =>
    intro d
    simp only [List.foldl_cons]
    obtain ⟨h1, h2, h3⟩ := ih (watchEntry now d e)
    obtain ⟨g1, g2, g3⟩ := watchEntry_keeps now d e p
    refine ⟨h1.trans g1, fun hw => h2 (g2 hw), ?_⟩
    intro h
    rw [h3, g3 h]
    rcases h with h | h
    · exact Or.inl (g2 h)
    · exact Or.inr (g1.trans h)

theorem buildLoop_appends {W : Type} (now : Int) (es : List (Socket × Ptr)) :
    ∀ d : Dispatcher W, ∃ posted,
      (es.foldl (watchEntry now) d).workerQueue = d.workerQueue ++ posted := by
  induction es with
  | nil => intro d; exact ⟨[], by simp⟩
  | cons e rest ih =>
    intro d
    simp only [List.foldl_cons]
    obtain ⟨posted, h⟩ := ih (watchEntry now d e)
    rw [h, watchEntry_workerQueue, List.append_assoc]
    exact ⟨_, rfl⟩

theorem buildWatchlists_keeps {W : Type} (now : Int) (d : Dispatcher W) (p : Ptr) :
    ((buildWatchlists now d).heap p).timeout = (d.heap p).timeout ∧
    ((d.heap p).wantRead = false → ((buildWatchlists now d).heap p).wantRead = false) ∧
    ((d.heap p).wantRead = false ∨ (d.heap p).timeout = 0 →
      timeoutsFor p (buildWatchlists now d).workerQueue = timeoutsFor p d.workerQueue) :=
  buildLoop_keeps now p d.socketMap { d with readList := [], exceptList := [] }

theorem buildWatchlists_appends {W : Type} (now : Int) (d : Dispatcher W) :
    ∃ posted, (buildWatchlists now d).workerQueue = d.workerQueue ++ posted :=
  buildLoop_appends now d.socketMap { d with readList := [], exceptList := [] }

/-! ### The dispatch-readiness step -/

theorem dispatchOne_frame {W : Type} (now : Int) (mk : Socket → Ptr → Task)
    (d : Dispatcher W) (s : Socket) :
    (dispatchOne now mk d s).socketMap = d.socketMap ∧
    (dispatchOne now mk d s).next = d.next ∧
    (dispatchOne now mk d s).mainQueue = d.mainQueue ∧
    (dispatchOne now mk d s).executing = d.executing ∧
    (dispatchOne now mk d s).stopped = d.stopped ∧
    (dispatchOne now mk d s).maxReadsPerWorker = d.maxReadsPerWorker ∧
    (dispatchOne now mk d s).readList = d.readList ∧
    (dispatchOne now mk d s).writeList = d.writeList ∧
    (dispatchOne now mk d s).exceptList = d.exceptList ∧
    (dispatchOne now mk d s).world = d.world := by
  unfold dispatchOne
  cases mapFind d.socketMap s <;> simp [post, takeOut]

theorem dispatchOne_heap {W : Type} (now : Int) (mk : Socket → Ptr → Task)
    (d : Dispatcher W) (s : Socket) :
    (dispatchOne now mk d s).heap =
      match mapFind d.socketMap s with
      | some q => setInfo d.heap q ((d.heap q).out now)
      | none => d.heap := by
  unfold dispatchOne
  cases mapFind d.socketMap s <;> simp [post, takeOut, SocketInfo.out]

theorem dispatchOne_workerQueue {W : Type} (now : Int) (mk : Socket → Ptr → Task)
    (d : Dispatcher W) (s : Socket) :
    (dispatchOne now mk d s).workerQueue =
      d.workerQueue ++ ((mapFind d.socketMap s).map (mk s)).toList := by
  unfold dispatchOne
  cases mapFind d.socketMap s <;> simp [post, takeOut]

theorem dispatchLoop_frame {W : Type} (now : Int) (mk : Socket → Ptr → Task)
    (l : List Socket) :
    ∀ d : Dispatcher W,
      (l.foldl (dispatchOne now mk) d).socketMap = d.socketMap ∧
      (l.foldl (dispatchOne now mk) d).next = d.next ∧
      (l.foldl (dispatchOne now mk) d).mainQueue = d.mainQueue ∧
      (l.foldl (dispatchOne now mk) d).executing = d.executing ∧
      (l.foldl (dispatchOne now mk) d).stopped = d.stopped ∧
      (l.foldl (dispatchOne now mk) d).maxReadsPerWorker = d.maxReadsPerWorker ∧
      (l.foldl (dispatchOne now mk) d).readList = d.readList ∧
      (l.foldl (dispatchOne now mk) d).writeList = d.writeList ∧
      (l.foldl (dispatchOne now mk) d).exceptList = d.exceptList ∧
      (l.foldl (dispatchOne now mk) d).world = d.world := by
  induction l with
  | nil => intro d; simp
  | cons s rest ih =>
    intro d
    simp only [List.foldl_cons]
    obtain ⟨h1, h2, h3, h4, h5, h6, h7, h8, h9, h10⟩ := ih (dispatchOne now mk d s)
    obtain ⟨g1, g2, g3, g4, g5, g6, g7, g8, g9, g10⟩ := dispatchOne_frame now mk d s
    exact ⟨h1.trans g1, h2.trans g2, h3.trans g3, h4.trans g4, h5.trans g5,
      h6.trans g6, h7.trans g7, h8.trans g8, h9.trans g9, h10.trans g10⟩

theorem dispatchLoop_workerQueue {W : Type} (now : Int) (mk : Socket → Ptr → Task)
    (l : List Socket) :
    ∀ d : Dispatcher W,
      (l.foldl (dispatchOne now mk) d).workerQueue = d.workerQueue ++
        l.filterMap (fun s => (mapFind d.socketMap s).map (mk s)) := by
  induction l with
  | nil => intro d; simp
  | cons s rest ih =>
    intro d
    simp only [List.foldl_cons]
    rw [ih, dispatchOne_workerQueue, (dispatchOne_frame now mk d s).1, List.append_assoc]
    cases h : mapFind d.socketMap s <;> simp [List.filterMap_cons, h]

theorem dispatchLoop_heap_cases {W : Type} (now : Int) (mk : Socket → Ptr → Task)
    (l : List Socket) (p : Ptr) :
    ∀ d : Dispatcher W,
      ((l.foldl (dispatchOne now mk) d).heap p = d.heap p ∧
        ∀ s ∈ l, mapFind d.socketMap s ≠ some p) ∨
      ((l.foldl (dispatchOne now mk) d).heap p = (d.heap p).out now ∧
        ∃ s ∈ l, mapFind d.socketMap s = some p) := by
  induction l with
  | nil => intro d; left; simp
  | cons s rest ih =>
    intro d
    simp only [List.foldl_cons]
    have hm := (dispatchOne_frame now mk d s).1
    have hh := dispatchOne_heap now mk d s
    rcases ih (dispatchOne now mk d s) with ⟨h1, h2⟩ | ⟨h1, s', hs', h2⟩
    · rw [hm] at h2
      by_cases hf : mapFind d.socketMap s = some p
      · right
        refine ⟨?_, s, List.mem_cons_self _ _, hf⟩
        rw [h1, hh, hf]
        simp [setInfo]
      · left
        refine ⟨?_, ?_⟩
        · rw [h1, hh]
          cases hq : mapFind d.socketMap s with
          | none => rfl
          | some q =>
            have hne : p ≠ q := by
              intro heq
              exact hf (by rw [hq, heq])
            simp [setInfo, hne]
        · intro t ht
          rcases List.mem_cons.1 ht with rfl | ht
          · exact hf
          · exact h2 t ht
    · rw [hm] at h2
      right
      refine ⟨?_, s', List.mem_cons_of_mem _ hs', h2⟩
      rw [h1, hh]
      cases hq : mapFind d.socketMap s with
      | none => rfl
      | some q =>
        by_cases hpq : p = q
        · subst hpq
          simp [setInfo, SocketInfo.out]
        · simp [setInfo, hpq]

theorem count_filterMap_find (m : List (Socket × Ptr)) (mk : Socket → Ptr → Task)
    (hmk : ∀ s q s' q', mk s q = mk s' q' → s = s' ∧ q = q') (s : Socket) (p : Ptr)
    (hf : mapFind m s = some p) (l : List Socket) :
    (l.filterMap (fun t => (mapFind m t).map (mk t))).count (mk s p) = l.count s := by
  induction l with
  | nil => simp
  | cons t rest ih =>
    by_cases hts : t = s
    · subst hts
      simp [List.filterMap_cons, hf, ih]
    · cases hq : mapFind m t with
      | none =>
        simp [List.filterMap_cons, hq, ih, List.count_cons, hts]
      | some q =>
        have hne : ¬ mk t q = mk s p := fun h => hts (hmk _ _ _ _ h).1
        simp [List.filterMap_cons, hq, ih, List.count_cons, hts, hne]

theorem count_filterMap_other (m : List (Socket × Ptr)) (mk : Socket → Ptr → Task)
    (t : Task) (ht : ∀ s q, mk s q ≠ t) (l : List Socket) :
    (l.filterMap (fun s => (mapFind m s).map (mk s))).count t = 0 := by
  rw [List.count_eq_zero]
  intro hmem
  simp only [List.mem_filterMap, Option.map_eq_some'] at hmem
  obtain ⟨s, -, q, -, h⟩ := hmem
  exact ht s q h

/-! ### The socket table and the commands -/

theorem mem_mapInsert (m : List (Socket × Ptr)) (s : Socket) (p : Ptr) (e : Socket × Ptr) :
    e ∈ mapInsert m s p → e = (s, p) ∨ e ∈ m := by
  induction m with
  | nil => intro h; simpa [mapInsert] using h
  | cons hd rest ih =>
    obtain ⟨k, q⟩ := hd
    intro h
    unfold mapInsert at h
    by_cases h1 : s < k
    · simp only [h1, if_true, List.mem_cons] at h
      rcases h with h | h | h
      · exact Or.inl h
      · exact Or.inr (by simp [h])
      · exact Or.inr (by simp [h])
    · by_cases h2 : s = k
      · subst h2
        simp only [lt_irrefl, if_false, if_true, List.mem_cons] at h
        rcases h with h | h
        · exact Or.inl h
        · exact Or.inr (by simp [h])
      · simp only [h1, h2, if_false, List.mem_cons] at h
        rcases h with h | h
        · exact Or.inr (by simp [h])
        · rcases ih h with h | h
          · exact Or.inl h
          · exact Or.inr (by simp [h])

theorem mapInsert_keys_sorted (m : List (Socket × Ptr)) (s : Socket) (p : Ptr)
    (h : (m.map Prod.fst).Pairwise (· < ·)) :
    ((mapInsert m s p).map Prod.fst).Pairwise (· < ·) := by
  induction m with
  | nil => simp [mapInsert]
  | cons hd rest ih =>
    obtain ⟨k, q⟩ := hd
    simp only [List.map_cons, List.pairwise_cons] at h
    unfold mapInsert
    by_cases h1 : s < k
    · simp only [h1, if_true, List.map_cons, List.pairwise_cons]
      refine ⟨?_, h.1, h.2⟩
      intro a ha
      rcases List.mem_cons.1 ha with rfl | ha
      · exact h1
      · exact lt_trans h1 (h.1 a ha)
    · by_cases h2 : s = k
      · subst h2
        simp only [lt_irrefl, if_false, if_true, List.map_cons, List.pairwise_cons]
        exact ⟨h.1, h.2⟩
      · simp only [h1, h2, if_false, List.map_cons, List.pairwise_cons]
        refine ⟨?_, ih h.2⟩
        intro a ha
        obtain ⟨e, he, rfl⟩ := List.mem_map.1 ha
        rcases mem_mapInsert rest s p e he with rfl | he
        · exact lt_of_le_of_ne (not_lt.1 h1) (fun hks => h2 hks.symm)
        · exact h.1 _ (List.mem_map_of_mem Prod.fst he)

theorem mapInsert_ptrs_nodup (m : List (Socket × Ptr)) (s : Socket) (p : Ptr)
    (h : (m.map Prod.snd).Nodup) (hp : p ∉ m.map Prod.snd) :
    ((mapInsert m s p).map Prod.snd).Nodup := by
  induction m with
  | nil => simp [mapInsert]
  | cons hd rest ih =>
    obtain ⟨k, q⟩ := hd
    simp only [List.map_cons, List.nodup_cons, List.mem_cons, not_or] at h hp
    unfold mapInsert
    by_cases h1 : s < k
    · simp only [h1, if_true, List.map_cons, List.nodup_cons, List.mem_cons, not_or]
      exact ⟨⟨hp.1, hp.2⟩, h.1, h.2⟩
    · by_cases h2 : s = k
      · subst h2
        simp only [lt_irrefl, if_false, if_true, List.map_cons, List.nodup_cons]
        exact ⟨hp.2, h.2⟩
      · simp only [h1, h2, if_false, List.map_cons, List.nodup_cons]
        refine ⟨?_, ih h.2 hp.2⟩
        intro hq
        obtain ⟨e, he, heq⟩ := List.mem_map.1 hq
        rcases mem_mapInsert rest s p e he with rfl | he
        · exact hp.1 heq
        · exact h.1 (heq ▸ List.mem_map_of_mem Prod.snd he)

theorem mapErase_sublist (m : List (Socket × Ptr)) (s : Socket) :
    (mapErase m s).Sublist m := by
  induction m with
  | nil => simp [mapErase]
  | cons hd rest ih =>
    obtain ⟨k, q⟩ := hd
    unfold mapErase
    by_cases h : k = s
    · simp only [h, if_true]
      exact List.Sublist.cons _ ih
    · simp only [h, if_false]
      exact List.Sublist.cons₂ _ ih

theorem addSocketImpl_WF {W : Type} (now : Int) (s : Socket) (h : HandlerId) (t : Int)
    (d : Dispatcher W) (hwf : d.WF) : (addSocketImpl now s h t d).WF := by
  obtain ⟨h1, h2, h3⟩ := hwf
  have hfresh : d.next ∉ d.socketMap.map Prod.snd := by
    intro hm
    obtain ⟨e, he, heq⟩ := List.mem_map.1 hm
    have hlt := h3 e he
    rw [heq] at hlt
    exact Nat.lt_irrefl _ hlt
  refine ⟨mapInsert_keys_sorted _ _ _ h1, mapInsert_ptrs_nodup _ _ _ h2 hfresh, ?_⟩
  intro e he
  rcases mem_mapInsert _ _ _ e he with rfl | he
  · simp [addSocketImpl]
  · exact Nat.lt_succ_of_lt (h3 e he)

theorem removeSocketImpl_WF {W : Type} (s : Socket) (d : Dispatcher W) (hwf : d.WF) :
    (removeSocketImpl s d).WF := by
  obtain ⟨h1, h2, h3⟩ := hwf
  have hsub := mapErase_sublist d.socketMap s
  exact ⟨h1.sublist (hsub.map Prod.fst), h2.sublist (hsub.map Prod.snd),
    fun e he => h3 e (hsub.subset he)⟩

theorem execute_WF {W : Type} (env : Env W) (now : Int) (c : Command) (d : Dispatcher W)
    (hwf : d.WF) : (c.execute env now d).2.WF := by
  cases c with
  | addSocket s h t => exact addSocketImpl_WF now s h t d hwf
  | removeSocket s => exact removeSocketImpl_WF s d hwf
  | closeSocket s => exact removeSocketImpl_WF s d hwf
  | reset => exact ⟨by simp [Command.execute, resetImpl], by simp [Command.execute, resetImpl],
      by simp [Command.execute, resetImpl]⟩

theorem init_WF {W : Type} (m : Int) (w : W) : (Dispatcher.init m w).WF :=
  ⟨by simp [Dispatcher.init], by simp [Dispatcher.init], by simp [Dispatcher.init]⟩

/-! ### Workers, and runs of the dispatcher -/

theorem execute_shape {W : Type} (env : Env W) (t : Task) (d : Dispatcher W) (r : Run W)
    (h : t.execute env d = some r) :
    (∃ w, r.2.1 = republish env t.socket t.pInfo { d with world := w }) ∨
      (∃ w, r.2.1 = { d with world := w }) := by
  cases t with
  | readable s p =>
    simp only [Task.execute, readableImpl] at h
    rcases hl : readLoop (env.handlers (d.heap p).pHandler) env.net d.maxReadsPerWorker
        s (d.maxReadsPerWorker.toNat + 1) 0 d.world with _ | ⟨o1, w1, tr1⟩
    · simp [hl] at h
    · rw [hl] at h
      rcases o1 with u | e
      · simp only [Option.some.injEq] at h
        subst h
        exact Or.inl ⟨w1, rfl⟩
      · by_cases hp : e.isPoco = true
        · simp only [hp, if_true, Option.some.injEq] at h
          subst h
          exact Or.inl ⟨w1, rfl⟩
        · have hp' : e.isPoco = false := by simpa using hp
          simp only [hp', Bool.false_eq_true, if_false, Option.some.injEq] at h
          subst h
          exact Or.inr ⟨w1, rfl⟩
  | exception s p =>
    simp only [Task.execute, exceptionImpl, Option.some.injEq] at h
    rcases hc : (env.handlers (d.heap p).pHandler).exception s d.world with ⟨o, w⟩
    rw [hc] at h
    rcases o with u | e
    · subst h
      exact Or.inr ⟨w, rfl⟩
    · by_cases hp : e.isPoco = true
      · simp only [hp, if_true] at h
        subst h
        exact Or.inr ⟨w, rfl⟩
      · have hp' : e.isPoco = false := by simpa using hp
        simp only [hp', Bool.false_eq_true, if_false] at h
        subst h
        exact Or.inr ⟨w, rfl⟩
  | timeout s p =>
    simp only [Task.execute, timeoutImpl, Option.some.injEq] at h
    rcases hc : (env.handlers (d.heap p).pHandler).timeout s d.world with ⟨o, w⟩
    rw [hc] at h
    rcases o with u | e
    · subst h
      exact Or.inl ⟨w, rfl⟩
    · by_cases hp : e.isPoco = true
      · simp only [hp, if_true] at h
        subst h
        exact Or.inl ⟨w, rfl⟩
      · have hp' : e.isPoco = false := by simpa using hp
        simp only [hp', Bool.false_eq_true, if_false] at h
        subst h
        exact Or.inr ⟨w, rfl⟩

theorem run_shape {W : Type} (env : Env W) (t : Task) (d : Dispatcher W) :
    (∃ w, t.run env d = republish env t.socket t.pInfo { d with world := w }) ∨
      (∃ w, t.run env d = { d with world := w }) := by
  unfold Task.run
  cases h : t.execute env d with
  | none => exact Or.inr ⟨d.world, rfl⟩
  | some r => exact execute_shape env t d r h

theorem run_frame {W : Type} (env : Env W) (t : Task) (d : Dispatcher W) :
    (t.run env d).socketMap = d.socketMap ∧
    (t.run env d).next = d.next ∧
    (t.run env d).mainQueue = d.mainQueue ∧
    (t.run env d).workerQueue = d.workerQueue ∧
    (t.run env d).executing = d.executing ∧
    (t.run env d).stopped = d.stopped ∧
    (t.run env d).maxReadsPerWorker = d.maxReadsPerWorker ∧
    (t.run env d).readList = d.readList ∧
    (t.run env d).writeList = d.writeList ∧
    (t.run env d).exceptList = d.exceptList := by
  rcases run_shape env t d with ⟨w, h⟩ | ⟨w, h⟩ <;> rw [h] <;> simp [republish]

theorem run_heap {W : Type} (env : Env W) (t : Task) (d : Dispatcher W) (q : Ptr) :
    ((t.run env d).heap q).pHandler = (d.heap q).pHandler ∧
    ((t.run env d).heap q).timeout = (d.heap q).timeout ∧
    ((t.run env d).heap q).activity = (d.heap q).activity ∧
    (q ≠ t.pInfo → (t.run env d).heap q = d.heap q) := by
  rcases run_shape env t d with ⟨w, h⟩ | ⟨w, h⟩
  · rw [h]
    by_cases hq : q = t.pInfo
    · subst hq
      simp [republish, setInfo]
    · simp [republish, setInfo, hq]
  · rw [h]
    simp

theorem timeoutsFor_dispatched (p : Ptr) (m : List (Socket × Ptr))
    (mk : Socket → Ptr → Task) (hmk : ∀ s q r, mk s q ≠ Task.timeout r p)
    (l : List Socket) :
    timeoutsFor p (l.filterMap (fun s => (mapFind m s).map (mk s))) = 0 := by
  unfold timeoutsFor
  rw [List.countP_eq_zero]
  intro t ht
  simp only [List.mem_filterMap, Option.map_eq_some'] at ht
  obtain ⟨s, -, q, -, rfl⟩ := ht
  have := hmk s q
  cases hk : mk s q with
  | readable a b => simp
  | exception a b => simp
  | timeout a b =>
    simp only [decide_eq_true_eq]
    intro hb
    exact this a (by rw [hk, hb])

theorem dispatchReadiness_frame {W : Type} (now n : Int) (d : Dispatcher W) :
    (dispatchReadiness now n d).socketMap = d.socketMap ∧
    (dispatchReadiness now n d).next = d.next ∧
    (dispatchReadiness now n d).executing = d.executing ∧
    (dispatchReadiness now n d).writeList = d.writeList ∧
    (dispatchReadiness now n d).stopped = d.stopped := by
  unfold dispatchReadiness
  by_cases hn : n > 0
  · simp only [hn, if_true]
    have h1 := dispatchLoop_frame now Task.readable d.readList d
    have h2 := dispatchLoop_frame now Task.exception
      (d.readList.foldl (dispatchOne now Task.readable) d).exceptList
      (d.readList.foldl (dispatchOne now Task.readable) d)
    exact ⟨h2.1.trans h1.1, h2.2.1.trans h1.2.1, h2.2.2.2.1.trans h1.2.2.2.1,
      h2.2.2.2.2.2.2.2.1.trans h1.2.2.2.2.2.2.2.1,
      h2.2.2.2.2.1.trans h1.2.2.2.2.1⟩
  · simp [hn]

theorem dispatchLoop_keeps {W : Type} (now : Int) (mk : Socket → Ptr → Task)
    (p : Ptr) (hmk : ∀ s q r, mk s q ≠ Task.timeout r p) (l : List Socket)
    (d : Dispatcher W) :
    ((l.foldl (dispatchOne now mk) d).heap p).timeout = (d.heap p).timeout ∧
    ((d.heap p).wantRead = false →
      ((l.foldl (dispatchOne now mk) d).heap p).wantRead = false) ∧
    timeoutsFor p (l.foldl (dispatchOne now mk) d).workerQueue
      = timeoutsFor p d.workerQueue := by
  refine ⟨?_, ?_, ?_⟩
  · rcases dispatchLoop_heap_cases now mk l p d with ⟨h, -⟩ | ⟨h, -⟩ <;> rw [h]
    rfl
  · intro hw
    rcases dispatchLoop_heap_cases now mk l p d with ⟨h, -⟩ | ⟨h, -⟩ <;> rw [h]
    · exact hw
    · rfl
  · rw [dispatchLoop_workerQueue, timeoutsFor_append, timeoutsFor_dispatched p _ mk hmk]
    rfl

theorem dispatchReadiness_keeps {W : Type} (now n : Int) (d : Dispatcher W) (p : Ptr) :
    ((dispatchReadiness now n d).heap p).timeout = (d.heap p).timeout ∧
    ((d.heap p).wantRead = false → ((dispatchReadiness now n d).heap p).wantRead = false) ∧
    timeoutsFor p (dispatchReadiness now n d).workerQueue = timeoutsFor p d.workerQueue := by
  unfold dispatchReadiness
  by_cases hn : n > 0
  · simp only [hn, if_true]
    obtain ⟨a1, a2, a3⟩ := dispatchLoop_keeps now Task.readable p
      (fun _ _ _ h => by cases h) d.readList d
    obtain ⟨b1, b2, b3⟩ := dispatchLoop_keeps now Task.exception p
      (fun _ _ _ h => by cases h)
      (d.readList.foldl (dispatchOne now Task.readable) d).exceptList
      (d.readList.foldl (dispatchOne now Task.readable) d)
    exact ⟨b1.trans a1, fun hw => b2 (a2 hw), b3.trans a3⟩
  · simp [hn]

theorem execute_keeps {W : Type} (env : Env W) (now : Int) (c : Command)
    (d : Dispatcher W) :
    d.next ≤ (c.execute env now d).2.next ∧
    (∀ q, q < d.next → (c.execute env now d).2.heap q = d.heap q) ∧
    (c.execute env now d).2.workerQueue = d.workerQueue ∧
    (c.execute env now d).2.executing = d.executing ∧
    (c.execute env now d).2.writeList = d.writeList := by
  cases c with
  | addSocket s h t =>
    refine ⟨Nat.le_succ _, ?_, rfl, rfl, rfl⟩
    intro q hq
    have hne : q ≠ d.next := Nat.ne_of_lt hq
    simp [Command.execute, addSocketImpl, setInfo, hne]
  | removeSocket s => exact ⟨le_refl _, fun _ _ => rfl, rfl, rfl, rfl⟩
  | closeSocket s => exact ⟨le_refl _, fun _ _ => rfl, rfl, rfl, rfl⟩
  | reset => exact ⟨le_refl _, fun _ _ => rfl, rfl, rfl, rfl⟩

theorem apply_keeps {W : Type} (env : Env W) (a : Action) (d : Dispatcher W) (p : Ptr)
    (hp : p < d.next) :
    d.next ≤ (a.apply env d).next ∧
    ((a.apply env d).heap p).timeout = (d.heap p).timeout ∧
    ((d.heap p).timeout = 0 →
      timeoutsFor p (a.apply env d).workerQueue = timeoutsFor p d.workerQueue) ∧
    ((∀ t, a = Action.work t → t.pInfo ≠ p) → (d.heap p).wantRead = false →
      ((a.apply env d).heap p).wantRead = false ∧
        timeoutsFor p (a.apply env d).workerQueue = timeoutsFor p d.workerQueue) := by
  cases a with
  | build now =>
    obtain ⟨h1, h2, h3⟩ := buildWatchlists_keeps now d p
    exact ⟨le_of_eq (buildWatchlists_frame now d).2.1.symm, h1, fun h0 => h3 (Or.inr h0),
      fun _ hw => ⟨h2 hw, h3 (Or.inl hw)⟩⟩
  | wait r => exact ⟨le_refl _, rfl, fun _ => rfl, fun _ hw => ⟨hw, rfl⟩⟩
  | dispatch now n =>
    obtain ⟨h1, h2, h3⟩ := dispatchReadiness_keeps now n d p
    exact ⟨le_of_eq (dispatchReadiness_frame now n d).2.1.symm, h1, fun _ => h3,
      fun _ hw => ⟨h2 hw, h3⟩⟩
  | command now c =>
    obtain ⟨h1, h2, h3, -, -⟩ := execute_keeps env now c d
    simp only [Action.apply]
    rw [h2 p hp, h3]
    exact ⟨h1, rfl, fun _ => rfl, fun _ hw => ⟨hw, rfl⟩⟩
  | work t =>
    obtain ⟨-, g2, -, g4⟩ := run_heap env t d p
    have hf := run_frame env t d
    simp only [Action.apply]
    rw [hf.2.2.2.1]
    refine ⟨le_of_eq hf.2.1.symm, g2, fun _ => rfl, ?_⟩
    intro hnot hw
    have hne : p ≠ t.pInfo := fun h => hnot t rfl h.symm
    rw [g4 hne]
    exact ⟨hw, rfl⟩

theorem runActions_cons {W : Type} (env : Env W) (a : Action) (as : List Action)
    (d : Dispatcher W) :
    runActions env (a :: as) d = runActions env as (a.apply env d) := rfl

theorem run_keeps_zero_timeout {W : Type} (env : Env W) (p : Ptr) (as : List Action) :
    ∀ d : Dispatcher W, p < d.next → (d.heap p).timeout = 0 →
      timeoutsFor p (runActions env as d).workerQueue = timeoutsFor p d.workerQueue := by
  induction as with
  | nil => intro d _ _; rfl
  | cons a rest ih =>
    intro d hp h0
    obtain ⟨h1, h2, h3, -⟩ := apply_keeps env a d p hp
    rw [runActions_cons, ih (a.apply env d) (lt_of_lt_of_le hp h1) (h2.trans h0), h3 h0]

theorem run_keeps_out {W : Type} (env : Env W) (p : Ptr) (as : List Action) :
    ∀ d : Dispatcher W, p < d.next → (d.heap p).wantRead = false →
      (∀ t, Action.work t ∈ as → t.pInfo ≠ p) →
      ((runActions env as d).heap p).wantRead = false ∧
        timeoutsFor p (runActions env as d).workerQueue = timeoutsFor p d.workerQueue := by
  induction as with
  | nil => intro d _ hw _; exact ⟨hw, rfl⟩
  | cons a rest ih =>
    intro d hp hw hnot
    obtain ⟨h1, -, -, h4⟩ := apply_keeps env a d p hp
    obtain ⟨g1, g2⟩ := h4 (fun t ht => hnot t (by rw [ht]; exact List.mem_cons_self _ _)) hw
    obtain ⟨k1, k2⟩ := ih (a.apply env d) (lt_of_lt_of_le hp h1) g1
      (fun t ht => hnot t (List.mem_cons_of_mem _ ht))
    rw [runActions_cons]
    exact ⟨k1, k2.trans g2⟩

theorem timeoutsFor_eq_zero_of_mem {p : Ptr} {q : List Task} (h : timeoutsFor p q = 0)
    (s : Socket) : Task.timeout s p ∉ q := by
  intro hm
  unfold timeoutsFor at h
  rw [List.countP_eq_zero] at h
  exact h _ hm (by simp)

/-- C7: a record whose idle timeout is 0 never receives a Timeout task. For
every dispatcher state in which the record exists, every clock value and
every socket, the build-watchlists step appends no Timeout task that carries
the record; and along every run of the dispatcher, of any length (readiness
iterations, commands and worker tasks in any order), the number of Timeout
tasks for that record on the worker queue stays what it was. -/
theorem zero_timeout_never_fires {W : Type} (env : Env W) (d : Dispatcher W) (p : Ptr)
    (hp : p < d.next) (h0 : (d.heap p).timeout = 0) :
    (∀ now s, Task.timeout s p ∉
      enqueuedBy d.workerQueue (buildWatchlists now d).workerQueue) ∧
    (∀ as, timeoutsFor p (runActions env as d).workerQueue = timeoutsFor p d.workerQueue) := by
  refine ⟨?_, fun as => run_keeps_zero_timeout env p as d hp h0⟩
  intro now s
  obtain ⟨posted, hq⟩ := buildWatchlists_appends now d
  have hk := (buildWatchlists_keeps now d p).2.2 (Or.inr h0)
  rw [hq, timeoutsFor_append] at hk
  rw [hq, enqueuedBy_append]
  exact timeoutsFor_eq_zero_of_mem (by omega) s

/-- Witness for `zero_timeout_never_fires`: socket 1 registered with idle
timeout 0; its record is at address 0. -/
theorem zero_timeout_never_fires_witness :
    (0 : Ptr) < (oneSocket 1).next ∧ ((oneSocket 1).heap 0).timeout = 0 ∧
    ((∀ now s, Task.timeout s 0 ∉
      enqueuedBy (oneSocket 1).workerQueue (buildWatchlists now (oneSocket 1)).workerQueue) ∧
    (∀ as, timeoutsFor 0 (runActions chattyEnv as (oneSocket 1)).workerQueue
      = timeoutsFor 0 (oneSocket 1).workerQueue)) :=
  ⟨by decide, by decide,
    zero_timeout_never_fires chattyEnv (oneSocket 1) 0 (by decide) (by decide)⟩

/-! ### Timeout fairness and the watchlists -/

theorem entries_nodup {W : Type} {d : Dispatcher W} (hwf : d.WF) : d.socketMap.Nodup :=
  List.Nodup.of_map Prod.snd hwf.2.1

theorem posted_nodup {W : Type} (now : Int) (d : Dispatcher W) (hwf : d.WF) :
    ((d.socketMap.filter (fun e => timedOut now (d.heap e.2))).map
      (fun e => Task.timeout e.1 e.2)).Nodup := by
  apply List.Nodup.map
  · intro a b hab
    simp only [Task.timeout.injEq] at hab
    exact Prod.ext hab.1 hab.2
  · exact (entries_nodup hwf).filter _

theorem mem_readList_iff {W : Type} (now : Int) (d : Dispatcher W) (hwf : d.WF)
    (s : Socket) :
    s ∈ (buildWatchlists now d).readList ↔
      ∃ p, (s, p) ∈ d.socketMap ∧ (afterWatch now (d.heap p)).wantRead = true := by
  rw [buildWatchlists_readList now d hwf]
  simp only [List.mem_map, List.mem_filter]
  constructor
  · rintro ⟨⟨s', p⟩, ⟨hm, hw⟩, rfl⟩
    exact ⟨p, hm, hw⟩
  · rintro ⟨p, hm, hw⟩
    exact ⟨(s, p), ⟨hm, hw⟩, rfl⟩

theorem readList_nodup {W : Type} (now : Int) (d : Dispatcher W) (hwf : d.WF) :
    (buildWatchlists now d).readList.Nodup := by
  rw [buildWatchlists_readList now d hwf]
  exact (WF.keys_nodup hwf).sublist ((List.filter_sublist _).map Prod.fst)

theorem apply_out_no_timeout {W : Type} (env : Env W) (a : Action) (d : Dispatcher W)
    (p : Ptr) (hp : p < d.next) (hw : (d.heap p).wantRead = false) :
    timeoutsFor p (a.apply env d).workerQueue = timeoutsFor p d.workerQueue := by
  cases a with
  | work t =>
    simp only [Action.apply]
    rw [(run_frame env t d).2.2.2.1]
  | build now => exact ((apply_keeps env (.build now) d p hp).2.2.2 (fun t ht => by cases ht) hw).2
  | wait r => exact ((apply_keeps env (.wait r) d p hp).2.2.2 (fun t ht => by cases ht) hw).2
  | dispatch now n =>
    exact ((apply_keeps env (.dispatch now n) d p hp).2.2.2 (fun t ht => by cases ht) hw).2
  | command now c =>
    exact ((apply_keeps env (.command now c) d p hp).2.2.2 (fun t ht => by cases ht) hw).2

theorem run_out_no_timeout {W : Type} (env : Env W) (p : Ptr) (as : List Action) :
    ∀ d : Dispatcher W, p < d.next →
      (∀ k, k < as.length → ((runActions env (as.take k) d).heap p).wantRead = false) →
      timeoutsFor p (runActions env as d).workerQueue = timeoutsFor p d.workerQueue := by
  induction as with
  | nil => intro d _ _; rfl
  | cons a rest ih =>
    intro d hp hall
    have hw : (d.heap p).wantRead = false := hall 0 (by simp)
    have h1 := (apply_keeps env a d p hp).1
    have hrest : ∀ k, k < rest.length →
        ((runActions env (rest.take k) (a.apply env d)).heap p).wantRead = false := by
      intro k hk
      have := hall (k + 1) (by simpa using hk)
      simpa [List.take_succ_cons, runActions_cons] using this
    rw [runActions_cons, ih (a.apply env d) (lt_of_lt_of_le hp h1) hrest,
      apply_out_no_timeout env a d p hp hw]

/-- C8: timeout fairness. When the build-watchlists step on a well-formed
table enqueues a Timeout task for the entry of socket `s`, it enqueues exactly
one; afterwards the record has `wantRead = false` and `activity = now`, and
`s` is in neither the read nor the except watchlist. Along every later run of
the dispatcher (passes of the readiness loop, commands, worker tasks, the
Timeout task itself among them, in any order), as long as `wantRead` of the
record has been false before each piece of work, no further Timeout task for
that record has been enqueued. And `wantRead` stays false, with no further
Timeout task, along every run in which no worker runs a task of the record. -/
theorem timeout_fires_once {W : Type} (env : Env W) (now : Int) (d : Dispatcher W)
    (hwf : d.WF) (s : Socket) (p : Ptr) (hmem : (s, p) ∈ d.socketMap)
    (hfire : d.workerQueue.count (Task.timeout s p) <
      (buildWatchlists now d).workerQueue.count (Task.timeout s p)) :
    (buildWatchlists now d).workerQueue.count (Task.timeout s p)
      = d.workerQueue.count (Task.timeout s p) + 1 ∧
    ((buildWatchlists now d).heap p).wantRead = false ∧
    ((buildWatchlists now d).heap p).activity = now ∧
    s ∉ (buildWatchlists now d).readList ∧
    s ∉ (buildWatchlists now d).exceptList ∧
    (∀ as : List Action,
      (∀ k, k < as.length →
        ((runActions env (as.take k) (buildWatchlists now d)).heap p).wantRead = false) →
      timeoutsFor p (runActions env as (buildWatchlists now d)).workerQueue
        = timeoutsFor p (buildWatchlists now d).workerQueue) ∧
    ∀ as : List Action, (∀ t, Action.work t ∈ as → t.pInfo ≠ p) →
      ((runActions env as (buildWatchlists now d)).heap p).wantRead = false ∧
      timeoutsFor p (runActions env as (buildWatchlists now d)).workerQueue
        = timeoutsFor p (buildWatchlists now d).workerQueue := by
  have hq := buildWatchlists_workerQueue now d hwf
  rw [hq, List.count_append] at hfire
  have hpos : 0 < ((d.socketMap.filter (fun e => timedOut now (d.heap e.2))).map
      (fun e => Task.timeout e.1 e.2)).count (Task.timeout s p) := by omega
  have hin := List.count_pos_iff.1 hpos
  have hone := List.count_eq_one_of_mem (posted_nodup now d hwf) hin
  have hto : timedOut now (d.heap p) = true := ((timeout_mem_posted now d s p).1 hin).2
  have hheap := buildWatchlists_heap_of_mem now d hwf hmem
  have hw : ((buildWatchlists now d).heap p).wantRead = false := by
    rw [hheap, afterWatch_wantRead, hto]
    simp
  have hnotin : s ∉ (buildWatchlists now d).readList := by
    rw [mem_readList_iff now d hwf]
    rintro ⟨p', hm', hw'⟩
    have hpp : p' = p := WF.key_unique hwf hm' hmem
    subst hpp
    rw [afterWatch_wantRead, hto] at hw'
    simp at hw'
  have hp : p < (buildWatchlists now d).next := by
    rw [(buildWatchlists_frame now d).2.1]
    exact hwf.2.2 (s, p) hmem
  refine ⟨?_, hw, ?_, hnotin, ?_, ?_, ?_⟩
  · rw [hq, List.count_append, hone]
  · rw [hheap]
    simp [afterWatch, hto]
  · rw [buildWatchlists_exceptList now d hwf, ← buildWatchlists_readList now d hwf]
    exact hnotin
  · intro as hall
    exact run_out_no_timeout env p as (buildWatchlists now d) hp hall
  · intro as hnot
    exact run_keeps_out env p as (buildWatchlists now d) hp hw hnot

theorem timedClosable_WF : timedClosable.WF := by
  refine ⟨?_, ?_, ?_⟩ <;> decide

/-- Witness for `timeout_fires_once`: socket 1 with idle timeout 3, looked at
five microseconds after its registration. A worker then runs the Timeout
task; the handler closes the socket, so the worker leaves `wantRead = false`,
and the passes that follow enqueue no further Timeout task. -/
theorem timeout_fires_once_witness :
    timedClosable.WF ∧ (1, 0) ∈ timedClosable.socketMap ∧
    timedClosable.workerQueue.count (Task.timeout 1 0) <
      (buildWatchlists 5 timedClosable).workerQueue.count (Task.timeout 1 0) ∧
    (∀ k, k < closedOnTimeout.length →
      ((runActions closingEnv (closedOnTimeout.take k)
        (buildWatchlists 5 timedClosable)).heap 0).wantRead = false) ∧
    Action.work (Task.timeout 1 0) ∈ closedOnTimeout ∧
    timeoutsFor 0 (buildWatchlists 5 timedClosable).workerQueue = 1 ∧
    timeoutsFor 0 (runActions closingEnv closedOnTimeout
      (buildWatchlists 5 timedClosable)).workerQueue
        = timeoutsFor 0 (buildWatchlists 5 timedClosable).workerQueue :=
  ⟨timedClosable_WF, by decide, by decide, by decide, by decide, by decide,
    (timeout_fires_once closingEnv 5 timedClosable timedClosable_WF 1 0 (by decide)
      (by decide)).2.2.2.2.2.1 closedOnTimeout (by decide)⟩

theorem apply_WF {W : Type} (env : Env W) (a : Action) (d : Dispatcher W) (hwf : d.WF) :
    (a.apply env d).WF := by
  cases a with
  | build now =>
    have hf := buildWatchlists_frame now d
    simp only [Action.apply, Dispatcher.WF, hf.1, hf.2.1]
    exact hwf
  | wait r => exact hwf
  | dispatch now n =>
    have hf := dispatchReadiness_frame now n d
    simp only [Action.apply, Dispatcher.WF, hf.1, hf.2.1]
    exact hwf
  | command now c => exact execute_WF env now c d hwf
  | work t =>
    have hf := run_frame env t d
    simp only [Action.apply, Dispatcher.WF, hf.1, hf.2.1]
    exact hwf

theorem run_WF {W : Type} (env : Env W) (as : List Action) :
    ∀ d : Dispatcher W, ValidRun env as d → d.WF → d.writeList = [] →
      (runActions env as d).WF ∧ (runActions env as d).writeList = [] := by
  induction as with
  | nil => intro d _ hwf hw; exact ⟨hwf, hw⟩
  | cons a rest ih =>
    intro d hv hwf hw
    obtain ⟨hva, hvr⟩ := hv
    rw [runActions_cons]
    refine ih (a.apply env d) hvr (apply_WF env a d hwf) ?_
    cases a with
    | build now => exact (buildWatchlists_frame now d).2.2.2.2.2.2.1.trans hw
    | wait r =>
      have hsub : r.writeReady.Sublist [] := hw ▸ hva.2.1
      exact List.sublist_nil.1 hsub
    | dispatch now n => exact (dispatchReadiness_frame now n d).2.2.2.1.trans hw
    | command now c => exact (execute_keeps env now c d).2.2.2.2.trans hw
    | work t => exact (run_frame env t d).2.2.2.2.2.2.2.2.1.trans hw

theorem watchlists_core {W : Type} (now : Int) (d : Dispatcher W) (hwf : d.WF) :
    (buildWatchlists now d).readList = (buildWatchlists now d).exceptList ∧
    (buildWatchlists now d).readList.Nodup ∧
    (∀ s, s ∈ (buildWatchlists now d).readList ↔
      ∃ p, (s, p) ∈ d.socketMap ∧ ((buildWatchlists now d).heap p).wantRead = true) ∧
    (∀ s p, (s, p) ∈ d.socketMap →
      (((buildWatchlists now d).heap p).wantRead = true ↔
        (d.heap p).wantRead = true ∧
          Task.timeout s p ∉ enqueuedBy d.workerQueue (buildWatchlists now d).workerQueue)) := by
  refine ⟨?_, readList_nodup now d hwf, ?_, ?_⟩
  · rw [buildWatchlists_readList now d hwf, buildWatchlists_exceptList now d hwf]
  · intro s
    rw [mem_readList_iff now d hwf]
    constructor
    · rintro ⟨p, hm, hw⟩
      exact ⟨p, hm, by rw [buildWatchlists_heap_of_mem now d hwf hm]; exact hw⟩
    · rintro ⟨p, hm, hw⟩
      exact ⟨p, hm, by rw [buildWatchlists_heap_of_mem now d hwf hm] at hw; exact hw⟩
  · intro s p hm
    rw [buildWatchlists_heap_of_mem now d hwf hm, buildWatchlists_workerQueue now d hwf,
      enqueuedBy_append, timeout_mem_posted, afterWatch_wantRead]
    cases hto : timedOut now (d.heap p) <;> cases hw : (d.heap p).wantRead <;> simp [hm]

/-- C9: in every state the dispatcher reaches from its initial state (by any
run in which `select` keeps its contract), after the build-watchlists step the
read watchlist and the except watchlist are equal, hold each socket at most
once, and hold exactly the sockets of the table entries whose `wantRead` is
true at the end of the step, which are the entries whose `wantRead` was true
and for which no Timeout task was enqueued; and the write list handed to
`select` is empty. -/
theorem watchlists_after_build {W : Type} (env : Env W) (m : Int) (w : W)
    (as : List Action) (hv : ValidRun env as (Dispatcher.init m w)) (now : Int) :
    (buildWatchlists now (runActions env as (Dispatcher.init m w))).readList
      = (buildWatchlists now (runActions env as (Dispatcher.init m w))).exceptList ∧
    (buildWatchlists now (runActions env as (Dispatcher.init m w))).readList.Nodup ∧
    (∀ s, s ∈ (buildWatchlists now (runActions env as (Dispatcher.init m w))).readList ↔
      ∃ p, (s, p) ∈ (runActions env as (Dispatcher.init m w)).socketMap ∧
        ((buildWatchlists now (runActions env as (Dispatcher.init m w))).heap p).wantRead
          = true) ∧
    (∀ s p, (s, p) ∈ (runActions env as (Dispatcher.init m w)).socketMap →
      (((buildWatchlists now (runActions env as (Dispatcher.init m w))).heap p).wantRead
          = true ↔
        ((runActions env as (Dispatcher.init m w)).heap p).wantRead = true ∧
          Task.timeout s p ∉ enqueuedBy (runActions env as (Dispatcher.init m w)).workerQueue
            (buildWatchlists now (runActions env as (Dispatcher.init m w))).workerQueue)) ∧
    (buildWatchlists now (runActions env as (Dispatcher.init m w))).writeList = [] := by
  obtain ⟨hwf, hwl⟩ := run_WF env as (Dispatcher.init m w) hv (init_WF m w) rfl
  obtain ⟨h1, h2, h3, h4⟩ := watchlists_core now _ hwf
  exact ⟨h1, h2, h3, h4, (buildWatchlists_frame now _).2.2.2.2.2.2.1.trans hwl⟩

theorem sampleRun_valid : ValidRun chattyEnv sampleRun (Dispatcher.init 1 ()) := by
  refine ⟨trivial, trivial, trivial, ?_, trivial, trivial⟩
  unfold SelectResult.Valid
  decide

/-- Witness for `watchlists_after_build`: after `sampleRun`, at instant 2,
socket 1 is the one socket on the watchlists (socket 2 has a task pending). -/
theorem watchlists_after_build_witness :
    ValidRun chattyEnv sampleRun (Dispatcher.init 1 ()) ∧
    (buildWatchlists 2 (runActions chattyEnv sampleRun (Dispatcher.init 1 ()))).readList
      = [1] ∧
    (buildWatchlists 2 (runActions chattyEnv sampleRun (Dispatcher.init 1 ()))).readList
      = (buildWatchlists 2 (runActions chattyEnv sampleRun (Dispatcher.init 1 ()))).exceptList ∧
    (buildWatchlists 2 (runActions chattyEnv sampleRun (Dispatcher.init 1 ()))).readList.Nodup ∧
    (buildWatchlists 2 (runActions chattyEnv sampleRun (Dispatcher.init 1 ()))).writeList
      = [] :=
  ⟨sampleRun_valid, by decide,
    (watchlists_after_build chattyEnv 1 () sampleRun sampleRun_valid 2).1,
    (watchlists_after_build chattyEnv 1 () sampleRun sampleRun_valid 2).2.1,
    (watchlists_after_build chattyEnv 1 () sampleRun sampleRun_valid 2).2.2.2.2⟩

/-! ### Dispatch of readiness -/

theorem mapFind_mem (m : List (Socket × Ptr)) (s : Socket) (p : Ptr)
    (h : mapFind m s = some p) : (s, p) ∈ m := by
  induction m with
  | nil => simp [mapFind] at h
  | cons hd rest ih =>
    obtain ⟨k, q⟩ := hd
    unfold mapFind at h
    by_cases hk : k = s
    · simp only [hk, if_true, Option.some.injEq] at h
      simp [hk, h]
    · simp only [hk, if_false] at h
      exact List.mem_cons_of_mem _ (ih h)

theorem mapFind_of_mem (m : List (Socket × Ptr)) (hnd : (m.map Prod.fst).Nodup)
    (s : Socket) (p : Ptr) (h : (s, p) ∈ m) : mapFind m s = some p := by
  induction m with
  | nil => simp at h
  | cons hd rest ih =>
    obtain ⟨k, q⟩ := hd
    simp only [List.map_cons, List.nodup_cons] at hnd
    unfold mapFind
    rcases List.mem_cons.1 h with heq | hmem
    · obtain ⟨rfl, rfl⟩ := Prod.mk.inj heq
      simp
    · have hk : k ≠ s := by
        intro hks
        exact hnd.1 (hks ▸ List.mem_map_of_mem Prod.fst hmem)
      simp only [hk, if_false]
      exact ih hnd.2 hmem

theorem out_out (now : Int) (i : SocketInfo) : (i.out now).out now = i.out now := rfl

theorem dispatchLoop_after {W : Type} (now : Int) (mk : Socket → Ptr → Task)
    (hmk : ∀ s q s' q', mk s q = mk s' q' → s = s' ∧ q = q')
    (l : List Socket) (hl : l.Nodup) (d : Dispatcher W) (s : Socket) (p : Ptr)
    (hf : mapFind d.socketMap s = some p) (hs : s ∈ l) :
    (l.foldl (dispatchOne now mk) d).heap p = (d.heap p).out now ∧
    (l.foldl (dispatchOne now mk) d).workerQueue.count (mk s p)
      = d.workerQueue.count (mk s p) + 1 := by
  constructor
  · rcases dispatchLoop_heap_cases now mk l p d with ⟨-, h⟩ | ⟨h, -⟩
    · exact absurd hf (h s hs)
    · exact h
  · rw [dispatchLoop_workerQueue, List.count_append,
      count_filterMap_find d.socketMap mk hmk s p hf l, List.count_eq_one_of_mem hl hs]

theorem dispatchLoop_other {W : Type} (now : Int) (mk : Socket → Ptr → Task)
    (l : List Socket) (d : Dispatcher W) (t : Task) (ht : ∀ s q, mk s q ≠ t) (p : Ptr) :
    ((l.foldl (dispatchOne now mk) d).heap p = d.heap p ∨
      (l.foldl (dispatchOne now mk) d).heap p = (d.heap p).out now) ∧
    (l.foldl (dispatchOne now mk) d).workerQueue.count t = d.workerQueue.count t := by
  constructor
  · rcases dispatchLoop_heap_cases now mk l p d with ⟨h, -⟩ | ⟨h, -⟩
    · exact Or.inl h
    · exact Or.inr h
  · rw [dispatchLoop_workerQueue, List.count_append,
      count_filterMap_other d.socketMap mk t ht l]
    rfl

theorem dispatchReadiness_pos {W : Type} (now n : Int) (d : Dispatcher W) (hn : 0 < n) :
    dispatchReadiness now n d =
      (d.readList.foldl (dispatchOne now Task.readable) d).exceptList.foldl
        (dispatchOne now Task.exception)
        (d.readList.foldl (dispatchOne now Task.readable) d) := by
  have hn' : n > 0 := hn
  simp [dispatchReadiness, hn']

theorem dispatch_core {W : Type} (now n : Int) (d : Dispatcher W)
    (hrl : d.readList.Nodup) (hel : d.exceptList.Nodup)
    (s : Socket) (p : Ptr) (hfind : mapFind d.socketMap s = some p) :
    (0 < n → s ∈ d.readList →
      ((dispatchReadiness now n d).heap p).wantRead = false ∧
      ((dispatchReadiness now n d).heap p).activity = now ∧
      (dispatchReadiness now n d).workerQueue.count (Task.readable s p) =
        d.workerQueue.count (Task.readable s p) + 1) ∧
    (0 < n → s ∈ d.exceptList →
      ((dispatchReadiness now n d).heap p).wantRead = false ∧
      ((dispatchReadiness now n d).heap p).activity = now ∧
      (dispatchReadiness now n d).workerQueue.count (Task.exception s p) =
        d.workerQueue.count (Task.exception s p) + 1) ∧
    (n ≤ 0 →
      (dispatchReadiness now n d).workerQueue = d.workerQueue ∧
      (dispatchReadiness now n d).heap = d.heap) := by
  have hfr := dispatchLoop_frame now Task.readable d.readList d
  have hinjR : ∀ s q s' q', Task.readable s q = Task.readable s' q' → s = s' ∧ q = q' := by
    intro a b c e h
    simpa using h
  have hinjE : ∀ s q s' q', Task.exception s q = Task.exception s' q' → s = s' ∧ q = q' := by
    intro a b c e h
    simpa using h
  refine ⟨?_, ?_, ?_⟩
  · intro hn hs
    rw [dispatchReadiness_pos now n d hn]
    obtain ⟨a1, a2⟩ := dispatchLoop_after now Task.readable hinjR d.readList hrl d s p hfind hs
    obtain ⟨b1, b2⟩ := dispatchLoop_other now Task.exception
      (d.readList.foldl (dispatchOne now Task.readable) d).exceptList
      (d.readList.foldl (dispatchOne now Task.readable) d)
      (Task.readable s p) (fun _ _ h => by cases h) p
    refine ⟨?_, ?_, b2.trans a2⟩
    · rcases b1 with h | h <;> rw [h, a1] <;> rfl
    · rcases b1 with h | h <;> rw [h, a1] <;> rfl
  · intro hn hs
    rw [dispatchReadiness_pos now n d hn]
    obtain ⟨-, a2⟩ := dispatchLoop_other now Task.readable d.readList d
      (Task.exception s p) (fun _ _ h => by cases h) p
    have hex : (d.readList.foldl (dispatchOne now Task.readable) d).exceptList
        = d.exceptList := hfr.2.2.2.2.2.2.2.2.1
    obtain ⟨b1, b2⟩ := dispatchLoop_after now Task.exception hinjE
      (d.readList.foldl (dispatchOne now Task.readable) d).exceptList
      (by rw [hex]; exact hel)
      (d.readList.foldl (dispatchOne now Task.readable) d)
      s p (by rw [hfr.1]; exact hfind) (by rw [hex]; exact hs)
    refine ⟨?_, ?_, b2.trans (by rw [a2])⟩
    · rw [b1]; rfl
    · rw [b1]; rfl
  · intro hn
    have hn' : ¬ n > 0 := not_lt.2 hn
    simp [dispatchReadiness, hn']

/-- C10: dispatch of readiness, on a well-formed table and with `select`
keeping its contract. When `select` returns `n > 0`: for a socket of the table
that it left in the read list, the step sets `wantRead` of its record to
false and its `activity` to the current instant, and enqueues exactly one
Readable task carrying the socket and the record; for a socket of the table
that it left in the except list, the same with exactly one Exception task.
When `n <= 0` the step leaves the worker queue and every record as they
were. -/
theorem readiness_dispatched {W : Type} (now : Int) (r : SelectResult)
    (d : Dispatcher W) (hwf : d.WF) (hv : r.Valid (buildWatchlists now d))
    (s : Socket) (p : Ptr) (hfind : mapFind d.socketMap s = some p) :
    (0 < r.n → s ∈ r.readReady →
      ((readinessSteps now r d).heap p).wantRead = false ∧
      ((readinessSteps now r d).heap p).activity = now ∧
      (readinessSteps now r d).workerQueue.count (Task.readable s p) =
        (select r (buildWatchlists now d)).workerQueue.count (Task.readable s p) + 1) ∧
    (0 < r.n → s ∈ r.exceptReady →
      ((readinessSteps now r d).heap p).wantRead = false ∧
      ((readinessSteps now r d).heap p).activity = now ∧
      (readinessSteps now r d).workerQueue.count (Task.exception s p) =
        (select r (buildWatchlists now d)).workerQueue.count (Task.exception s p) + 1) ∧
    (r.n ≤ 0 →
      (readinessSteps now r d).workerQueue = (select r (buildWatchlists now d)).workerQueue ∧
      (readinessSteps now r d).heap = (select r (buildWatchlists now d)).heap) := by
  have hrl : r.readReady.Nodup := hv.1.nodup (readList_nodup now d hwf)
  have hel : r.exceptReady.Nodup := by
    have h := readList_nodup now d hwf
    rw [(watchlists_core now d hwf).1] at h
    exact hv.2.2.nodup h
  have hm1 : (select r (buildWatchlists now d)).socketMap = d.socketMap :=
    (buildWatchlists_frame now d).1
  exact dispatch_core now r.n (select r (buildWatchlists now d)) hrl hel s p
    (by rw [hm1]; exact hfind)

/-- The select result that reports socket 1 ready for reading and in error. -/
theorem oneSocket_select_valid :
    SelectResult.Valid { n := 2, readReady := [1], writeReady := [], exceptReady := [1] }
      (buildWatchlists 1 (oneSocket 1)) := by
  unfold SelectResult.Valid
  decide

/-- Witness for `readiness_dispatched`: socket 1 reported in both lists. -/
theorem readiness_dispatched_witness :
    (oneSocket 1).WF ∧
    SelectResult.Valid { n := 2, readReady := [1], writeReady := [], exceptReady := [1] }
      (buildWatchlists 1 (oneSocket 1)) ∧
    mapFind (oneSocket 1).socketMap 1 = some 0 ∧
    ((readinessSteps 1 { n := 2, readReady := [1], writeReady := [], exceptReady := [1] }
      (oneSocket 1)).heap 0).wantRead = false ∧
    (readinessSteps 1 { n := 2, readReady := [1], writeReady := [], exceptReady := [1] }
      (oneSocket 1)).workerQueue = [Task.readable 1 0, Task.exception 1 0] :=
  ⟨oneSocket_WF 1, oneSocket_select_valid, by decide,
    ((readiness_dispatched 1 { n := 2, readReady := [1], writeReady := [], exceptReady := [1] }
      (oneSocket 1) (oneSocket_WF 1) oneSocket_select_valid 1 0 (by decide)).1
        (by decide) (by decide)).1,
    by decide⟩

/-! ### At most one task in flight -/

theorem tasksFor_append (p : Ptr) (q r : List Task) :
    tasksFor p (q ++ r) = tasksFor p q + tasksFor p r := by
  simp [tasksFor, List.countP_append]

theorem tasksFor_cons (p : Ptr) (t : Task) (q : List Task) :
    tasksFor p (t :: q) = tasksFor p q + (if t.pInfo = p then 1 else 0) := by
  simp [tasksFor, List.countP_cons]

theorem tasksFor_erase (p : Ptr) (t : Task) (q : List Task) (h : t ∈ q) :
    tasksFor p (q.erase t) + (if t.pInfo = p then 1 else 0) = tasksFor p q := by
  have hperm := List.perm_cons_erase h
  have hc := hperm.countP_eq (fun t => decide (t.pInfo = p))
  rw [← tasksFor_cons]
  exact hc.symm

theorem tasksFor_eq_zero (p : Ptr) (q : List Task) (h : ∀ t ∈ q, t.pInfo ≠ p) :
    tasksFor p q = 0 := by
  unfold tasksFor
  rw [List.countP_eq_zero]
  intro t ht
  simpa using h t ht

theorem reachable_reAdded :
    Reachable chattyEnv SelectResult.Disjoint 1 () reAddedState := by
  have h0 : Reachable chattyEnv SelectResult.Disjoint 1 () (Dispatcher.init 1 ()) :=
    Reachable.init
  have h1 : Reachable chattyEnv SelectResult.Disjoint 1 () (oneSocket 1) :=
    Reachable.step _ _ h0 (Step.command _ 0 (.addSocket 1 0 0))
  have h2 : Reachable chattyEnv SelectResult.Disjoint 1 ()
      (readinessSteps 0 readReady1 (oneSocket 1)) :=
    Reachable.step _ _ h1 (Step.iterate _ 0 readReady1
      (by unfold SelectResult.Valid; decide) (by intro s hs; simp [readReady1]))
  have h3 : Reachable chattyEnv SelectResult.Disjoint 1 ()
      (addSocketImpl 1 1 0 0 (readinessSteps 0 readReady1 (oneSocket 1))) :=
    Reachable.step _ _ h2 (Step.command _ 1 (.addSocket 1 0 0))
  exact Reachable.step _ _ h3 (Step.iterate _ 2 readReady1
    (by unfold SelectResult.Valid; decide) (by intro s hs; simp [readReady1]))

theorem reachable_bothReported :
    Reachable chattyEnv (fun _ => True) 1 () bothReportedState := by
  have h0 : Reachable chattyEnv (fun _ => True) 1 () (Dispatcher.init 1 ()) :=
    Reachable.init
  have h1 : Reachable chattyEnv (fun _ => True) 1 () (oneSocket 1) :=
    Reachable.step _ _ h0 (Step.command _ 0 (.addSocket 1 0 0))
  exact Reachable.step _ _ h1 (Step.iterate _ 0 bothReady1
    (by unfold SelectResult.Valid; decide) trivial)

/-- C1 (counterexample): two reachable states with two Readable/Exception
tasks queued for socket handle 1. In the first, every select result is a pair
of disjoint lists: socket 1 is reported readable, re-registered by an
AddSocket command while its task is queued, and reported readable again; the
two tasks pin different records. In the second, one `select` reports socket 1
both readable and in error; both tasks pin record 0. -/
theorem two_tasks_in_flight :
    (Reachable chattyEnv SelectResult.Disjoint 1 () reAddedState ∧
      reAddedState.workerQueue = [Task.readable 1 0, Task.readable 1 1] ∧
      reAddedState.inFlight 1 = 2) ∧
    (Reachable chattyEnv (fun _ => True) 1 () bothReportedState ∧
      bothReportedState.workerQueue = [Task.readable 1 0, Task.exception 1 0] ∧
      bothReportedState.inFlight 1 = 2 ∧ bothReportedState.outstanding 0 = 2) :=
  ⟨⟨reachable_reAdded, by decide, by decide⟩,
    ⟨reachable_bothReported, by decide, by decide, by decide⟩⟩

theorem WF_of_frame {W : Type} {d d' : Dispatcher W} (hm : d'.socketMap = d.socketMap)
    (hn : d'.next = d.next) (hwf : d.WF) : d'.WF := by
  unfold Dispatcher.WF
  rw [hm, hn]
  exact hwf

theorem tasksFor_single (p : Ptr) (t : Task) :
    tasksFor p [t] = if t.pInfo = p then 1 else 0 := by
  simp [tasksFor, List.countP_cons]

theorem watchEntry_quiet {W : Type} (now : Int) (d : Dispatcher W) (e : Socket × Ptr)
    (hQ : Quiet d) (hB : TasksBound d) (he : e.2 < d.next) :
    Quiet (watchEntry now d e) ∧ TasksBound (watchEntry now d e) := by
  have hh := watchEntry_heap now d e
  have hq := watchEntry_workerQueue now d e
  have hf := watchEntry_frame now d e
  constructor
  · intro p
    obtain ⟨q1, q2⟩ := hQ p
    unfold Dispatcher.outstanding at q1 q2 ⊢
    rw [hh, hq, hf.2.2.2.1, tasksFor_append]
    by_cases hto : timedOut now (d.heap e.2) = true
    · simp only [hto, if_true, tasksFor_single, Task.pInfo]
      by_cases hp : p = e.2
      · subst hp
        have hw : (d.heap e.2).wantRead = true := ((timedOut_iff now _).1 hto).1
        have h0 := q2 hw
        simp only [setInfo, if_true, afterWatch_wantRead, hto]
        constructor
        · omega
        · simp
      · have hp' : ¬ e.2 = p := fun h => hp h.symm
        simp only [setInfo, hp, hp', if_false]
        exact ⟨by omega, fun h => by have := q2 h; omega⟩
    · have hto' : timedOut now (d.heap e.2) = false := by simpa using hto
      simp only [hto', Bool.false_eq_true, if_false, tasksFor, List.countP_nil, add_zero]
      refine ⟨q1, ?_⟩
      intro hw
      apply q2
      by_cases hp : p = e.2
      · subst hp
        simpa [setInfo, afterWatch_wantRead, hto'] using hw
      · simpa [setInfo, hp] using hw
  · intro t ht
    rw [hf.2.1]
    rw [hq, hf.2.2.2.1] at ht
    rcases ht with ht | ht
    · rcases List.mem_append.1 ht with ht | ht
      · exact hB t (Or.inl ht)
      · by_cases hto : timedOut now (d.heap e.2) = true
        · simp only [hto, if_true, List.mem_singleton] at ht
          subst ht
          exact he
        · simp [hto] at ht
    · exact hB t (Or.inr ht)

theorem buildLoop_quiet {W : Type} (now : Int) (es : List (Socket × Ptr)) :
    ∀ d : Dispatcher W, Quiet d → TasksBound d → (∀ e ∈ es, e.2 < d.next) →
      Quiet (es.foldl (watchEntry now) d) ∧ TasksBound (es.foldl (watchEntry now) d) := by
  induction es with
  | nil => intro d hQ hB _; exact ⟨hQ, hB⟩
  | cons e rest ih =>
    intro d hQ hB hb
    simp only [List.foldl_cons]
    obtain ⟨g1, g2⟩ := watchEntry_quiet now d e hQ hB (hb e (List.mem_cons_self _ _))
    refine ih _ g1 g2 ?_
    intro e' he'
    rw [(watchEntry_frame now d e).2.1]
    exact hb e' (List.mem_cons_of_mem _ he')

theorem buildWatchlists_quiet {W : Type} (now : Int) (d : Dispatcher W)
    (hwf : d.WF) (hQ : Quiet d) (hB : TasksBound d) :
    Quiet (buildWatchlists now d) ∧ TasksBound (buildWatchlists now d) :=
  buildLoop_quiet now d.socketMap { d with readList := [], exceptList := [] } hQ hB hwf.2.2

theorem dispatchOne_quiet {W : Type} (now : Int) (mk : Socket → Ptr → Task)
    (hmk : ∀ s q, (mk s q).pInfo = q) (d : Dispatcher W) (s : Socket)
    (hwf : d.WF) (hQ : Quiet d) (hB : TasksBound d)
    (hw : ∀ p, mapFind d.socketMap s = some p → (d.heap p).wantRead = true) :
    Quiet (dispatchOne now mk d s) ∧ TasksBound (dispatchOne now mk d s) := by
  have hh := dispatchOne_heap now mk d s
  have hq := dispatchOne_workerQueue now mk d s
  have hf := dispatchOne_frame now mk d s
  cases hfind : mapFind d.socketMap s with
  | none =>
    have hd : dispatchOne now mk d s = d := by simp [dispatchOne, hfind]
    rw [hd]
    exact ⟨hQ, hB⟩
  | some p0 =>
    rw [hfind] at hh hq
    have hw0 := hw p0 hfind
    constructor
    · intro p
      obtain ⟨q1, q2⟩ := hQ p
      unfold Dispatcher.outstanding at q1 q2 ⊢
      rw [hh, hq, hf.2.2.2.1, tasksFor_append]
      simp only [Option.map_some', Option.toList_some, tasksFor_single, hmk]
      by_cases hp : p = p0
      · subst hp
        have h0 := q2 hw0
        simp only [setInfo, if_true, SocketInfo.out]
        constructor
        · omega
        · simp
      · have hp' : ¬ p0 = p := fun h => hp h.symm
        simp only [setInfo, hp, hp', if_false]
        exact ⟨by omega, fun h => by have := q2 h; omega⟩
    · intro t ht
      rw [hf.2.1]
      rw [hq, hf.2.2.2.1] at ht
      rcases ht with ht | ht
      · rcases List.mem_append.1 ht with ht | ht
        · exact hB t (Or.inl ht)
        · simp only [Option.map_some', Option.toList_some, List.mem_singleton] at ht
          subst ht
          rw [hmk]
          exact hwf.2.2 (s, p0) (mapFind_mem _ _ _ hfind)
      · exact hB t (Or.inr ht)

theorem dispatchLoop_quiet {W : Type} (now : Int) (mk : Socket → Ptr → Task)
    (hmk : ∀ s q, (mk s q).pInfo = q) (l : List Socket) (hl : l.Nodup) :
    ∀ d : Dispatcher W, d.WF → Quiet d → TasksBound d →
      (∀ s ∈ l, ∀ p, mapFind d.socketMap s = some p → (d.heap p).wantRead = true) →
      Quiet (l.foldl (dispatchOne now mk) d) ∧ TasksBound (l.foldl (dispatchOne now mk) d) := by
  induction l with
  | nil => intro d _ hQ hB _; exact ⟨hQ, hB⟩
  | cons s rest ih =>
    intro d hwf hQ hB hw
    simp only [List.foldl_cons]
    have hnd := List.nodup_cons.1 hl
    have hf := dispatchOne_frame now mk d s
    obtain ⟨g1, g2⟩ := dispatchOne_quiet now mk hmk d s hwf hQ hB
      (hw s (List.mem_cons_self _ _))
    refine ih hnd.2 _ (WF_of_frame hf.1 hf.2.1 hwf) g1 g2 ?_
    intro s' hs' p' hfind'
    rw [hf.1] at hfind'
    have hwp := hw s' (List.mem_cons_of_mem _ hs') p' hfind'
    rw [dispatchOne_heap]
    cases hfind : mapFind d.socketMap s with
    | none => exact hwp
    | some p0 =>
      have hne : p' ≠ p0 := by
        intro heq
        subst heq
        have := WF.ptr_unique hwf (mapFind_mem _ _ _ hfind') (mapFind_mem _ _ _ hfind)
        subst this
        exact hnd.1 hs'
      simpa [setInfo, hne] using hwp

theorem watched_wantRead {W : Type} (now : Int) (d : Dispatcher W) (hwf : d.WF)
    (s : Socket) (p : Ptr) (hs : s ∈ (buildWatchlists now d).readList)
    (hfind : mapFind d.socketMap s = some p) :
    ((buildWatchlists now d).heap p).wantRead = true := by
  obtain ⟨p', hm, hw⟩ := ((watchlists_core now d hwf).2.2.1 s).1 hs
  have hpp : p = p' := WF.key_unique hwf (mapFind_mem _ _ _ hfind) hm
  rw [hpp]
  exact hw

theorem iterate_inv {W : Type} (now : Int) (r : SelectResult) (d : Dispatcher W)
    (hI : Inv d) (hv : r.Valid (buildWatchlists now d)) (hdis : r.Disjoint) :
    Inv (readinessSteps now r d) := by
  obtain ⟨hwf, hB, hQ⟩ := hI
  obtain ⟨hQ1, hB1⟩ := buildWatchlists_quiet now d hwf hQ hB
  have hfb := buildWatchlists_frame now d
  have hwf1 : (select r (buildWatchlists now d)).WF := WF_of_frame hfb.1 hfb.2.1 hwf
  have hQ1' : Quiet (select r (buildWatchlists now d)) := hQ1
  have hB1' : TasksBound (select r (buildWatchlists now d)) := hB1
  have hrl : r.readReady.Nodup := hv.1.nodup (readList_nodup now d hwf)
  have hel : r.exceptReady.Nodup := by
    have h := readList_nodup now d hwf
    rw [(watchlists_core now d hwf).1] at h
    exact hv.2.2.nodup h
  unfold readinessSteps
  by_cases hn : 0 < r.n
  · rw [dispatchReadiness_pos now r.n _ hn]
    have hfr := dispatchLoop_frame now Task.readable
      (select r (buildWatchlists now d)).readList (select r (buildWatchlists now d))
    have hpre1 : ∀ s ∈ (select r (buildWatchlists now d)).readList, ∀ p,
        mapFind (select r (buildWatchlists now d)).socketMap s = some p →
        ((select r (buildWatchlists now d)).heap p).wantRead = true := by
      intro s hs p hfind
      have hfind' : mapFind d.socketMap s = some p := by
        rw [← hfb.1]
        exact hfind
      exact watched_wantRead now d hwf s p (hv.1.subset hs) hfind'
    obtain ⟨hQ2, hB2⟩ := dispatchLoop_quiet now Task.readable (fun _ _ => rfl)
      (select r (buildWatchlists now d)).readList hrl _ hwf1 hQ1' hB1' hpre1
    have hwf2 := WF_of_frame hfr.1 hfr.2.1 hwf1
    have hex : ((select r (buildWatchlists now d)).readList.foldl
        (dispatchOne now Task.readable) (select r (buildWatchlists now d))).exceptList
        = r.exceptReady := hfr.2.2.2.2.2.2.2.2.1
    have hpre2 : ∀ s ∈ ((select r (buildWatchlists now d)).readList.foldl
          (dispatchOne now Task.readable) (select r (buildWatchlists now d))).exceptList,
        ∀ p, mapFind ((select r (buildWatchlists now d)).readList.foldl
          (dispatchOne now Task.readable) (select r (buildWatchlists now d))).socketMap s
            = some p →
        (((select r (buildWatchlists now d)).readList.foldl
          (dispatchOne now Task.readable) (select r (buildWatchlists now d))).heap p).wantRead
            = true := by
      intro s hs p hfind
      rw [hex] at hs
      rw [hfr.1] at hfind
      have hfind' : mapFind d.socketMap s = some p := by
        rw [← hfb.1]
        exact hfind
      have hsr : s ∈ (buildWatchlists now d).readList := by
        rw [(watchlists_core now d hwf).1]
        exact hv.2.2.subset hs
      rcases dispatchLoop_heap_cases now Task.readable
          (select r (buildWatchlists now d)).readList p (select r (buildWatchlists now d))
        with ⟨h, -⟩ | ⟨-, s', hs', hfs'⟩
      · rw [h]
        exact watched_wantRead now d hwf s p hsr hfind'
      · have hss : s' = s := WF.ptr_unique hwf1 (mapFind_mem _ _ _ hfs')
          (mapFind_mem _ _ _ hfind)
        subst hss
        exact absurd hs (hdis s' hs')
    obtain ⟨hQ3, hB3⟩ := dispatchLoop_quiet now Task.exception (fun _ _ => rfl) _
      (by rw [hex]; exact hel) _ hwf2 hQ2 hB2 hpre2
    have hfe := dispatchLoop_frame now Task.exception
      ((select r (buildWatchlists now d)).readList.foldl
        (dispatchOne now Task.readable) (select r (buildWatchlists now d))).exceptList
      ((select r (buildWatchlists now d)).readList.foldl
        (dispatchOne now Task.readable) (select r (buildWatchlists now d)))
    exact ⟨WF_of_frame hfe.1 hfe.2.1 hwf2, hB3, hQ3⟩
  · have hn' : ¬ r.n > 0 := hn
    simp only [dispatchReadiness, hn', if_false]
    exact ⟨hwf1, hB1', hQ1'⟩

theorem command_inv {W : Type} (env : Env W) (now : Int) (c : Command) (d : Dispatcher W)
    (hI : Inv d) : Inv (c.execute env now d).2 := by
  obtain ⟨hwf, hB, hQ⟩ := hI
  obtain ⟨h1, h2, h3, h4, -⟩ := execute_keeps env now c d
  refine ⟨execute_WF env now c d hwf, ?_, ?_⟩
  · intro t ht
    rw [h3, h4] at ht
    exact lt_of_lt_of_le (hB t ht) h1
  · intro p
    obtain ⟨q1, q2⟩ := hQ p
    unfold Dispatcher.outstanding at q1 q2 ⊢
    rw [h3, h4]
    refine ⟨q1, ?_⟩
    intro hw
    by_cases hp : p < d.next
    · rw [h2 p hp] at hw
      exact q2 hw
    · have hz1 : tasksFor p d.workerQueue = 0 :=
        tasksFor_eq_zero p _ (fun t ht heq => hp (heq ▸ hB t (Or.inl ht)))
      have hz2 : tasksFor p d.executing = 0 :=
        tasksFor_eq_zero p _ (fun t ht heq => hp (heq ▸ hB t (Or.inr ht)))
      omega

theorem start_inv {W : Type} (d : Dispatcher W) (t : Task) (rest : List Task)
    (h : d.workerQueue = t :: rest) (hI : Inv d) :
    Inv { d with workerQueue := rest, executing := t :: d.executing } := by
  obtain ⟨hwf, hB, hQ⟩ := hI
  refine ⟨hwf, ?_, ?_⟩
  · intro u hu
    apply hB u
    rcases hu with hu | hu
    · exact Or.inl (by rw [h]; exact List.mem_cons_of_mem _ hu)
    · rcases List.mem_cons.1 hu with rfl | hu
      · exact Or.inl (by rw [h]; exact List.mem_cons_self _ _)
      · exact Or.inr hu
  · intro p
    obtain ⟨q1, q2⟩ := hQ p
    unfold Dispatcher.outstanding at q1 q2 ⊢
    rw [h, tasksFor_cons] at q1 q2
    simp only [tasksFor_cons]
    exact ⟨by omega, fun hw => by have := q2 hw; omega⟩

theorem finish_inv {W : Type} (env : Env W) (d : Dispatcher W) (t : Task)
    (h : t ∈ d.executing) (d' : Dispatcher W) (tr : List Event)
    (hex : t.execute env d = some (.ret (), d', tr)) (hI : Inv d) :
    Inv { d' with executing := d.executing.erase t } := by
  obtain ⟨hwf, hB, hQ⟩ := hI
  have hrun : t.run env d = d' := by simp [Task.run, hex]
  have hf := run_frame env t d
  rw [hrun] at hf
  refine ⟨WF_of_frame hf.1 hf.2.1 hwf, ?_, ?_⟩
  · intro u hu
    show u.pInfo < d'.next
    rw [hf.2.1]
    rcases hu with hu | hu
    · exact hB u (Or.inl (by rw [← hf.2.2.2.1]; exact hu))
    · exact hB u (Or.inr (List.mem_of_mem_erase hu))
  · intro p
    obtain ⟨q1, q2⟩ := hQ p
    have he := tasksFor_erase p t d.executing h
    unfold Dispatcher.outstanding at q1 q2 ⊢
    show tasksFor p d'.workerQueue + tasksFor p (d.executing.erase t) ≤ 1 ∧
      ((d'.heap p).wantRead = true →
        tasksFor p d'.workerQueue + tasksFor p (d.executing.erase t) = 0)
    rw [hf.2.2.2.1]
    by_cases hp : t.pInfo = p
    · simp only [hp, if_true] at he
      exact ⟨by omega, fun _ => by omega⟩
    · simp only [hp, if_false, add_zero] at he
      rw [he]
      refine ⟨q1, fun hw => q2 ?_⟩
      have hh := (run_heap env t d p).2.2.2 (fun heq => hp heq.symm)
      rw [hrun] at hh
      rw [← hh]
      exact hw

theorem init_inv {W : Type} (m : Int) (w : W) : Inv (Dispatcher.init m w) := by
  refine ⟨init_WF m w, ?_, ?_⟩
  · intro t ht
    simp [Dispatcher.init] at ht
  · intro p
    simp [Dispatcher.outstanding, Dispatcher.init, tasksFor, SocketInfo.blank]

theorem reachable_inv {W : Type} (env : Env W) (m : Int) (w : W) (d : Dispatcher W)
    (h : Reachable env SelectResult.Disjoint m w d) : Inv d := by
  induction h with
  | init => exact init_inv m w
  | step d d' _ hs ih =>
    cases hs with
    | iterate now r hv hP => exact iterate_inv now r d ih hv hP
    | command now c => exact command_inv env now c d ih
    | start t rest ht => exact start_inv d t rest ht ih
    | finish t ht d'' tr hex => exact finish_inv env d t ht d'' tr hex ih

/-- C1 (amended): at most one task in flight per record. In every state
reachable by the step relation of the dispatcher in which each select result
is a pair of sublists of the read and except watchlists with no socket in
both, for every `SocketInfo` record the number of handler tasks (Readable,
Timeout, Exception) that pin the record and are queued on the worker queue or
executing is at most 1, and it is 0 while the record's `wantRead` is true. -/
theorem at_most_one_per_record {W : Type} (env : Env W) (m : Int) (w : W)
    (d : Dispatcher W) (h : Reachable env SelectResult.Disjoint m w d) (p : Ptr) :
    d.outstanding p ≤ 1 ∧ ((d.heap p).wantRead = true → d.outstanding p = 0) :=
  (reachable_inv env m w d h).2.2 p

/-- Witness for `at_most_one_per_record`: the state in which socket 1 was
re-registered while its task was queued; record 0 has one task. -/
theorem at_most_one_per_record_witness :
    Reachable chattyEnv SelectResult.Disjoint 1 () reAddedState ∧
    reAddedState.outstanding 0 = 1 ∧
    (reAddedState.outstanding 0 ≤ 1 ∧
      ((reAddedState.heap 0).wantRead = true → reAddedState.outstanding 0 = 0)) :=
  ⟨reachable_reAdded, by decide,
    at_most_one_per_record chattyEnv 1 () reAddedState reachable_reAdded 0⟩

/-! ### The four commands on the table -/

theorem mapFind_mapInsert_self (m : List (Socket × Ptr)) (s : Socket) (p : Ptr) :
    mapFind (mapInsert m s p) s = some p := by
  induction m with
  | nil => simp [mapInsert, mapFind]
  | cons hd rest ih =>
    obtain ⟨k, q⟩ := hd
    unfold mapInsert
    by_cases h1 : s < k
    · simp [h1, mapFind]
    · by_cases h2 : s = k
      · subst h2
        simp [mapFind]
      · have h3 : ¬ k = s := fun h => h2 h.symm
        simp [h1, h2, mapFind, h3, ih]

theorem mapFind_mapInsert_other (m : List (Socket × Ptr)) (s k : Socket) (p : Ptr)
    (hk : k ≠ s) : mapFind (mapInsert m s p) k = mapFind m k := by
  have hk' : ¬ s = k := fun h => hk h.symm
  induction m with
  | nil => simp [mapInsert, mapFind, hk']
  | cons hd rest ih =>
    obtain ⟨k0, q⟩ := hd
    unfold mapInsert
    by_cases h1 : s < k0
    · simp [h1, mapFind, hk']
    · by_cases h2 : s = k0
      · subst h2
        simp [mapFind, hk']
      · simp only [h1, h2, if_false, mapFind, ih]

theorem mapErase_eq_filter (m : List (Socket × Ptr)) (s : Socket) :
    mapErase m s = m.filter (fun e => decide (e.1 ≠ s)) := by
  induction m with
  | nil => rfl
  | cons hd rest ih =>
    obtain ⟨k, q⟩ := hd
    unfold mapErase
    by_cases h : k = s
    · simp [h, ih]
    · simp [h, ih]

theorem mapFind_mapErase_self (m : List (Socket × Ptr)) (s : Socket) :
    mapFind (mapErase m s) s = none := by
  induction m with
  | nil => rfl
  | cons hd rest ih =>
    obtain ⟨k, q⟩ := hd
    unfold mapErase
    by_cases h : k = s
    · simp [h, ih]
    · simp [h, mapFind, ih]

theorem mapFind_mapErase_other (m : List (Socket × Ptr)) (s k : Socket) (hk : k ≠ s) :
    mapFind (mapErase m s) k = mapFind m k := by
  induction m with
  | nil => rfl
  | cons hd rest ih =>
    obtain ⟨k0, q⟩ := hd
    unfold mapErase
    by_cases h : k0 = s
    · have h' : ¬ s = k := fun hh => hk hh.symm
      simp [h, mapFind, ih, h']
    · simp only [h, if_false, mapFind, ih]

theorem mapErase_of_not_found (m : List (Socket × Ptr)) (s : Socket)
    (h : mapFind m s = none) : mapErase m s = m := by
  induction m with
  | nil => rfl
  | cons hd rest ih =>
    obtain ⟨k, q⟩ := hd
    unfold mapFind at h
    unfold mapErase
    by_cases hk : k = s
    · simp [hk] at h
    · simp only [hk, if_false] at h ⊢
      rw [ih h]

theorem mapErase_idem (m : List (Socket × Ptr)) (s : Socket) :
    mapErase (mapErase m s) s = mapErase m s :=
  mapErase_of_not_found _ _ (mapFind_mapErase_self m s)

/-- C11: applying AddSocket(h, handler, t) at instant `now` to a well-formed
table yields a table in which `h` maps to a record at a fresh address (no
entry of the old table refers to it) with that handler, timeout `t`,
`wantRead = true` and `activity = now`; the table has one entry for `h`, so a
previous record for `h` is replaced; and every other handle maps to the record
it mapped to, with that record unchanged. -/
theorem addSocket_command {W : Type} (now : Int) (s : Socket) (h : HandlerId) (t : Int)
    (d : Dispatcher W) (hwf : d.WF) :
    mapFind (addSocketImpl now s h t d).socketMap s = some d.next ∧
    (addSocketImpl now s h t d).heap d.next
      = { pHandler := h, timeout := t, activity := now, wantRead := true } ∧
    (∀ e ∈ d.socketMap, e.2 ≠ d.next) ∧
    ((addSocketImpl now s h t d).socketMap.map Prod.fst).count s = 1 ∧
    (∀ k, k ≠ s → mapFind (addSocketImpl now s h t d).socketMap k = mapFind d.socketMap k) ∧
    (∀ k p, k ≠ s → mapFind d.socketMap k = some p →
      (addSocketImpl now s h t d).heap p = d.heap p) := by
  have hfresh : ∀ e ∈ d.socketMap, e.2 ≠ d.next := fun e he => Nat.ne_of_lt (hwf.2.2 e he)
  have hself := mapFind_mapInsert_self d.socketMap s d.next
  refine ⟨hself, ?_, hfresh, ?_, ?_, ?_⟩
  · simp [addSocketImpl, setInfo, SocketInfo.new]
  · have hwf' := addSocketImpl_WF now s h t d hwf
    have hmem : s ∈ (addSocketImpl now s h t d).socketMap.map Prod.fst :=
      List.mem_map_of_mem Prod.fst (mapFind_mem _ _ _ hself)
    exact List.count_eq_one_of_mem (WF.keys_nodup hwf') hmem
  · intro k hk
    exact mapFind_mapInsert_other d.socketMap s k d.next hk
  · intro k p _ hf
    have hne : p ≠ d.next := hfresh (k, p) (mapFind_mem _ _ _ hf)
    simp [addSocketImpl, setInfo, hne]

/-- Witness for `addSocket_command`: socket 1 is registered again, with
handler 4 and idle timeout 9, at instant 7. -/
theorem addSocket_command_witness :
    (oneSocket 1).WF ∧
    mapFind (addSocketImpl 7 1 4 9 (oneSocket 1)).socketMap 1 = some 1 ∧
    (addSocketImpl 7 1 4 9 (oneSocket 1)).heap 1
      = { pHandler := 4, timeout := 9, activity := 7, wantRead := true } ∧
    (addSocketImpl 7 1 4 9 (oneSocket 1)).socketMap = [(1, 1)] :=
  ⟨oneSocket_WF 1, (addSocket_command 7 1 4 9 (oneSocket 1) (oneSocket_WF 1)).1,
    (addSocket_command 7 1 4 9 (oneSocket 1) (oneSocket_WF 1)).2.1, by decide⟩

/-- C12: RemoveSocket is idempotent and local. For every table and handle `h`,
RemoveSocket(h) yields a table without `h` whose entries are the old entries
for the other handles, in their order; on a table without `h` it changes
nothing; applied twice it gives what it gives applied once; and it leaves the
worker queue, the executing tasks and every record as they are. -/
theorem removeSocket_command {W : Type} (s : Socket) (d : Dispatcher W) :
    mapFind (removeSocketImpl s d).socketMap s = none ∧
    (removeSocketImpl s d).socketMap = d.socketMap.filter (fun e => decide (e.1 ≠ s)) ∧
    (∀ k, k ≠ s → mapFind (removeSocketImpl s d).socketMap k = mapFind d.socketMap k) ∧
    (mapFind d.socketMap s = none → removeSocketImpl s d = d) ∧
    removeSocketImpl s (removeSocketImpl s d) = removeSocketImpl s d ∧
    (removeSocketImpl s d).workerQueue = d.workerQueue ∧
    (removeSocketImpl s d).executing = d.executing ∧
    (removeSocketImpl s d).heap = d.heap := by
  refine ⟨mapFind_mapErase_self _ _, mapErase_eq_filter _ _,
    fun k hk => mapFind_mapErase_other _ _ k hk, ?_, ?_, rfl, rfl, rfl⟩
  · intro h
    unfold removeSocketImpl
    rw [mapErase_of_not_found _ _ h]
  · unfold removeSocketImpl
    simp only [mapErase_idem]

theorem closeSocketImpl_eq {W : Type} (env : Env W) (s : Socket) (d : Dispatcher W) :
    (closeSocketImpl env s d).2 =
      { d with socketMap := mapErase d.socketMap s, world := (env.net.shutdown s d.world).2 } := by
  unfold closeSocketImpl removeSocketImpl
  rfl

/-- C13: CloseSocket is idempotent in its final state. When a second shutdown
of a socket leaves the operating system's view of it as the first one left
it, applying CloseSocket(h) twice in a row gives the dispatcher state (table,
records, queues, world) that applying it once gives; the table after two
applications equals the table after one whatever the socket layer does; and
for a handle without entry the table is unchanged. -/
theorem closeSocket_idempotent {W : Type} (env : Env W) (hid : ShutdownIdempotent env.net)
    (s : Socket) (d : Dispatcher W) :
    (closeSocketImpl env s (closeSocketImpl env s d).2).2 = (closeSocketImpl env s d).2 ∧
    (closeSocketImpl env s (closeSocketImpl env s d).2).2.socketMap
      = (closeSocketImpl env s d).2.socketMap ∧
    (mapFind d.socketMap s = none → (closeSocketImpl env s d).2.socketMap = d.socketMap) := by
  have h1 : (closeSocketImpl env s (closeSocketImpl env s d).2).2
      = (closeSocketImpl env s d).2 := by
    rw [closeSocketImpl_eq env s (closeSocketImpl env s d).2, closeSocketImpl_eq env s d]
    simp only [mapErase_idem, hid s d.world]
  refine ⟨h1, by rw [h1], ?_⟩
  intro h
  rw [closeSocketImpl_eq]
  exact mapErase_of_not_found _ _ h

theorem shutNet_idempotent : ShutdownIdempotent shutEnv.net := by
  intro s w
  simp only [shutEnv, shutNet]
  by_cases h : s ∈ w
  · simp [h]
  · simp [h]

/-- Witness for `closeSocket_idempotent`: sockets 1 and 2 registered, socket 1
closed twice over a socket layer whose second shutdown raises `ENOTCONN`. -/
theorem closeSocket_idempotent_witness :
    ShutdownIdempotent shutEnv.net ∧
    (closeSocketImpl shutEnv 1 twoSockets).1 = .ret () ∧
    (closeSocketImpl shutEnv 1 (closeSocketImpl shutEnv 1 twoSockets).2).1
      = .raise (.netException 107) ∧
    (closeSocketImpl shutEnv 1 twoSockets).2.socketMap = [(2, 1)] ∧
    (closeSocketImpl shutEnv 1 (closeSocketImpl shutEnv 1 twoSockets).2).2
      = (closeSocketImpl shutEnv 1 twoSockets).2 :=
  ⟨shutNet_idempotent, by decide, by decide, by decide,
    (closeSocket_idempotent shutEnv shutNet_idempotent 1 twoSockets).1⟩

/-- C14: applying Reset to any table yields the empty table and leaves the
worker queue, the executing tasks and every record, so also the records
pinned by queued tasks, as they are. -/
theorem reset_command {W : Type} (d : Dispatcher W) :
    (resetImpl d).socketMap = [] ∧
    (resetImpl d).workerQueue = d.workerQueue ∧
    (resetImpl d).executing = d.executing ∧
    (resetImpl d).heap = d.heap ∧
    (∀ t ∈ d.workerQueue, (resetImpl d).heap t.pInfo = d.heap t.pInfo) :=
  ⟨rfl, rfl, rfl, rfl, fun _ _ => rfl⟩

/-! ### The facade and shutdown -/

theorem execute_stopped {W : Type} (env : Env W) (now : Int) (c : Command)
    (d : Dispatcher W) : (c.execute env now d).2.stopped = d.stopped := by
  cases c <;> rfl

theorem apply_stopped {W : Type} (env : Env W) (a : Action) (d : Dispatcher W) :
    (a.apply env d).stopped = d.stopped := by
  cases a with
  | build now => exact (buildWatchlists_frame now d).2.2.2.2.1
  | wait r => rfl
  | dispatch now n => exact (dispatchReadiness_frame now n d).2.2.2.2
  | command now c => exact execute_stopped env now c d
  | work t => exact (run_frame env t d).2.2.2.2.2.1

theorem run_stopped {W : Type} (env : Env W) (as : List Action) :
    ∀ d : Dispatcher W, (runActions env as d).stopped = d.stopped := by
  induction as with
  | nil => intro d; rfl
  | cons a rest ih =>
    intro d
    rw [runActions_cons, ih, apply_stopped]

theorem submit_frame {W : Type} (c : Command) (d : Dispatcher W) :
    (submit c d).mainQueue = d.mainQueue ++ [c] ∧
    (submit c d).socketMap = d.socketMap ∧
    (submit c d).heap = d.heap ∧
    (submit c d).next = d.next ∧
    (submit c d).workerQueue = d.workerQueue ∧
    (submit c d).executing = d.executing ∧
    (submit c d).stopped = d.stopped ∧
    (submit c d).world = d.world := by
  cases c <;> exact ⟨rfl, rfl, rfl, rfl, rfl, rfl, rfl, rfl⟩

theorem submitAll_frame {W : Type} (cs : List Command) :
    ∀ d : Dispatcher W,
      (submitAll cs d).mainQueue = d.mainQueue ++ cs ∧
      (submitAll cs d).socketMap = d.socketMap ∧
      (submitAll cs d).heap = d.heap ∧
      (submitAll cs d).next = d.next ∧
      (submitAll cs d).workerQueue = d.workerQueue ∧
      (submitAll cs d).executing = d.executing ∧
      (submitAll cs d).stopped = d.stopped ∧
      (submitAll cs d).world = d.world := by
  induction cs with
  | nil => intro d; simp [submitAll]
  | cons c rest ih =>
    intro d
    obtain ⟨h1, h2, h3, h4, h5, h6, h7, h8⟩ := ih (submit c d)
    obtain ⟨g1, g2, g3, g4, g5, g6, g7, g8⟩ := submit_frame c d
    have hcons : submitAll (c :: rest) d = submitAll rest (submit c d) := rfl
    rw [hcons]
    refine ⟨?_, h2.trans g2, h3.trans g3, h4.trans g4, h5.trans g5, h6.trans g6,
      h7.trans g7, h8.trans g8⟩
    rw [h1, g1, List.append_assoc]
    rfl

theorem stop_of_stopped {W : Type} (env : Env W) (wind : List Action) (d : Dispatcher W)
    (h : d.stopped = true) : stop env wind d = d := by
  simp [stop, h]

theorem stop_spec {W : Type} (env : Env W) (wind : List Action) (d : Dispatcher W)
    (h : d.stopped = false) :
    (stop env wind d).stopped = true ∧ (stop env wind d).socketMap = [] := by
  have hs : (stop env wind d) =
      { runActions env wind { d with stopped := true } with socketMap := [] } := by
    simp [stop, h]
  rw [hs]
  exact ⟨run_stopped env wind _, rfl⟩

theorem alive_inv {W : Type} (env : Env W) (m : Int) (w : W) (d : Dispatcher W)
    (h : Alive env m w d) : d.stopped = true → d.socketMap = [] := by
  induction h with
  | init => intro h; simp [Dispatcher.init] at h
  | step d d' _ hs ih =>
    cases hs with
    | act a hns =>
      intro h
      rw [apply_stopped, hns] at h
      exact absurd h (by simp)
    | call c =>
      intro h
      rw [(submit_frame c d).2.1]
      exact ih (by rw [← (submit_frame c d).2.2.2.2.2.2.1]; exact h)
    | stop wind =>
      intro _
      cases hst : d.stopped with
      | true =>
        rw [stop_of_stopped env wind d hst]
        exact ih hst
      | false => exact (stop_spec env wind d hst).2

theorem stop_result {W : Type} (env : Env W) (m : Int) (w : W) (d : Dispatcher W)
    (h : Alive env m w d) (wind : List Action) :
    (stop env wind d).stopped = true ∧ (stop env wind d).socketMap = [] := by
  cases hs : d.stopped with
  | true =>
    rw [stop_of_stopped env wind d hs]
    exact ⟨hs, alive_inv env m w d h hs⟩
  | false => exact stop_spec env wind d hs

/-- C15: `stop()` is idempotent. In every state a dispatcher passes through
during its life, after `stop()` the stopped flag is set and the socket table
is empty; a further `stop()` changes no part of the state; and `stop()` on a
dispatcher that is stopped already changes nothing. -/
theorem stop_idempotent {W : Type} (env : Env W) (m : Int) (w : W) (d : Dispatcher W)
    (h : Alive env m w d) (wind wind2 : List Action) :
    (stop env wind d).stopped = true ∧
    (stop env wind d).socketMap = [] ∧
    stop env wind2 (stop env wind d) = stop env wind d ∧
    (d.stopped = true → stop env wind d = d) := by
  have hst := stop_result env m w d h wind
  exact ⟨hst.1, hst.2, stop_of_stopped env wind2 _ hst.1,
    fun hs => stop_of_stopped env wind d hs⟩

theorem twoSockets_alive : Alive shutEnv 1 [] twoSockets :=
  Alive.step _ _
    (Alive.step _ _ Alive.init
      (Life.act (Dispatcher.init 1 []) (.command 0 (.addSocket 1 0 0)) rfl))
    (Life.act _ (.command 0 (.addSocket 2 0 0)) rfl)

/-- Witness for `stop_idempotent`: two sockets registered; while `stop()`
joins, the readiness thread still builds its watchlists once. -/
theorem stop_idempotent_witness :
    Alive shutEnv 1 [] twoSockets ∧
    twoSockets.socketMap = [(1, 0), (2, 1)] ∧
    ((stop shutEnv [.build 3] twoSockets).stopped = true ∧
    (stop shutEnv [.build 3] twoSockets).socketMap = [] ∧
    stop shutEnv [] (stop shutEnv [.build 3] twoSockets) = stop shutEnv [.build 3] twoSockets ∧
    (twoSockets.stopped = true → stop shutEnv [.build 3] twoSockets = twoSockets)) :=
  ⟨twoSockets_alive, by decide, stop_idempotent shutEnv 1 [] twoSockets twoSockets_alive _ _⟩

/-- C16: shutdown safety. After `stop()` has returned, any sequence of
`addSocket` / `removeSocket` / `closeSocket` / `reset` calls leaves the socket
table empty and the flag set; the calls only pile up on the main queue: the
worker queue, the executing tasks, every record and the world are as `stop()`
left them, so no handler task is enqueued or executed; and whatever happens
next in the life of the dispatcher changes none of these either. -/
theorem shutdown_safety {W : Type} (env : Env W) (m : Int) (w : W) (d : Dispatcher W)
    (h : Alive env m w d) (wind : List Action) (calls : List Command) :
    (submitAll calls (stop env wind d)).socketMap = [] ∧
    (submitAll calls (stop env wind d)).stopped = true ∧
    (submitAll calls (stop env wind d)).mainQueue = (stop env wind d).mainQueue ++ calls ∧
    (submitAll calls (stop env wind d)).workerQueue = (stop env wind d).workerQueue ∧
    (submitAll calls (stop env wind d)).executing = (stop env wind d).executing ∧
    (submitAll calls (stop env wind d)).heap = (stop env wind d).heap ∧
    (submitAll calls (stop env wind d)).world = (stop env wind d).world ∧
    (∀ d', Life env (submitAll calls (stop env wind d)) d' →
      d'.socketMap = [] ∧ d'.stopped = true ∧
      d'.workerQueue = (stop env wind d).workerQueue ∧
      d'.executing = (stop env wind d).executing ∧
      d'.heap = (stop env wind d).heap ∧
      d'.world = (stop env wind d).world) := by
  obtain ⟨s1, s2⟩ := stop_result env m w d h wind
  obtain ⟨f1, f2, f3, -, f5, f6, f7, f8⟩ := submitAll_frame calls (stop env wind d)
  have hstp : (submitAll calls (stop env wind d)).stopped = true := f7.trans s1
  refine ⟨f2.trans s2, hstp, f1, f5, f6, f3, f8, ?_⟩
  intro d' hl
  cases hl with
  | act a hns =>
    rw [hstp] at hns
    exact absurd hns (by simp)
  | call c =>
    obtain ⟨-, g2, g3, -, g5, g6, g7, g8⟩ := submit_frame c (submitAll calls (stop env wind d))
    exact ⟨g2.trans (f2.trans s2), g7.trans hstp, g5.trans f5, g6.trans f6, g3.trans f3,
      g8.trans f8⟩
  | stop wind' =>
    rw [stop_of_stopped env wind' _ hstp]
    exact ⟨f2.trans s2, hstp, f5, f6, f3, f8⟩

/-- Witness for `shutdown_safety`: after `stop()`, socket 3 is added and
socket 1 closed; both commands stay on the main queue. -/
theorem shutdown_safety_witness :
    Alive shutEnv 1 [] twoSockets ∧
    (submitAll [.addSocket 3 0 0, .closeSocket 1] (stop shutEnv [] twoSockets)).socketMap
      = [] ∧
    (submitAll [.addSocket 3 0 0, .closeSocket 1] (stop shutEnv [] twoSockets)).mainQueue
      = [.addSocket 3 0 0, .closeSocket 1] ∧
    (submitAll [.addSocket 3 0 0, .closeSocket 1] (stop shutEnv [] twoSockets)).workerQueue
      = (stop shutEnv [] twoSockets).workerQueue :=
  ⟨twoSockets_alive,
    (shutdown_safety shutEnv 1 [] twoSockets twoSockets_alive [] _).1,
    by decide,
    (shutdown_safety shutEnv 1 [] twoSockets twoSockets_alive [] _).2.2.2.1⟩

/-! ### Commands in submission order -/

theorem execute_mainQueue {W : Type} (env : Env W) (now : Int) (c : Command)
    (d : Dispatcher W) (q : List Command) :
    c.execute env now { d with mainQueue := q } =
      ((c.execute env now d).1, { (c.execute env now d).2 with mainQueue := q }) := by
  cases c <;> rfl

theorem executeAll_cons {W : Type} (env : Env W) (now : Int) (c : Command)
    (cs : List Command) (d : Dispatcher W) :
    executeAll env now (c :: cs) d = executeAll env now cs (c.execute env now d).2 := rfl

theorem executeAll_mainQueue {W : Type} (env : Env W) (now : Int) (cs : List Command) :
    ∀ (d : Dispatcher W) (q : List Command),
      executeAll env now cs { d with mainQueue := q } =
        { executeAll env now cs d with mainQueue := q } := by
  induction cs with
  | nil => intro d q; rfl
  | cons c rest ih =>
    intro d q
    rw [executeAll_cons, executeAll_cons, execute_mainQueue]
    exact ih _ q

theorem drain_spec {W : Type} (env : Env W) (now : Int) (cs : List Command) :
    ∀ d : Dispatcher W, ∃ done rest, cs = done ++ rest ∧
      (drain env now cs d).2.1 = { executeAll env now done d with mainQueue := rest } ∧
      ((drain env now cs d).1 = .ret () → rest = []) := by
  induction cs with
  | nil =>
    intro d
    exact ⟨[], [], rfl, rfl, fun _ => rfl⟩
  | cons c rest0 ih =>
    intro d
    unfold drain
    rw [execute_mainQueue]
    rcases ho : (c.execute env now d).1 with u | e
    · obtain ⟨done, rest, h1, h2, h3⟩ :=
        ih { (c.execute env now d).2 with mainQueue := rest0 }
      refine ⟨c :: done, rest, by rw [h1]; rfl, ?_, ?_⟩
      · simp only [h2, executeAll_cons]
        rw [executeAll_mainQueue]
      · intro hret
        exact h3 hret
    · refine ⟨[c], rest0, rfl, rfl, ?_⟩
      intro hret
      simp at hret

theorem drain_returns {W : Type} (env : Env W) (now : Int) (cs : List Command)
    (hc : ∀ c ∈ cs, ∀ s, c ≠ Command.closeSocket s) :
    ∀ d : Dispatcher W, (drain env now cs d).1 = .ret () := by
  induction cs with
  | nil => intro d; rfl
  | cons c rest ih =>
    intro d
    have ih' := ih (fun c' hc' => hc c' (List.mem_cons_of_mem _ hc'))
    unfold drain
    cases c with
    | addSocket s h t => exact ih' _
    | removeSocket s => exact ih' _
    | closeSocket s => exact absurd rfl (hc _ (List.mem_cons_self _ _) s)
    | reset => exact ih' _

theorem execute_raise_close {W : Type} (env : Env W) (now : Int) (c : Command)
    (d : Dispatcher W) (e : Thrown) (h : (c.execute env now d).1 = .raise e) :
    ∃ s, c = Command.closeSocket s ∧
      (env.net.shutdown s d.world).1 = .raise e := by
  cases c with
  | addSocket s hd t => cases h
  | removeSocket s => cases h
  | closeSocket s => exact ⟨s, rfl, h⟩
  | reset => cases h

theorem drain_cons_ret {W : Type} (env : Env W) (now : Int) (c : Command)
    (rest : List Command) (d : Dispatcher W) (h : (c.execute env now d).1 = .ret ()) :
    (drain env now (c :: rest) d).1
      = (drain env now rest { (c.execute env now d).2 with mainQueue := rest }).1 ∧
    (drain env now (c :: rest) d).2.1
      = (drain env now rest { (c.execute env now d).2 with mainQueue := rest }).2.1 := by
  have hd : drain env now (c :: rest) d =
      match c.execute env now { d with mainQueue := rest } with
      | (.ret (), d1) =>
        match drain env now rest d1 with
        | (o, d2, evs) => (o, d2, { blocking := d.socketMap.isEmpty, got := some c } :: evs)
      | (.raise e, d1) =>
        (.raise e, d1, [{ blocking := d.socketMap.isEmpty, got := some c }]) := rfl
  rw [hd, execute_mainQueue, h]
  exact ⟨rfl, rfl⟩

theorem drain_cons_raise {W : Type} (env : Env W) (now : Int) (c : Command)
    (rest : List Command) (d : Dispatcher W) (e : Thrown)
    (h : (c.execute env now d).1 = .raise e) :
    (drain env now (c :: rest) d).1 = .raise e ∧
    (drain env now (c :: rest) d).2.1 = { (c.execute env now d).2 with mainQueue := rest } := by
  have hd : drain env now (c :: rest) d =
      match c.execute env now { d with mainQueue := rest } with
      | (.ret (), d1) =>
        match drain env now rest d1 with
        | (o, d2, evs) => (o, d2, { blocking := d.socketMap.isEmpty, got := some c } :: evs)
      | (.raise e, d1) =>
        (.raise e, d1, [{ blocking := d.socketMap.isEmpty, got := some c }]) := rfl
  rw [hd, execute_mainQueue, h]
  exact ⟨rfl, rfl⟩

theorem drain_exact {W : Type} (env : Env W) (now : Int) (cs : List Command) :
    ∀ d : Dispatcher W,
      ((∀ (i : Nat) (c : Command), cs[i]? = some c →
          (c.execute env now (executeAll env now (cs.take i) d)).1 = .ret ()) →
        (drain env now cs d).1 = .ret () ∧
        (drain env now cs d).2.1 = { executeAll env now cs d with mainQueue := [] }) ∧
      (∀ (k : Nat) (c : Command) (e : Thrown), cs[k]? = some c →
        (∀ (i : Nat) (c' : Command), i < k → cs[i]? = some c' →
          (c'.execute env now (executeAll env now (cs.take i) d)).1 = .ret ()) →
        (c.execute env now (executeAll env now (cs.take k) d)).1 = .raise e →
        (drain env now cs d).1 = .raise e ∧
        (drain env now cs d).2.1 =
          { executeAll env now (cs.take (k + 1)) d with mainQueue := cs.drop (k + 1) }) := by
  induction cs with
  | nil =>
    intro d
    refine ⟨fun _ => ⟨rfl, rfl⟩, ?_⟩
    intro k c e hk
    simp at hk
  | cons c0 rest ih =>
    intro d
    obtain ⟨ihR, ihF⟩ := ih { (c0.execute env now d).2 with mainQueue := rest }
    have hstep : ∀ (i : Nat) (c : Command),
        (c.execute env now (executeAll env now (rest.take i)
          { (c0.execute env now d).2 with mainQueue := rest })).1
        = (c.execute env now (executeAll env now ((c0 :: rest).take (i + 1)) d)).1 := by
      intro i c
      rw [executeAll_mainQueue, execute_mainQueue]
      rfl
    rcases ho : (c0.execute env now d).1 with u | e0
    · obtain ⟨hd1, hd2⟩ := drain_cons_ret env now c0 rest d ho
      constructor
      · intro hall
        obtain ⟨r1, r2⟩ := ihR (fun i c hi => by
          rw [hstep]
          exact hall (i + 1) c (by simpa using hi))
        refine ⟨hd1.trans r1, ?_⟩
        rw [hd2, r2, executeAll_mainQueue, executeAll_cons]
      · intro k c e hk hbefore hraise
        cases k with
        | zero =>
          simp only [List.take_zero] at hraise
          have hc : c0 = c := by simpa using hk
          subst hc
          have : (c0.execute env now d).1 = .raise e := hraise
          rw [ho] at this
          cases this
        | succ j =>
          obtain ⟨r1, r2⟩ := ihF j c e (by simpa using hk)
            (fun i c' hi hc' => by
              rw [hstep]
              exact hbefore (i + 1) c' (by omega) (by simpa using hc'))
            (by rw [hstep]; exact hraise)
          refine ⟨hd1.trans r1, ?_⟩
          rw [hd2, r2, executeAll_mainQueue]
          rfl
    · obtain ⟨hd1, hd2⟩ := drain_cons_raise env now c0 rest d e0 ho
      constructor
      · intro hall
        have := hall 0 c0 (by simp)
        simp only [List.take_zero] at this
        have h0 : (c0.execute env now d).1 = .ret () := this
        rw [ho] at h0
        cases h0
      · intro k c e hk hbefore hraise
        cases k with
        | zero =>
          simp only [List.take_zero] at hraise
          have hc : c0 = c := by simpa using hk
          subst hc
          have h0 : (c0.execute env now d).1 = .raise e := hraise
          rw [ho] at h0
          cases h0
          exact ⟨hd1, hd2⟩
        | succ j =>
          have := hbefore 0 c0 (by omega) (by simp)
          simp only [List.take_zero] at this
          have h0 : (c0.execute env now d).1 = .ret () := this
          rw [ho] at h0
          cases h0

/-- C17 (counterexample): sockets 1 and 2 are registered and one submitter
has queued CloseSocket(1), CloseSocket(1), RemoveSocket(2). The second
shutdown of socket 1 raises, the drain step is left with RemoveSocket(2)
still queued, and the table it leaves holds socket 2, while the left fold of
the command semantics over the three commands is the empty table. -/
theorem drain_stops_at_raise :
    closedTwice.mainQueue = [.closeSocket 1, .closeSocket 1, .removeSocket 2] ∧
    (executeAll shutEnv 5 closedTwice.mainQueue closedTwice).socketMap = [] ∧
    (drainCommands shutEnv 5 closedTwice).1 = .raise (.netException 107) ∧
    (drainCommands shutEnv 5 closedTwice).2.1.mainQueue = [.removeSocket 2] ∧
    (drainCommands shutEnv 5 closedTwice).2.1.socketMap = [(2, 1)] ∧
    (drainCommands shutEnv 5 closedTwice).2.2 =
      [{ blocking := false, got := some (.closeSocket 1) },
       { blocking := false, got := some (.closeSocket 1) }] := by
  decide

/-- C17 (amended): commands are applied in submission order, up to the first
one that raises. Each facade call appends its one command at the tail of the
main queue and touches neither the table nor a record; a sequence of calls
appends the commands in the order of the calls. The drain step executes the
queued commands from the head, each on the state the one before left. When
every command returns, the step returns and leaves the left fold of the
command semantics over the whole queue, with the queue empty. When the
command at position `k` is the first that raises, the step is left by that
exception and leaves the left fold over the commands up to and including
that one, with the commands behind it still queued in their order. A command
raises only when it is a CloseSocket whose `shutdown` raises, so a queue
without CloseSocket is always executed whole. So AddSocket(s) followed by
RemoveSocket(s) leaves `s` absent, and RemoveSocket(s) followed by
AddSocket(s) leaves `s` present. -/
theorem commands_in_order {W : Type} (env : Env W) (now : Int) (d : Dispatcher W)
    (cs : List Command) (c : Command) (s : Socket) (h : HandlerId) (t : Int) :
    ((submit c d).mainQueue = d.mainQueue ++ [c] ∧ (submit c d).socketMap = d.socketMap ∧
      (submit c d).heap = d.heap) ∧
    ((submitAll cs d).mainQueue = d.mainQueue ++ cs ∧
      (submitAll cs d).socketMap = d.socketMap) ∧
    (∃ done rest, d.mainQueue = done ++ rest ∧
      (drainCommands env now d).2.1 = { executeAll env now done d with mainQueue := rest } ∧
      ((drainCommands env now d).1 = .ret () → rest = [])) ∧
    ((drainCommands env now d).1 = .ret () →
      (drainCommands env now d).2.1
        = { executeAll env now d.mainQueue d with mainQueue := [] }) ∧
    ((∀ c' ∈ d.mainQueue, ∀ s', c' ≠ Command.closeSocket s') →
      (drainCommands env now d).1 = .ret ()) ∧
    ((∀ (i : Nat) (c' : Command), d.mainQueue[i]? = some c' →
        (c'.execute env now (executeAll env now (d.mainQueue.take i) d)).1 = .ret ()) →
      (drainCommands env now d).1 = .ret () ∧
      (drainCommands env now d).2.1
        = { executeAll env now d.mainQueue d with mainQueue := [] }) ∧
    (∀ (k : Nat) (ck : Command) (e : Thrown), d.mainQueue[k]? = some ck →
      (∀ (i : Nat) (c' : Command), i < k → d.mainQueue[i]? = some c' →
        (c'.execute env now (executeAll env now (d.mainQueue.take i) d)).1 = .ret ()) →
      (ck.execute env now (executeAll env now (d.mainQueue.take k) d)).1 = .raise e →
      (drainCommands env now d).1 = .raise e ∧
      (drainCommands env now d).2.1 =
        { executeAll env now (d.mainQueue.take (k + 1)) d with
          mainQueue := d.mainQueue.drop (k + 1) }) ∧
    (∀ (c' : Command) (d' : Dispatcher W) (e : Thrown),
      (c'.execute env now d').1 = .raise e →
      ∃ s', c' = Command.closeSocket s' ∧ (env.net.shutdown s' d'.world).1 = .raise e) ∧
    mapFind (drain env now [.addSocket s h t, .removeSocket s] d).2.1.socketMap s = none ∧
    mapFind (drain env now [.removeSocket s, .addSocket s h t] d).2.1.socketMap s
      = some d.next := by
  obtain ⟨f1, f2, f3, -⟩ := submit_frame c d
  obtain ⟨g1, g2, -⟩ := submitAll_frame cs d
  refine ⟨⟨f1, f2, f3⟩, ⟨g1, g2⟩, drain_spec env now d.mainQueue d, ?_,
    fun hc => drain_returns env now d.mainQueue hc d,
    (drain_exact env now d.mainQueue d).1, (drain_exact env now d.mainQueue d).2,
    fun c' d' e he => execute_raise_close env now c' d' e he, ?_, ?_⟩
  · intro hret
    obtain ⟨done, rest, h1, h2, h3⟩ := drain_spec env now d.mainQueue d
    have hr := h3 hret
    subst hr
    rw [List.append_nil] at h1
    unfold drainCommands
    rw [h2, h1]
  · exact mapFind_mapErase_self _ _
  · exact mapFind_mapInsert_self _ _ _

/-- Witness for `commands_in_order`: with CloseSocket(1), CloseSocket(1),
RemoveSocket(2) queued, the first command returns and the second is the
first that raises; the drain step leaves the fold over these two commands
and RemoveSocket(2) queued. -/
theorem commands_in_order_witness :
    closedTwice.mainQueue[1]? = some (Command.closeSocket 1) ∧
    ((Command.closeSocket 1).execute shutEnv 5 closedTwice).1 = .ret () ∧
    ((Command.closeSocket 1).execute shutEnv 5
      (executeAll shutEnv 5 (closedTwice.mainQueue.take 1) closedTwice)).1
        = .raise (.netException 107) ∧
    ((drainCommands shutEnv 5 closedTwice).1 = .raise (.netException 107) ∧
      (drainCommands shutEnv 5 closedTwice).2.1 =
        { executeAll shutEnv 5 (closedTwice.mainQueue.take (1 + 1)) closedTwice with
          mainQueue := closedTwice.mainQueue.drop (1 + 1) }) :=
  ⟨by decide, by decide, by decide,
    (commands_in_order shutEnv 5 closedTwice [] .reset 0 0 0).2.2.2.2.2.2.1 1
      (.closeSocket 1) (.netException 107) (by decide)
      (by
        intro i c' hi hc'
        have h0 : i = 0 := by omega
        subst h0
        have hq : closedTwice.mainQueue[0]? = some (Command.closeSocket 1) := by decide
        rw [hq] at hc'
        cases hc'
        decide)
      (by decide)⟩

/-! ### Construction -/

/-- C18 (counterexample): constructing a dispatcher with `worker_count = 0`
and `max_reads_per_worker = 0` reports no failure: the constructor returns a
dispatcher that is running, with no worker thread and with cap 0. -/
theorem invalid_arguments_accepted :
    match (construct 0 100 0 () : Outcome (Constructed Unit)) with
    | .ret c => c.dispatcher.stopped = false ∧ c.workerThreads = 0 ∧
        c.dispatcher.maxReadsPerWorker = 0
    | .raise _ => False :=
  ⟨rfl, rfl, rfl⟩

/-- C18 (amended): the constructor does not validate its arguments. For every
`worker_count`, poll timeout and `max_reads_per_worker`, also below 1, it
reports no failure and leaves a running dispatcher: not stopped, empty table,
empty queues, as many worker threads as the loop `for (i = 0; i <
threadCount; i++)` starts, and the cap and poll timeout as given. -/
theorem construct_accepts_all {W : Type} (threadCount timeout maxReads : Int) (w : W) :
    match (construct threadCount timeout maxReads w : Outcome (Constructed W)) with
    | .ret c => c.dispatcher.stopped = false ∧ c.dispatcher.socketMap = [] ∧
        c.dispatcher.mainQueue = [] ∧ c.dispatcher.workerQueue = [] ∧
        c.workerThreads = threadCount.toNat ∧
        c.dispatcher.maxReadsPerWorker = maxReads ∧ c.pollTimeout = timeout
    | .raise _ => False :=
  ⟨rfl, rfl, rfl, rfl, rfl, rfl, rfl⟩

/-! ### The readiness loop and failures -/

theorem executeAll_stopped {W : Type} (env : Env W) (now : Int) (cs : List Command) :
    ∀ d : Dispatcher W, (executeAll env now cs d).stopped = d.stopped := by
  induction cs with
  | nil => intro d; rfl
  | cons c rest ih =>
    intro d
    rw [executeAll_cons, ih, execute_stopped]

theorem drain_stopped {W : Type} (env : Env W) (now : Int) (cs : List Command)
    (d : Dispatcher W) : (drain env now cs d).2.1.stopped = d.stopped := by
  obtain ⟨done, rest, -, h2, -⟩ := drain_spec env now cs d
  rw [h2]
  exact executeAll_stopped env now done d

theorem execute_raise {W : Type} (env : Env W) (now : Int) (c : Command)
    (d : Dispatcher W) (e : Thrown) (h : (c.execute env now d).1 = .raise e) :
    ∃ s w, (env.net.shutdown s w).1 = .raise e := by
  cases c with
  | addSocket s hd t => simp [Command.execute] at h
  | removeSocket s => simp [Command.execute] at h
  | closeSocket s => exact ⟨s, d.world, h⟩
  | reset => simp [Command.execute] at h

theorem drain_raise {W : Type} (env : Env W) (now : Int) (cs : List Command) :
    ∀ (d : Dispatcher W) (e : Thrown), (drain env now cs d).1 = .raise e →
      ∃ s w, (env.net.shutdown s w).1 = .raise e := by
  induction cs with
  | nil => intro d e h; simp [drain] at h
  | cons c rest ih =>
    intro d e h
    unfold drain at h
    rw [execute_mainQueue] at h
    rcases ho : (c.execute env now d).1 with u | e'
    · rw [ho] at h
      exact ih _ e h
    · rw [ho] at h
      simp only [Outcome.raise.injEq] at h
      subst h
      exact execute_raise env now c d e' ho

theorem iteration_select_raised {W : Type} (env : Env W) (enotconn now : Int)
    (e : Thrown) (d : Dispatcher W) :
    runMainIteration env enotconn now (.raise e) d =
      match e with
      | .netException code =>
        (.ret (), buildWatchlists now d,
          [if code = enotconn then .notConnected else .networkError])
      | .pocoException => (.ret (), buildWatchlists now d, [.otherError])
      | .foreign => (.raise .foreign, buildWatchlists now d, []) := by
  cases e <;> rfl

theorem iteration_select_returned {W : Type} (env : Env W) (enotconn now : Int)
    (r : SelectResult) (d : Dispatcher W) :
    runMainIteration env enotconn now (.ret r) d =
      match (drainCommands env now
          (dispatchReadiness now r.n (select r (buildWatchlists now d)))).1 with
      | .ret () =>
        (.ret (), (drainCommands env now
          (dispatchReadiness now r.n (select r (buildWatchlists now d)))).2.1, [])
      | .raise (.netException code) =>
        (.ret (), (drainCommands env now
          (dispatchReadiness now r.n (select r (buildWatchlists now d)))).2.1,
          [if code = enotconn then .notConnected else .networkError])
      | .raise .pocoException =>
        (.ret (), (drainCommands env now
          (dispatchReadiness now r.n (select r (buildWatchlists now d)))).2.1, [.otherError])
      | .raise .foreign =>
        (.raise .foreign, (drainCommands env now
          (dispatchReadiness now r.n (select r (buildWatchlists now d)))).2.1, []) := by
  unfold runMainIteration
  simp only []
  rcases ho : (drainCommands env now
      (dispatchReadiness now r.n (select r (buildWatchlists now d)))).1 with u | e
  · rfl
  · cases e <;> rfl

theorem iteration_absorbs {W : Type} (env : Env W) (enotconn now : Int)
    (hshut : ShutdownPoco env.net) (sel : Outcome SelectResult)
    (hsel : ∀ e, sel = .raise e → e.isPoco = true) (d : Dispatcher W) :
    (runMainIteration env enotconn now sel d).1 = .ret () ∧
    (runMainIteration env enotconn now sel d).2.1.stopped = d.stopped := by
  have hb : (buildWatchlists now d).stopped = d.stopped :=
    (buildWatchlists_frame now d).2.2.2.2.1
  cases sel with
  | raise e =>
    rw [iteration_select_raised]
    have he := hsel e rfl
    cases e with
    | netException code => exact ⟨rfl, hb⟩
    | pocoException => exact ⟨rfl, hb⟩
    | foreign => simp [Thrown.isPoco] at he
  | ret r =>
    rw [iteration_select_returned]
    have hst : (drainCommands env now
        (dispatchReadiness now r.n (select r (buildWatchlists now d)))).2.1.stopped
          = d.stopped := by
      unfold drainCommands
      rw [drain_stopped, (dispatchReadiness_frame now r.n _).2.2.2.2]
      exact hb
    rcases ho : (drainCommands env now
        (dispatchReadiness now r.n (select r (buildWatchlists now d)))).1 with u | e
    · exact ⟨rfl, hst⟩
    · obtain ⟨s, w, hraise⟩ := drain_raise env now _ _ e ho
      have he := hshut s w e hraise
      cases e with
      | netException code => exact ⟨rfl, hst⟩
      | pocoException => exact ⟨rfl, hst⟩
      | foreign => simp [Thrown.isPoco] at he

theorem runMain_survives {W : Type} (env : Env W) (enotconn : Int)
    (hshut : ShutdownPoco env.net) (sched : List MainEvent) :
    ∀ d : Dispatcher W, SelectPoco sched →
      (∀ e, (runMain env enotconn sched d).1 ≠ .escaped e) ∧
      ((runMain env enotconn sched d).1 = .exited →
        d.stopped = true ∨ MainEvent.stopRequested ∈ sched) ∧
      (d.stopped = false → MainEvent.stopRequested ∉ sched →
        (runMain env enotconn sched d).1 = .running) := by
  induction sched with
  | nil =>
    intro d _
    cases hs : d.stopped <;> simp [runMain, hs]
  | cons ev rest ih =>
    intro d hsel
    have hsel' : SelectPoco rest := fun now e hm => hsel now e (List.mem_cons_of_mem _ hm)
    cases ev with
    | stopRequested =>
      obtain ⟨h1, h2, h3⟩ := ih { d with stopped := true } hsel'
      refine ⟨h1, fun _ => Or.inr (List.mem_cons_self _ _), ?_⟩
      intro _ hnot
      exact absurd (List.mem_cons_self _ _) hnot
    | pass now sel =>
      cases hs : d.stopped with
      | true =>
        simp [runMain, hs]
      | false =>
        have hse : ∀ e, sel = .raise e → e.isPoco = true := by
          intro e he
          exact hsel now e (by rw [he]; exact List.mem_cons_self _ _)
        obtain ⟨a1, a2⟩ := iteration_absorbs env enotconn now hshut sel hse d
        rcases hit : runMainIteration env enotconn now sel d with ⟨o, d1, lg⟩
        rw [hit] at a1 a2
        simp only at a1 a2
        rw [hs] at a2
        subst a1
        obtain ⟨h1, h2, h3⟩ := ih d1 hsel'
        have hrun : runMain env enotconn (MainEvent.pass now sel :: rest) d
            = runMain env enotconn rest d1 := by
          simp [runMain, hs, hit]
        rw [hrun]
        refine ⟨h1, ?_, ?_⟩
        · intro hex
          rcases h2 hex with h | h
          · rw [a2] at h
            simp at h
          · exact Or.inr (List.mem_cons_of_mem _ h)
        · intro _ hnot
          exact h3 a2 (fun hm => hnot (List.mem_cons_of_mem _ hm))

/-- C19: the readiness loop survives network failures. When `select` raises a
network exception, with the `ENOTCONN` code or another, the pass through the
loop returns normally with a log line and the state the build step left.
When every failure raised by `select` and by the shutdown in CloseSocket is a
`Poco::Exception`, every pass returns normally and leaves the stopped flag
unchanged; along every schedule no exception leaves `runMain`, `runMain`
returns only if the flag was set at the start or is set by a `stop()` in the
schedule, and without that the thread is still in its loop after every
pass. -/
theorem readiness_loop_survives {W : Type} (env : Env W) (enotconn : Int)
    (hshut : ShutdownPoco env.net) (sched : List MainEvent) (hsel : SelectPoco sched)
    (d : Dispatcher W) :
    (∀ now code d0, runMainIteration env enotconn now (.raise (.netException code)) d0
      = (.ret (), buildWatchlists now d0,
          [if code = enotconn then .notConnected else .networkError])) ∧
    (∀ now sel d0, MainEvent.pass now sel ∈ sched →
      (runMainIteration env enotconn now sel d0).1 = .ret () ∧
      (runMainIteration env enotconn now sel d0).2.1.stopped = d0.stopped) ∧
    (∀ e, (runMain env enotconn sched d).1 ≠ .escaped e) ∧
    ((runMain env enotconn sched d).1 = .exited →
      d.stopped = true ∨ MainEvent.stopRequested ∈ sched) ∧
    (d.stopped = false → MainEvent.stopRequested ∉ sched →
      (runMain env enotconn sched d).1 = .running) := by
  obtain ⟨h1, h2, h3⟩ := runMain_survives env enotconn hshut sched d hsel
  refine ⟨fun _ _ _ => rfl, ?_, h1, h2, h3⟩
  intro now sel d0 hm
  exact iteration_absorbs env enotconn now hshut sel
    (fun e he => hsel now e (by rw [← he]; exact hm)) d0

theorem shutNet_poco : ShutdownPoco shutEnv.net := by
  intro s w e h
  simp only [shutEnv, shutNet] at h
  by_cases hm : s ∈ w
  · simp [hm] at h
    subst h
    rfl
  · simp [hm] at h

theorem stormySchedule_poco : SelectPoco stormySchedule := by
  intro now e hm
  simp only [stormySchedule, List.mem_cons, MainEvent.pass.injEq, Outcome.raise.injEq,
    List.mem_singleton, reduceCtorEq, and_false, or_false, List.not_mem_nil] at hm
  rcases hm with ⟨-, rfl⟩ | ⟨-, rfl⟩ <;> rfl

/-- Witness for `readiness_loop_survives`: `select` raises twice, and the
second shutdown of socket 1 raises during the drain of the third pass; the
thread is still in its loop, the table holds socket 2, and the command that
followed the failing one is still queued. -/
theorem readiness_loop_survives_witness :
    ShutdownPoco shutEnv.net ∧ SelectPoco stormySchedule ∧
    (runMain shutEnv 107 stormySchedule closedTwice).1 = .running ∧
    (runMain shutEnv 107 stormySchedule closedTwice).2.socketMap = [(2, 1)] ∧
    (runMain shutEnv 107 stormySchedule closedTwice).2.mainQueue = [.removeSocket 2] ∧
    (∀ e, (runMain shutEnv 107 stormySchedule closedTwice).1 ≠ .escaped e) :=
  ⟨shutNet_poco, stormySchedule_poco, by decide, by decide, by decide,
    (readiness_loop_survives shutEnv 107 shutNet_poco stormySchedule stormySchedule_poco
      closedTwice).2.2.1⟩

/-! ### Activity and `wantRead` -/

theorem advanced_refl (now : Int) (i : SocketInfo) : Advanced now i i :=
  ⟨fun h => absurd rfl h, fun h => h⟩

theorem advanced_afterWatch (now : Int) (i j : SocketInfo) (h : Advanced now i j) :
    Advanced now i (afterWatch now j) := by
  obtain ⟨h1, h2⟩ := h
  constructor
  · intro hne
    unfold afterWatch at hne ⊢
    by_cases hto : timedOut now j = true
    · simp [hto]
    · have hto' : timedOut now j = false := by simpa using hto
      cases hw : j.wantRead with
      | true =>
        simp only [hto', hw, if_true, Bool.false_eq_true, if_false] at hne ⊢
        exact h1 (by rw [hw]; exact hne)
      | false => simp [hto', hw]
  · intro hw
    rw [afterWatch_wantRead] at hw
    simp only [Bool.and_eq_true] at hw
    exact h2 hw.1

theorem advanced_out (now : Int) (i j : SocketInfo) :
    Advanced now i (j.out now) :=
  ⟨fun _ => rfl, fun hw => by simp [SocketInfo.out] at hw⟩

theorem buildLoop_advanced {W : Type} (now : Int) (p : Ptr) (i : SocketInfo)
    (es : List (Socket × Ptr)) :
    ∀ d : Dispatcher W, Advanced now i (d.heap p) →
      Advanced now i ((es.foldl (watchEntry now) d).heap p) := by
  induction es with
  | nil => intro d h; exact h
  | cons e rest ih =>
    intro d h
    simp only [List.foldl_cons]
    apply ih
    rw [watchEntry_heap]
    by_cases hp : p = e.2
    · subst hp
      simpa [setInfo] using advanced_afterWatch now i _ h
    · simpa [setInfo, hp] using h

theorem dispatchLoop_advanced {W : Type} (now : Int) (mk : Socket → Ptr → Task)
    (p : Ptr) (i : SocketInfo) (l : List Socket) (d : Dispatcher W)
    (h : Advanced now i (d.heap p)) :
    Advanced now i ((l.foldl (dispatchOne now mk) d).heap p) := by
  rcases dispatchLoop_heap_cases now mk l p d with ⟨hh, -⟩ | ⟨hh, -⟩ <;> rw [hh]
  · exact h
  · exact advanced_out now i _

theorem buildWatchlists_advanced {W : Type} (now : Int) (d : Dispatcher W) (p : Ptr) :
    Advanced now (d.heap p) ((buildWatchlists now d).heap p) :=
  buildLoop_advanced now p (d.heap p) d.socketMap { d with readList := [], exceptList := [] }
    (advanced_refl now _)

theorem dispatchReadiness_advanced {W : Type} (now n : Int) (d : Dispatcher W) (p : Ptr) :
    Advanced now (d.heap p) ((dispatchReadiness now n d).heap p) := by
  by_cases hn : 0 < n
  · rw [dispatchReadiness_pos now n d hn]
    exact dispatchLoop_advanced now Task.exception p _ _ _
      (dispatchLoop_advanced now Task.readable p _ _ d (advanced_refl now _))
  · have hn' : ¬ n > 0 := hn
    simp only [dispatchReadiness, hn', if_false]
    exact advanced_refl now _

/-- C20 (counterexample): the worker changes `wantRead` without advancing
`activity`. Socket 1 was reported readable at instant 0, so its record has
`wantRead = false` and `activity = 0`; when the worker has run the Readable
task, at whatever later instant, `wantRead` is true and `activity` is still
0. -/
theorem worker_leaves_activity :
    (afterReadableReport.heap 0).wantRead = false ∧
    (afterReadableReport.heap 0).activity = 0 ∧
    (((Task.readable 1 0).run chattyEnv afterReadableReport).heap 0).wantRead = true ∧
    (((Task.readable 1 0).run chattyEnv afterReadableReport).heap 0).activity = 0 := by
  decide

/-- C20 (amended): every operation of the readiness loop that changes the
`wantRead` of a record (the build step posting a Timeout task, the dispatch
step posting a Readable or Exception task) leaves the `activity` of that
record at the current instant of the step; a worker running a task, which
may change `wantRead`, leaves `activity` as it was. -/
theorem activity_advanced {W : Type} (env : Env W) (d : Dispatcher W) (p : Ptr) :
    (∀ now, ((buildWatchlists now d).heap p).wantRead ≠ (d.heap p).wantRead →
      ((buildWatchlists now d).heap p).activity = now) ∧
    (∀ now n, ((dispatchReadiness now n d).heap p).wantRead ≠ (d.heap p).wantRead →
      ((dispatchReadiness now n d).heap p).activity = now) ∧
    (∀ t : Task, ((t.run env d).heap p).activity = (d.heap p).activity) :=
  ⟨fun now => (buildWatchlists_advanced now d p).1,
    fun now n => (dispatchReadiness_advanced now n d p).1,
    fun t => (run_heap env t d p).2.2.1⟩

/-! ### Entries stay until a command removes them -/

theorem execute_spares {W : Type} (env : Env W) (now : Int) (c : Command)
    (d : Dispatcher W) (s : Socket) (h : c.spares s = true) :
    mapFind (c.execute env now d).2.socketMap s = mapFind d.socketMap s := by
  cases c with
  | addSocket s' hd t =>
    have hne : s ≠ s' := by
      intro heq
      simp [Command.spares, heq] at h
    exact mapFind_mapInsert_other _ _ _ _ hne
  | removeSocket s' =>
    have hne : s ≠ s' := by
      intro heq
      simp [Command.spares, heq] at h
    exact mapFind_mapErase_other _ _ _ hne
  | closeSocket s' =>
    have hne : s ≠ s' := by
      intro heq
      simp [Command.spares, heq] at h
    show mapFind (closeSocketImpl env s' d).2.socketMap s = mapFind d.socketMap s
    rw [closeSocketImpl_eq]
    exact mapFind_mapErase_other _ _ _ hne
  | reset => simp [Command.spares] at h

theorem executeAll_spares {W : Type} (env : Env W) (now : Int) (s : Socket)
    (cs : List Command) :
    ∀ d : Dispatcher W, (∀ c ∈ cs, c.spares s = true) →
      mapFind (executeAll env now cs d).socketMap s = mapFind d.socketMap s := by
  induction cs with
  | nil => intro d _; rfl
  | cons c rest ih =>
    intro d h
    rw [executeAll_cons, ih _ (fun c' hc' => h c' (List.mem_cons_of_mem _ hc')),
      execute_spares env now c d s (h c (List.mem_cons_self _ _))]

theorem executeAll_keeps {W : Type} (env : Env W) (now : Int) (cs : List Command) :
    ∀ d : Dispatcher W,
      d.next ≤ (executeAll env now cs d).next ∧
      (∀ q, q < d.next → (executeAll env now cs d).heap q = d.heap q) ∧
      (executeAll env now cs d).workerQueue = d.workerQueue ∧
      (executeAll env now cs d).executing = d.executing := by
  induction cs with
  | nil => intro d; exact ⟨le_refl _, fun _ _ => rfl, rfl, rfl⟩
  | cons c rest ih =>
    intro d
    obtain ⟨h1, h2, h3, h4⟩ := ih (c.execute env now d).2
    obtain ⟨g1, g2, g3, g4, -⟩ := execute_keeps env now c d
    rw [executeAll_cons]
    refine ⟨le_trans g1 h1, ?_, h3.trans g3, h4.trans g4⟩
    intro q hq
    rw [h2 q (lt_of_lt_of_le hq g1), g2 q hq]

theorem executeAll_WF {W : Type} (env : Env W) (now : Int) (cs : List Command) :
    ∀ d : Dispatcher W, d.WF → (executeAll env now cs d).WF := by
  induction cs with
  | nil => intro d h; exact h
  | cons c rest ih =>
    intro d h
    rw [executeAll_cons]
    exact ih _ (execute_WF env now c d h)

theorem iteration_state {W : Type} (env : Env W) (enotconn now : Int)
    (sel : Outcome SelectResult) (d : Dispatcher W) :
    (runMainIteration env enotconn now sel d).2.1 =
      match sel with
      | .raise _ => buildWatchlists now d
      | .ret r => (drainCommands env now
          (dispatchReadiness now r.n (select r (buildWatchlists now d)))).2.1 := by
  cases sel with
  | raise e =>
    rw [iteration_select_raised]
    cases e <;> rfl
  | ret r =>
    rw [iteration_select_returned]
    rcases ho : (drainCommands env now
        (dispatchReadiness now r.n (select r (buildWatchlists now d)))).1 with u | e
    · rfl
    · cases e <;> rfl

theorem dispatchReadiness_mainQueue {W : Type} (now n : Int) (d : Dispatcher W) :
    (dispatchReadiness now n d).mainQueue = d.mainQueue := by
  by_cases hn : 0 < n
  · rw [dispatchReadiness_pos now n d hn]
    exact (dispatchLoop_frame now Task.exception _ _).2.2.1.trans
      (dispatchLoop_frame now Task.readable _ _).2.2.1
  · have hn' : ¬ n > 0 := hn
    simp [dispatchReadiness, hn']

theorem iteration_find {W : Type} (env : Env W) (enotconn now : Int)
    (sel : Outcome SelectResult) (d : Dispatcher W) (s : Socket)
    (hq : ∀ c ∈ d.mainQueue, c.spares s = true) :
    mapFind (runMainIteration env enotconn now sel d).2.1.socketMap s
      = mapFind d.socketMap s := by
  rw [iteration_state]
  cases sel with
  | raise e =>
    simp only []
    rw [(buildWatchlists_frame now d).1]
  | ret r =>
    simp only []
    have hm : (dispatchReadiness now r.n (select r (buildWatchlists now d))).mainQueue
        = d.mainQueue :=
      (dispatchReadiness_mainQueue now r.n _).trans (buildWatchlists_frame now d).2.2.1
    have hs : (dispatchReadiness now r.n (select r (buildWatchlists now d))).socketMap
        = d.socketMap :=
      (dispatchReadiness_frame now r.n _).1.trans (buildWatchlists_frame now d).1
    obtain ⟨done, rest, h1, h2, -⟩ := drain_spec env now
      (dispatchReadiness now r.n (select r (buildWatchlists now d))).mainQueue
      (dispatchReadiness now r.n (select r (buildWatchlists now d)))
    unfold drainCommands
    rw [h2]
    show mapFind (executeAll env now done _).socketMap s = _
    rw [executeAll_spares env now s done _ ?_, hs]
    intro c hc
    apply hq
    rw [← hm, h1]
    exact List.mem_append_left _ hc

theorem out_of_rotation_build {W : Type} (now : Int) (d : Dispatcher W) (hwf : d.WF)
    (s : Socket) (p : Ptr) (hmem : (s, p) ∈ d.socketMap)
    (hw : (d.heap p).wantRead = false) :
    ((buildWatchlists now d).heap p).wantRead = false ∧
    ((buildWatchlists now d).heap p).activity = now ∧
    s ∉ (buildWatchlists now d).readList ∧
    s ∉ (buildWatchlists now d).exceptList := by
  have hheap := buildWatchlists_heap_of_mem now d hwf hmem
  have hto : timedOut now (d.heap p) = false := by simp [timedOut, hw]
  have hnotin : s ∉ (buildWatchlists now d).readList := by
    rw [mem_readList_iff now d hwf]
    rintro ⟨p', hm', hw'⟩
    have hpp : p' = p := WF.key_unique hwf hm' hmem
    subst hpp
    rw [afterWatch_wantRead, hw] at hw'
    simp at hw'
  refine ⟨?_, ?_, hnotin, ?_⟩
  · rw [hheap, afterWatch_wantRead, hw]
    rfl
  · rw [hheap]
    simp [afterWatch, hto, hw]
  · rw [buildWatchlists_exceptList now d hwf, ← buildWatchlists_readList now d hwf]
    exact hnotin

/-- C21 (counterexample): the handler of socket 1 closed the socket during
its Readable task, so the worker left `wantRead = false` and the socket is
not initialized; the command queue is empty. After the next pass of the
readiness loop, and after the one that follows, the entry of socket 1 is
still in the socket table. -/
theorem closed_socket_stays :
    (closedByHandler.heap 0).wantRead = false ∧
    closingEnv.net.initialized 1 closedByHandler.world = false ∧
    closedByHandler.socketMap = [(1, 0)] ∧
    closedByHandler.mainQueue = [] ∧
    (runMainIteration closingEnv 107 5 (.ret nothingReady) closedByHandler).2.1.socketMap
      = [(1, 0)] ∧
    (runMainIteration closingEnv 107 9 (.ret nothingReady)
      (runMainIteration closingEnv 107 5 (.ret nothingReady) closedByHandler).2.1).2.1.socketMap
      = [(1, 0)] := by
  decide

/-- C21 (amended): an entry whose record has `wantRead = false`, as the
worker leaves it when the handler closed the socket, is kept by the next
pass of the readiness loop: the build step leaves the socket off both
watchlists, keeps `wantRead` false and resets `activity`, and after the pass
the socket still maps to its record, whatever `select` did, as long as no
queued command is a Reset or a command for that socket. -/
theorem entry_stays {W : Type} (env : Env W) (enotconn now : Int) (d : Dispatcher W)
    (hwf : d.WF) (s : Socket) (p : Ptr) (hmem : (s, p) ∈ d.socketMap)
    (hw : (d.heap p).wantRead = false)
    (hq : ∀ c ∈ d.mainQueue, c.spares s = true) (sel : Outcome SelectResult) :
    mapFind (runMainIteration env enotconn now sel d).2.1.socketMap s = some p ∧
    ((buildWatchlists now d).heap p).wantRead = false ∧
    ((buildWatchlists now d).heap p).activity = now ∧
    s ∉ (buildWatchlists now d).readList ∧
    s ∉ (buildWatchlists now d).exceptList := by
  refine ⟨?_, out_of_rotation_build now d hwf s p hmem hw⟩
  rw [iteration_find env enotconn now sel d s hq]
  exact mapFind_of_mem _ (WF.keys_nodup hwf) s p hmem

theorem closedByHandler_WF : closedByHandler.WF := by
  refine ⟨?_, ?_, ?_⟩ <;> decide

/-- Witness for `entry_stays`: the state in which the handler of socket 1
has closed the socket. -/
theorem entry_stays_witness :
    closedByHandler.WF ∧ (1, 0) ∈ closedByHandler.socketMap ∧
    (closedByHandler.heap 0).wantRead = false ∧
    (∀ c ∈ closedByHandler.mainQueue, c.spares 1 = true) ∧
    (mapFind (runMainIteration closingEnv 107 5 (.ret nothingReady)
        closedByHandler).2.1.socketMap 1 = some 0 ∧
      ((buildWatchlists 5 closedByHandler).heap 0).wantRead = false ∧
      ((buildWatchlists 5 closedByHandler).heap 0).activity = 5 ∧
      1 ∉ (buildWatchlists 5 closedByHandler).readList ∧
      1 ∉ (buildWatchlists 5 closedByHandler).exceptList) :=
  ⟨closedByHandler_WF, by decide, by decide, by decide,
    entry_stays closingEnv 107 5 closedByHandler closedByHandler_WF 1 0 (by decide)
      (by decide) (by decide) (.ret nothingReady)⟩

/-! ### The mode of the dequeues in the drain step -/

theorem drain_events {W : Type} (env : Env W) (now : Int) (cs : List Command) :
    ∀ (d : Dispatcher W) (i : Nat) (e : Dequeued),
      (drain env now cs d).2.2[i]? = some e →
      e.blocking = (executeAll env now (cs.take i) d).socketMap.isEmpty ∧
        e.got = cs[i]? := by
  induction cs with
  | nil =>
    intro d i e h
    cases i with
    | zero =>
      simp only [drain, List.getElem?_cons_zero, Option.some.injEq] at h
      subst h
      exact ⟨rfl, rfl⟩
    | succ j => simp [drain] at h
  | cons c rest ih =>
    intro d i e h
    unfold drain at h
    rw [execute_mainQueue] at h
    rcases ho : (c.execute env now d).1 with u | ex
    · rw [ho] at h
      cases i with
      | zero =>
        simp only [List.getElem?_cons_zero, Option.some.injEq] at h
        subst h
        exact ⟨rfl, by simp⟩
      | succ j =>
        simp only [List.getElem?_cons_succ] at h
        obtain ⟨h1, h2⟩ := ih _ j e h
        rw [executeAll_mainQueue] at h1
        exact ⟨h1, by simpa using h2⟩
    · rw [ho] at h
      cases i with
      | zero =>
        simp only [List.getElem?_cons_zero, Option.some.injEq] at h
        subst h
        exact ⟨rfl, by simp⟩
      | succ j => simp at h

theorem drain_first {W : Type} (env : Env W) (now : Int) (cs : List Command)
    (d : Dispatcher W) :
    ∃ e rest, (drain env now cs d).2.2 = e :: rest ∧ e.blocking = d.socketMap.isEmpty := by
  cases cs with
  | nil => exact ⟨_, _, rfl, rfl⟩
  | cons c rest =>
    unfold drain
    rw [execute_mainQueue]
    rcases ho : (c.execute env now d).1 with u | ex
    · exact ⟨_, _, rfl, rfl⟩
    · exact ⟨_, _, rfl, rfl⟩

/-- C22 (counterexample): the table holds socket 1 on entry and RemoveSocket(1)
is queued. The drain step dequeues the command without blocking, executes it,
finds the table empty and makes a blocking dequeue on the empty queue. -/
theorem drain_blocks_after_removal :
    removalQueued.socketMap = [(1, 0)] ∧
    (drainCommands chattyEnv 5 removalQueued).2.1.socketMap = [] ∧
    (drainCommands chattyEnv 5 removalQueued).2.2 =
      [{ blocking := false, got := some (.removeSocket 1) },
       { blocking := true, got := none }] := by
  decide

/-- C22 (amended): the mode of each dequeue of the drain step follows the
table as it is at that dequeue. The first dequeue is blocking exactly when
the table is empty on entry; the dequeue that follows the first `i` commands
is blocking exactly when the table those commands leave is empty, and hands
back the next queued command; when some registered socket is spared by every
queued command, so that the table never becomes empty, every dequeue is
non-blocking; and when the step returns it has executed the whole queue. -/
theorem drain_mode {W : Type} (env : Env W) (now : Int) (d : Dispatcher W) :
    (∃ e rest, (drainCommands env now d).2.2 = e :: rest ∧
      e.blocking = d.socketMap.isEmpty) ∧
    (∀ i e, (drainCommands env now d).2.2[i]? = some e →
      e.blocking = (executeAll env now (d.mainQueue.take i) d).socketMap.isEmpty ∧
        e.got = d.mainQueue[i]?) ∧
    ((∃ s, mapFind d.socketMap s ≠ none ∧ ∀ c ∈ d.mainQueue, c.spares s = true) →
      ∀ e ∈ (drainCommands env now d).2.2, e.blocking = false) ∧
    ((drainCommands env now d).1 = .ret () →
      (drainCommands env now d).2.1.mainQueue = []) := by
  refine ⟨drain_first env now d.mainQueue d, drain_events env now d.mainQueue d, ?_, ?_⟩
  · rintro ⟨s, hs, hq⟩ e he
    obtain ⟨i, hi⟩ := List.mem_iff_getElem?.1 he
    obtain ⟨h1, -⟩ := drain_events env now d.mainQueue d i e hi
    rw [h1]
    have hf := executeAll_spares env now s (d.mainQueue.take i) d
      (fun c hc => hq c (List.mem_of_mem_take hc))
    cases hm : (executeAll env now (d.mainQueue.take i) d).socketMap with
    | nil =>
      rw [hm] at hf
      exact absurd hf.symm hs
    | cons x xs => rfl
  · intro hret
    obtain ⟨done, rest, -, h2, h3⟩ := drain_spec env now d.mainQueue d
    unfold drainCommands
    rw [h2]
    exact h3 hret

/-! ### Who turns `wantRead` on, and the clock of a record out of rotation -/

theorem run_exception_heap {W : Type} (env : Env W) (s : Socket) (q : Ptr)
    (d : Dispatcher W) : ((Task.exception s q).run env d).heap = d.heap :=
  exceptionImpl_heap env s q d

/-- C23: the readiness loop never turns `wantRead` back on. For an existing
record whose `wantRead` is false, the build step, the dispatch step and both
together leave it false; and whenever a piece of work of the dispatcher (a
step of the readiness loop, a command, a worker task) leaves it true, that
piece is a worker running a Readable or a Timeout task of that record. -/
theorem wantRead_only_by_worker {W : Type} (env : Env W) (d : Dispatcher W) (p : Ptr)
    (hp : p < d.next) (hw : (d.heap p).wantRead = false) :
    (∀ now, ((buildWatchlists now d).heap p).wantRead = false) ∧
    (∀ now n, ((dispatchReadiness now n d).heap p).wantRead = false) ∧
    (∀ now r, ((readinessSteps now r d).heap p).wantRead = false) ∧
    (∀ a : Action, ((a.apply env d).heap p).wantRead = true →
      ∃ s, a = .work (.readable s p) ∨ a = .work (.timeout s p)) := by
  have hb : ∀ now, ((buildWatchlists now d).heap p).wantRead = false :=
    fun now => (buildWatchlists_keeps now d p).2.1 hw
  have hd : ∀ now n (d0 : Dispatcher W), (d0.heap p).wantRead = false →
      ((dispatchReadiness now n d0).heap p).wantRead = false :=
    fun now n d0 h0 => (dispatchReadiness_keeps now n d0 p).2.1 h0
  refine ⟨hb, fun now n => hd now n d hw, fun now r => hd now r.n _ (hb now), ?_⟩
  intro a ha
  cases a with
  | build now => rw [Action.apply, hb now] at ha; simp at ha
  | wait r => rw [Action.apply] at ha; exact absurd (hw ▸ ha : false = true) (by simp)
  | dispatch now n => rw [Action.apply, hd now n d hw] at ha; simp at ha
  | command now c =>
    rw [Action.apply, (execute_keeps env now c d).2.1 p hp, hw] at ha
    simp at ha
  | work t =>
    rw [Action.apply] at ha
    cases t with
    | readable s q =>
      by_cases hq : p = q
      · subst hq
        exact ⟨s, Or.inl rfl⟩
      · rw [(run_heap env (Task.readable s q) d p).2.2.2 hq, hw] at ha
        simp at ha
    | exception s q =>
      rw [run_exception_heap, hw] at ha
      simp at ha
    | timeout s q =>
      by_cases hq : p = q
      · subst hq
        exact ⟨s, Or.inr rfl⟩
      · rw [(run_heap env (Task.timeout s q) d p).2.2.2 hq, hw] at ha
        simp at ha

/-- Witness for `wantRead_only_by_worker`: socket 1 reported readable, its
record 0 out of rotation. -/
theorem wantRead_only_by_worker_witness :
    (0 : Ptr) < afterReadableReport.next ∧ (afterReadableReport.heap 0).wantRead = false ∧
    (∀ now, ((buildWatchlists now afterReadableReport).heap 0).wantRead = false) ∧
    (((Action.work (.readable 1 0)).apply chattyEnv afterReadableReport).heap 0).wantRead
      = true :=
  ⟨by decide, by decide,
    (wantRead_only_by_worker chattyEnv afterReadableReport 0 (by decide) (by decide)).1,
    by decide⟩

theorem clocked_refl (now : Int) (i : SocketInfo) : Clocked now i i := Or.inl rfl

theorem clocked_afterWatch (now : Int) (i j : SocketInfo) (h : Clocked now i j) :
    Clocked now i (afterWatch now j) := by
  unfold afterWatch
  by_cases hto : timedOut now j = true
  · simp only [hto, if_true]
    exact Or.inr rfl
  · have hto' : timedOut now j = false := by simpa using hto
    cases hw : j.wantRead with
    | true => simpa [hto', hw] using h
    | false =>
      simp only [hto', hw, Bool.false_eq_true, if_false]
      exact Or.inr rfl

theorem buildLoop_clocked {W : Type} (now : Int) (p : Ptr) (i : SocketInfo)
    (es : List (Socket × Ptr)) :
    ∀ d : Dispatcher W, Clocked now i (d.heap p) →
      Clocked now i ((es.foldl (watchEntry now) d).heap p) := by
  induction es with
  | nil => intro d h; exact h
  | cons e rest ih =>
    intro d h
    simp only [List.foldl_cons]
    apply ih
    rw [watchEntry_heap]
    by_cases hp : p = e.2
    · subst hp
      simpa [setInfo] using clocked_afterWatch now i _ h
    · simpa [setInfo, hp] using h

theorem dispatchLoop_clocked {W : Type} (now : Int) (mk : Socket → Ptr → Task)
    (p : Ptr) (i : SocketInfo) (l : List Socket) (d : Dispatcher W)
    (h : Clocked now i (d.heap p)) :
    Clocked now i ((l.foldl (dispatchOne now mk) d).heap p) := by
  rcases dispatchLoop_heap_cases now mk l p d with ⟨hh, -⟩ | ⟨hh, -⟩ <;> rw [hh]
  · exact h
  · exact Or.inr rfl

theorem apply_clock {W : Type} (env : Env W) (a : Action) (d : Dispatcher W) (p : Ptr)
    (hp : p < d.next) (t : Int) (ha : a.notBefore t) (ht : t ≤ (d.heap p).activity) :
    t ≤ ((a.apply env d).heap p).activity := by
  cases a with
  | build now =>
    have h := buildLoop_clocked now p (d.heap p) d.socketMap
      { d with readList := [], exceptList := [] } (clocked_refl now _)
    rcases h with h | h
    · exact le_of_le_of_eq ht h.symm
    · exact le_of_le_of_eq ha h.symm
  | wait r => exact ht
  | dispatch now n =>
    have h : Clocked now (d.heap p) ((dispatchReadiness now n d).heap p) := by
      by_cases hn : 0 < n
      · rw [dispatchReadiness_pos now n d hn]
        exact dispatchLoop_clocked now Task.exception p _ _ _
          (dispatchLoop_clocked now Task.readable p _ _ d (clocked_refl now _))
      · have hn' : ¬ n > 0 := hn
        simp only [dispatchReadiness, hn', if_false]
        exact clocked_refl now _
    rcases h with h | h
    · exact le_of_le_of_eq ht h.symm
    · exact le_of_le_of_eq ha h.symm
  | command now c =>
    simp only [Action.apply]
    rw [(execute_keeps env now c d).2.1 p hp]
    exact ht
  | work tk =>
    simp only [Action.apply]
    rw [(run_heap env tk d p).2.2.1]
    exact ht

theorem run_clock {W : Type} (env : Env W) (p : Ptr) (t : Int) (as : List Action) :
    ∀ d : Dispatcher W, p < d.next → (∀ a ∈ as, a.notBefore t) →
      t ≤ (d.heap p).activity → t ≤ ((runActions env as d).heap p).activity := by
  induction as with
  | nil => intro d _ _ h; exact h
  | cons a rest ih =>
    intro d hp hall ht
    rw [runActions_cons]
    have hn : d.next ≤ (a.apply env d).next := (apply_keeps env a d p hp).1
    exact ih _ (lt_of_lt_of_le hp hn) (fun b hb => hall b (List.mem_cons_of_mem _ hb))
      (apply_clock env a d p hp t (hall a (List.mem_cons_self _ _)) ht)

/-- C24: activity accounting while out of rotation. At the end of a build
step executed at instant `t` on a well-formed table, every table entry whose
`wantRead` is false has `activity = t`; and along every later run of the
dispatcher whose steps read instants not before `t`, the `activity` of that
record is not before `t`, so the idle time measured for it at a later instant
`t'` is at most `t' - t`. -/
theorem activity_while_out {W : Type} (env : Env W) (t : Int) (d : Dispatcher W)
    (hwf : d.WF) (s : Socket) (p : Ptr) (hmem : (s, p) ∈ d.socketMap)
    (hout : ((buildWatchlists t d).heap p).wantRead = false) :
    ((buildWatchlists t d).heap p).activity = t ∧
    ∀ as : List Action, (∀ a ∈ as, a.notBefore t) →
      t ≤ ((runActions env as (buildWatchlists t d)).heap p).activity ∧
      ∀ t' : Int,
        t' - ((runActions env as (buildWatchlists t d)).heap p).activity ≤ t' - t := by
  have hheap := buildWatchlists_heap_of_mem t d hwf hmem
  have hact : ((buildWatchlists t d).heap p).activity = t := by
    rw [hheap] at hout ⊢
    unfold afterWatch at hout ⊢
    by_cases hto : timedOut t (d.heap p) = true
    · simp [hto]
    · have hto' : timedOut t (d.heap p) = false := by simpa using hto
      cases hw : (d.heap p).wantRead with
      | true => simp [hto', hw] at hout
      | false => simp [hto', hw]
  refine ⟨hact, ?_⟩
  intro as hall
  have hp : p < (buildWatchlists t d).next := by
    rw [(buildWatchlists_frame t d).2.1]
    exact hwf.2.2 (s, p) hmem
  have h := run_clock env p t as (buildWatchlists t d) hp hall (le_of_eq hact.symm)
  exact ⟨h, fun t' => by omega⟩

/-- Witness for `activity_while_out`: socket 1 reported readable at instant
0, the build step of the next pass at instant 4. -/
theorem activity_while_out_witness :
    afterReadableReport.WF ∧ (1, 0) ∈ afterReadableReport.socketMap ∧
    ((buildWatchlists 4 afterReadableReport).heap 0).wantRead = false ∧
    ((buildWatchlists 4 afterReadableReport).heap 0).activity = 4 :=
  ⟨by refine ⟨?_, ?_, ?_⟩ <;> decide, by decide, by decide,
    (activity_while_out chattyEnv 4 afterReadableReport
      (by refine ⟨?_, ?_, ?_⟩ <;> decide) 1 0 (by decide) (by decide)).1⟩

/-! ### The read burst -/

theorem readLoop_burst {W : Type} (H : SocketHandler W) (P : Platform W)
    (cap : Int) (socket : Socket) :
    ∀ (fuel : Nat) (reads : Int) (w : W) (o : Outcome Unit) (w' : W) (tr : List Event),
      readLoop H P cap socket fuel reads w = some (o, w', tr) →
      BurstTrace cap reads tr ∧ tr.head? = some (.readable (H.readable socket w).1) := by
  intro fuel
  induction fuel with
  | zero => intro reads w o w' tr h; simp [readLoop] at h
  | succ n ih =>
    intro reads w o w' tr h
    unfold readLoop at h
    rcases hr : H.readable socket w with ⟨r, w1⟩
    rw [hr] at h
    rcases r with b | e
    · cases b
      · simp at h
        rcases h with ⟨-, -, rfl⟩
        exact ⟨BurstTrace.finished reads, rfl⟩
      · by_cases hlt : reads < cap
        · rcases hp : P.poll socket w1 with ⟨q, w2⟩
          simp only [hlt, if_true, hp] at h
          rcases q with c | e
          · cases c
            · simp at h
              rcases h with ⟨-, -, rfl⟩
              exact ⟨BurstTrace.notReady reads hlt, rfl⟩
            · rcases hl : readLoop H P cap socket n (reads + 1) w2 with _ | ⟨o2, w3, tr2⟩
              · simp [hl] at h
              · simp [hl] at h
                rcases h with ⟨-, -, rfl⟩
                exact ⟨BurstTrace.again reads hlt tr2 (ih _ _ _ _ _ hl).1, rfl⟩
          · simp at h
            rcases h with ⟨-, -, rfl⟩
            exact ⟨BurstTrace.pollRaised reads hlt e, rfl⟩
        · simp [hlt] at h
          rcases h with ⟨-, -, rfl⟩
          exact ⟨BurstTrace.capped reads hlt, rfl⟩
    · simp at h
      rcases h with ⟨-, -, rfl⟩
      exact ⟨BurstTrace.raised reads e, rfl⟩

theorem burst_calls {cap reads : Int} {tr : List Event} (h : BurstTrace cap reads tr) :
    1 ≤ readableCalls tr ∧
    (tr.head? = some (.readable (.ret false)) → readableCalls tr = 1 ∧ pollCalls tr = 0) := by
  cases h with
  | raised e => simp [readableCalls, pollCalls, Event.isReadable]
  | finished => simp [readableCalls, pollCalls, Event.isReadable, Event.isPoll]
  | capped h => simp [readableCalls, pollCalls, Event.isReadable]
  | pollRaised h e => simp [readableCalls, pollCalls, Event.isReadable]
  | notReady h => simp [readableCalls, pollCalls, Event.isReadable]
  | again h tr ht => simp [readableCalls, pollCalls, Event.isReadable]

theorem calls_append_log (tr : List Event) (e : Thrown) :
    readableCalls (tr ++ [.log e]) = readableCalls tr ∧
    pollCalls (tr ++ [.log e]) = pollCalls tr := by
  simp [readableCalls, pollCalls, List.countP_append, Event.isReadable, Event.isPoll]

/-- C25: the read burst of one Readable task. The task always ends, and the
calls it makes have the shape of `BurstTrace` from counter 0 (followed by one
log line when a `Poco::Exception` was caught): `handler.readable` is invoked
at least once, first of all, and again only after the previous invocation
returned true, the burst counter was below the cap, and a poll of the socket
reported ready. When the first invocation returns false, the handler is
invoked exactly once and the socket is never polled. -/
theorem readable_burst {W : Type} (env : Env W) (socket : Socket) (pInfo : Ptr)
    (d : Dispatcher W) :
    match readableImpl env socket pInfo d with
    | none => False
    | some (_, _, tr) =>
      (∃ tr0, BurstTrace d.maxReadsPerWorker 0 tr0 ∧ (tr = tr0 ∨ ∃ e, tr = tr0 ++ [.log e])) ∧
      1 ≤ readableCalls tr ∧
      tr.head? = some (.readable
        ((env.handlers (d.heap pInfo).pHandler).readable socket d.world).1) ∧
      (((env.handlers (d.heap pInfo).pHandler).readable socket d.world).1 = .ret false →
        readableCalls tr = 1 ∧ pollCalls tr = 0) := by
  unfold readableImpl
  have hs := readLoop_isSome (env.handlers (d.heap pInfo).pHandler) env.net
    d.maxReadsPerWorker socket (d.maxReadsPerWorker.toNat + 1) 0 d.world (by simp)
  rcases hl : readLoop (env.handlers (d.heap pInfo).pHandler) env.net d.maxReadsPerWorker
      socket (d.maxReadsPerWorker.toNat + 1) 0 d.world with _ | ⟨o1, w1, tr1⟩
  · simp [hl] at hs
  · obtain ⟨hb, hh⟩ := readLoop_burst _ _ _ _ _ _ _ _ _ _ hl
    obtain ⟨c1, c2⟩ := burst_calls hb
    have key : ∀ tr, (tr = tr1 ∨ ∃ e, tr = tr1 ++ [.log e]) →
        (∃ tr0, BurstTrace d.maxReadsPerWorker 0 tr0 ∧
          (tr = tr0 ∨ ∃ e, tr = tr0 ++ [.log e])) ∧
        1 ≤ readableCalls tr ∧
        tr.head? = some (.readable
          ((env.handlers (d.heap pInfo).pHandler).readable socket d.world).1) ∧
        (((env.handlers (d.heap pInfo).pHandler).readable socket d.world).1 = .ret false →
          readableCalls tr = 1 ∧ pollCalls tr = 0) := by
      intro tr htr
      have hne : tr1 ≠ [] := by
        intro h0
        rw [h0] at hh
        simp at hh
      rcases htr with rfl | ⟨e, rfl⟩
      · refine ⟨⟨tr, hb, Or.inl rfl⟩, c1, hh, ?_⟩
        intro hf
        exact c2 (by rw [hh, hf])
      · obtain ⟨a1, a2⟩ := calls_append_log tr1 e
        refine ⟨⟨tr1, hb, Or.inr ⟨e, rfl⟩⟩, by rw [a1]; exact c1, ?_, ?_⟩
        · rw [List.head?_append_of_ne_nil _ hne]
          exact hh
        · intro hf
          rw [a1, a2]
          exact c2 (by rw [hh, hf])
    rcases o1 with u | e
    · exact key tr1 (Or.inl rfl)
    · by_cases hp : e.isPoco = true
      · simp only [hp, if_true]
        exact key _ (Or.inr ⟨e, rfl⟩)
      · have hp' : e.isPoco = false := by simpa using hp
        simp only [hp', Bool.false_eq_true, if_false]
        exact key tr1 (Or.inl rfl)

/-! ### What changes the table, and sockets added or out of rotation -/

/-- C26: the socket table changes only by commands. The build step, the wait,
the dispatch step, every worker task and every facade call leave the socket
table, so also its set of handles, as it is; a piece of work that changes the
table is the execution of a command; and a step in the life of a dispatcher
that changes the table is the execution of a command or a `stop()`. -/
theorem table_changes_only_by_commands {W : Type} (env : Env W) (d : Dispatcher W) :
    (∀ now, (buildWatchlists now d).socketMap = d.socketMap) ∧
    (∀ r, (select r d).socketMap = d.socketMap) ∧
    (∀ now n, (dispatchReadiness now n d).socketMap = d.socketMap) ∧
    (∀ t : Task, (t.run env d).socketMap = d.socketMap) ∧
    (∀ c, (submit c d).socketMap = d.socketMap) ∧
    (∀ a : Action, (a.apply env d).socketMap ≠ d.socketMap → ∃ now c, a = .command now c) ∧
    (∀ d', Life env d d' → d'.socketMap ≠ d.socketMap →
      (∃ (now : Int) (c : Command), d' = (c.execute env now d).2) ∨
        ∃ wind, d' = stop env wind d) := by
  have hb := fun now => (buildWatchlists_frame now d).1
  have hd := fun now n => (dispatchReadiness_frame now n d).1
  have hr := fun t => (run_frame env t d).1
  have hc := fun c => (submit_frame c d).2.1
  have ha : ∀ a : Action, (a.apply env d).socketMap ≠ d.socketMap →
      ∃ now c, a = .command now c := by
    intro a hne
    cases a with
    | build now => exact absurd (hb now) hne
    | wait r => exact absurd rfl hne
    | dispatch now n => exact absurd (hd now n) hne
    | command now c => exact ⟨now, c, rfl⟩
    | work t => exact absurd (hr t) hne
  refine ⟨hb, fun _ => rfl, hd, hr, hc, ha, ?_⟩
  intro d' hl hne
  cases hl with
  | act a hns =>
    obtain ⟨now, c, rfl⟩ := ha a hne
    exact Or.inl ⟨now, c, rfl⟩
  | call c => exact absurd (hc c) hne
  | stop wind => exact Or.inr ⟨wind, rfl⟩

/-- C27: add during handler. Once AddSocket(s2, handler, t) has been applied
to a well-formed table at instant `T`, and whatever commands that spare `s2`
are executed after it, the build step of the next pass of the readiness loop,
run at instant `T'`, places `s2` in both the read and the except watchlist,
provided `t = 0` or `T' - T <= t`. -/
theorem added_socket_watched {W : Type} (env : Env W) (T T1 T' : Int) (s2 : Socket)
    (h : HandlerId) (t : Int) (d : Dispatcher W) (hwf : d.WF) (cs : List Command)
    (hcs : ∀ c ∈ cs, c.spares s2 = true) (ht : t = 0 ∨ T' - T ≤ t) :
    s2 ∈ (buildWatchlists T' (executeAll env T1 cs (addSocketImpl T s2 h t d))).readList ∧
    s2 ∈ (buildWatchlists T' (executeAll env T1 cs (addSocketImpl T s2 h t d))).exceptList := by
  have hwf1 := addSocketImpl_WF T s2 h t d hwf
  have hwf2 := executeAll_WF env T1 cs _ hwf1
  have hfind : mapFind (executeAll env T1 cs (addSocketImpl T s2 h t d)).socketMap s2
      = some d.next := by
    rw [executeAll_spares env T1 s2 cs _ hcs]
    exact mapFind_mapInsert_self _ _ _
  have hheap : (executeAll env T1 cs (addSocketImpl T s2 h t d)).heap d.next
      = SocketInfo.new h t T := by
    rw [(executeAll_keeps env T1 cs (addSocketImpl T s2 h t d)).2.1 d.next
      (Nat.lt_succ_self _)]
    simp [addSocketImpl, setInfo]
  have hin : s2 ∈
      (buildWatchlists T' (executeAll env T1 cs (addSocketImpl T s2 h t d))).readList := by
    rw [mem_readList_iff T' _ hwf2]
    refine ⟨d.next, mapFind_mem _ _ _ hfind, ?_⟩
    rw [hheap, afterWatch_wantRead]
    have hto : timedOut T' (SocketInfo.new h t T) = false := by
      rcases ht with ht | ht
      · simp [timedOut, SocketInfo.new, ht]
      · have hnot : ¬ t < T' - T := not_lt.2 ht
        simp [timedOut, SocketInfo.new, hnot]
    rw [hto]
    rfl
  refine ⟨hin, ?_⟩
  rw [buildWatchlists_exceptList T' _ hwf2, ← buildWatchlists_readList T' _ hwf2]
  exact hin

/-- Witness for `added_socket_watched`: while socket 1 is registered, socket
2 is added at instant 3 with idle timeout 10, socket 1 is removed after it,
and the next build step runs at instant 13. -/
theorem added_socket_watched_witness :
    (oneSocket 1).WF ∧ (∀ c ∈ [Command.removeSocket 1], c.spares 2 = true) ∧
    ((10 : Int) = 0 ∨ (13 : Int) - 3 ≤ 10) ∧
    (buildWatchlists 13 (executeAll chattyEnv 3 [.removeSocket 1]
      (addSocketImpl 3 2 0 10 (oneSocket 1)))).readList = [2] ∧
    (2 ∈ (buildWatchlists 13 (executeAll chattyEnv 3 [.removeSocket 1]
        (addSocketImpl 3 2 0 10 (oneSocket 1)))).readList ∧
      2 ∈ (buildWatchlists 13 (executeAll chattyEnv 3 [.removeSocket 1]
        (addSocketImpl 3 2 0 10 (oneSocket 1)))).exceptList) :=
  ⟨oneSocket_WF 1, by decide, by decide, by decide,
    added_socket_watched chattyEnv 3 3 13 2 0 10 (oneSocket 1) (oneSocket_WF 1)
      [.removeSocket 1] (by decide) (by decide)⟩

/-- C29: `closeSocketImpl` shuts the socket down once, whether or not the
handle has an entry, after erasing the entry. Its outcome is the outcome of
one `socket.shutdown()` in the world it was called in and the world it leaves
is the world that call leaves; the table it leaves is the table with the
entry erased, so the handle has no entry afterwards, also when the shutdown
raised; records and queues are untouched. -/
theorem closeSocket_shutdown_once {W : Type} (env : Env W) (s : Socket)
    (d : Dispatcher W) :
    (closeSocketImpl env s d).1 = (env.net.shutdown s d.world).1 ∧
    (closeSocketImpl env s d).2.world = (env.net.shutdown s d.world).2 ∧
    (closeSocketImpl env s d).2.socketMap = mapErase d.socketMap s ∧
    mapFind (closeSocketImpl env s d).2.socketMap s = none ∧
    (∀ e, (closeSocketImpl env s d).1 = .raise e →
      mapFind (closeSocketImpl env s d).2.socketMap s = none) ∧
    (closeSocketImpl env s d).2.heap = d.heap ∧
    (closeSocketImpl env s d).2.workerQueue = d.workerQueue ∧
    (closeSocketImpl env s d).2.mainQueue = d.mainQueue := by
  have hm : mapFind (closeSocketImpl env s d).2.socketMap s = none := by
    rw [closeSocketImpl_eq]
    exact mapFind_mapErase_self _ _
  refine ⟨rfl, ?_, ?_, hm, fun _ _ => hm, ?_, ?_, ?_⟩ <;> rw [closeSocketImpl_eq]

theorem tasksOn_append (s : Socket) (q r : List Task) :
    tasksOn s (q ++ r) = tasksOn s q + tasksOn s r := by
  simp [tasksOn, List.countP_append]

theorem tasksOn_eq_zero (s : Socket) (q : List Task) (h : ∀ t ∈ q, t.socket ≠ s) :
    tasksOn s q = 0 := by
  unfold tasksOn
  rw [List.countP_eq_zero]
  intro t ht
  simpa using h t ht

theorem dispatchLoop_no_task {W : Type} (now : Int) (mk : Socket → Ptr → Task)
    (hsock : ∀ s q, (mk s q).socket = s) (hptr : ∀ s q, (mk s q).pInfo = q)
    (l : List Socket) (d : Dispatcher W) (hwf : d.WF) (s : Socket) (p : Ptr)
    (hmem : (s, p) ∈ d.socketMap) (hs : s ∉ l) :
    tasksOn s (l.foldl (dispatchOne now mk) d).workerQueue = tasksOn s d.workerQueue ∧
    tasksFor p (l.foldl (dispatchOne now mk) d).workerQueue = tasksFor p d.workerQueue := by
  rw [dispatchLoop_workerQueue, tasksOn_append, tasksFor_append]
  have h1 : tasksOn s (l.filterMap (fun s' => (mapFind d.socketMap s').map (mk s'))) = 0 := by
    apply tasksOn_eq_zero
    intro t ht
    simp only [List.mem_filterMap, Option.map_eq_some'] at ht
    obtain ⟨s', hs', q, -, rfl⟩ := ht
    rw [hsock]
    intro heq
    exact hs (heq ▸ hs')
  have h2 : tasksFor p (l.filterMap (fun s' => (mapFind d.socketMap s').map (mk s'))) = 0 := by
    apply tasksFor_eq_zero
    intro t ht
    simp only [List.mem_filterMap, Option.map_eq_some'] at ht
    obtain ⟨s', hs', q, hf, rfl⟩ := ht
    rw [hptr]
    intro heq
    subst heq
    have hss : s' = s := WF.ptr_unique hwf (mapFind_mem _ _ _ hf) hmem
    exact hs (hss ▸ hs')
  rw [h1, h2]
  exact ⟨rfl, rfl⟩

theorem dispatchReadiness_no_task {W : Type} (now n : Int) (d : Dispatcher W)
    (hwf : d.WF) (s : Socket) (p : Ptr) (hmem : (s, p) ∈ d.socketMap)
    (hr : s ∉ d.readList) (he : s ∉ d.exceptList) :
    tasksOn s (dispatchReadiness now n d).workerQueue = tasksOn s d.workerQueue ∧
    tasksFor p (dispatchReadiness now n d).workerQueue = tasksFor p d.workerQueue := by
  by_cases hn : 0 < n
  · rw [dispatchReadiness_pos now n d hn]
    have hf := dispatchLoop_frame now Task.readable d.readList d
    obtain ⟨a1, a2⟩ := dispatchLoop_no_task now Task.readable (fun _ _ => rfl)
      (fun _ _ => rfl) d.readList d hwf s p hmem hr
    obtain ⟨b1, b2⟩ := dispatchLoop_no_task now Task.exception (fun _ _ => rfl)
      (fun _ _ => rfl) (d.readList.foldl (dispatchOne now Task.readable) d).exceptList
      (d.readList.foldl (dispatchOne now Task.readable) d)
      (WF_of_frame hf.1 hf.2.1 hwf) s p (by rw [hf.1]; exact hmem)
      (by rw [hf.2.2.2.2.2.2.2.2.1]; exact he)
    exact ⟨b1.trans a1, b2.trans a2⟩
  · have hn' : ¬ n > 0 := hn
    simp [dispatchReadiness, hn']

theorem build_no_task {W : Type} (now : Int) (d : Dispatcher W) (hwf : d.WF)
    (s : Socket) (p : Ptr) (hmem : (s, p) ∈ d.socketMap)
    (hw : (d.heap p).wantRead = false) :
    tasksOn s (buildWatchlists now d).workerQueue = tasksOn s d.workerQueue ∧
    tasksFor p (buildWatchlists now d).workerQueue = tasksFor p d.workerQueue := by
  have hto : timedOut now (d.heap p) = false := by simp [timedOut, hw]
  rw [buildWatchlists_workerQueue now d hwf, tasksOn_append, tasksFor_append]
  have h1 : tasksOn s ((d.socketMap.filter (fun e => timedOut now (d.heap e.2))).map
      (fun e => Task.timeout e.1 e.2)) = 0 := by
    apply tasksOn_eq_zero
    intro t ht
    simp only [List.mem_map, List.mem_filter] at ht
    obtain ⟨⟨s', p'⟩, ⟨hm', hto'⟩, rfl⟩ := ht
    intro heq
    simp only [Task.socket] at heq
    subst heq
    have hpp : p' = p := WF.key_unique hwf hm' hmem
    subst hpp
    rw [hto] at hto'
    simp at hto'
  have h2 : tasksFor p ((d.socketMap.filter (fun e => timedOut now (d.heap e.2))).map
      (fun e => Task.timeout e.1 e.2)) = 0 := by
    apply tasksFor_eq_zero
    intro t ht
    simp only [List.mem_map, List.mem_filter] at ht
    obtain ⟨⟨s', p'⟩, ⟨-, hto'⟩, rfl⟩ := ht
    intro heq
    simp only [Task.pInfo] at heq
    subst heq
    rw [hto] at hto'
    simp at hto'
  rw [h1, h2]
  exact ⟨rfl, rfl⟩

theorem drainCommands_workerQueue {W : Type} (env : Env W) (now : Int)
    (d : Dispatcher W) : (drainCommands env now d).2.1.workerQueue = d.workerQueue := by
  obtain ⟨done, rest, -, h2, -⟩ := drain_spec env now d.mainQueue d
  unfold drainCommands
  rw [h2]
  exact (executeAll_keeps env now done d).2.2.1

/-- C28: a socket that is out of rotation gets no new task. When the record
of a table entry has `wantRead = false` at the start of a pass on a
well-formed table, the build step leaves it false and leaves the socket off
both watchlists; and when every socket `select` hands back, in the read list
or in the except list, was in a watchlist it was given, then the build and
dispatch steps of that pass, and the whole pass with its drain step, add no
Timeout, Readable or Exception task for that socket, nor for its record, to
the worker queue. -/
theorem out_of_rotation_no_task {W : Type} (env : Env W) (enotconn now : Int)
    (r : SelectResult) (d : Dispatcher W) (hwf : d.WF) (s : Socket) (p : Ptr)
    (hmem : (s, p) ∈ d.socketMap) (hw : (d.heap p).wantRead = false)
    (hsel : ∀ x, x ∈ r.readReady ∨ x ∈ r.exceptReady →
      x ∈ (buildWatchlists now d).readList ∨ x ∈ (buildWatchlists now d).exceptList) :
    ((buildWatchlists now d).heap p).wantRead = false ∧
    s ∉ (buildWatchlists now d).readList ∧
    s ∉ (buildWatchlists now d).exceptList ∧
    tasksOn s (readinessSteps now r d).workerQueue = tasksOn s d.workerQueue ∧
    tasksFor p (readinessSteps now r d).workerQueue = tasksFor p d.workerQueue ∧
    tasksOn s (runMainIteration env enotconn now (.ret r) d).2.1.workerQueue
      = tasksOn s d.workerQueue ∧
    tasksFor p (runMainIteration env enotconn now (.ret r) d).2.1.workerQueue
      = tasksFor p d.workerQueue := by
  obtain ⟨o1, -, o3, o4⟩ := out_of_rotation_build now d hwf s p hmem hw
  obtain ⟨b1, b2⟩ := build_no_task now d hwf s p hmem hw
  have hfb := buildWatchlists_frame now d
  have hwf1 : (select r (buildWatchlists now d)).WF := WF_of_frame hfb.1 hfb.2.1 hwf
  obtain ⟨c1, c2⟩ := dispatchReadiness_no_task now r.n (select r (buildWatchlists now d))
    hwf1 s p (by rw [show (select r (buildWatchlists now d)).socketMap = d.socketMap from hfb.1]
                 exact hmem)
    (fun h => (hsel s (Or.inl h)).elim o3 o4) (fun h => (hsel s (Or.inr h)).elim o3 o4)
  have e1 : tasksOn s (readinessSteps now r d).workerQueue = tasksOn s d.workerQueue :=
    c1.trans b1
  have e2 : tasksFor p (readinessSteps now r d).workerQueue = tasksFor p d.workerQueue :=
    c2.trans b2
  have hq : (runMainIteration env enotconn now (.ret r) d).2.1.workerQueue
      = (readinessSteps now r d).workerQueue := by
    rw [iteration_state]
    exact drainCommands_workerQueue env now _
  refine ⟨o1, o3, o4, e1, e2, ?_, ?_⟩
  · rw [hq]; exact e1
  · rw [hq]; exact e2

theorem afterReadableReport_valid :
    readReady1.Valid (buildWatchlists 0 (oneSocket 1)) ∧
    nothingReady.Valid (buildWatchlists 4 afterReadableReport) := by
  unfold SelectResult.Valid
  decide

theorem oneOutOneIn_WF : oneOutOneIn.WF := by
  refine ⟨?_, ?_, ?_⟩ <;> decide

theorem readReady2_within :
    ∀ x, x ∈ readReady2.readReady ∨ x ∈ readReady2.exceptReady →
      x ∈ (buildWatchlists 10 oneOutOneIn).readList ∨
        x ∈ (buildWatchlists 10 oneOutOneIn).exceptList := by
  intro x hx
  have hx2 : x = 2 := by
    rcases hx with h | h
    · simpa [readReady2] using h
    · simp [readReady2] at h
  subst hx2
  exact Or.inl (by decide)

/-- Witness for `out_of_rotation_no_task`: socket 1 is out of rotation with
its Readable task queued, and its idle timeout of 3 has long run out at
instant 10 (the same record with `wantRead = true` would time out); socket 2
is watched and `select` reports it readable. The pass at instant 10 posts the
Readable task of socket 2 and nothing for socket 1. -/
theorem out_of_rotation_no_task_witness :
    oneOutOneIn.WF ∧ (1, 0) ∈ oneOutOneIn.socketMap ∧
    (oneOutOneIn.heap 0).wantRead = false ∧
    (∀ x, x ∈ readReady2.readReady ∨ x ∈ readReady2.exceptReady →
      x ∈ (buildWatchlists 10 oneOutOneIn).readList ∨
        x ∈ (buildWatchlists 10 oneOutOneIn).exceptList) ∧
    timedOut 10 { oneOutOneIn.heap 0 with wantRead := true } = true ∧
    oneOutOneIn.workerQueue = [Task.readable 1 0] ∧
    (runMainIteration chattyEnv 107 10 (.ret readReady2) oneOutOneIn).2.1.workerQueue
      = [Task.readable 1 0, Task.readable 2 1] ∧
    (((buildWatchlists 10 oneOutOneIn).heap 0).wantRead = false ∧
      1 ∉ (buildWatchlists 10 oneOutOneIn).readList ∧
      1 ∉ (buildWatchlists 10 oneOutOneIn).exceptList ∧
      tasksOn 1 (readinessSteps 10 readReady2 oneOutOneIn).workerQueue
        = tasksOn 1 oneOutOneIn.workerQueue ∧
      tasksFor 0 (readinessSteps 10 readReady2 oneOutOneIn).workerQueue
        = tasksFor 0 oneOutOneIn.workerQueue ∧
      tasksOn 1 (runMainIteration chattyEnv 107 10 (.ret readReady2)
        oneOutOneIn).2.1.workerQueue = tasksOn 1 oneOutOneIn.workerQueue ∧
      tasksFor 0 (runMainIteration chattyEnv 107 10 (.ret readReady2)
        oneOutOneIn).2.1.workerQueue = tasksFor 0 oneOutOneIn.workerQueue) :=
  ⟨oneOutOneIn_WF, by decide, by decide, readReady2_within, by decide, by decide,
    by decide,
    out_of_rotation_no_task chattyEnv 107 10 readReady2 oneOutOneIn oneOutOneIn_WF 1 0
      (by decide) (by decide) readReady2_within⟩

end SocketDispatcher
